import Mathlib

/-!
# GAMES101 homework: bounding boxes, BVH construction and BVH traversal

A shallow embedding of `Assignment6/Bounds3.hpp`, `Assignment6/BVH.cpp` and of
the light sampling and the path-tracing integrator of `Assignment7/Scene.cpp`,
followed by the brute-force `trace` (`Assignment5/Renderer.cpp`,
`Assignment7/Scene.cpp`), `rayTriangleIntersect` (`Assignment5/Triangle.hpp`),
the Bezier evaluation of `Assignment4/main.cpp` and the coverage test and the
barycentric weights of `Assignment2/rasterizer.cpp`.

Conventions of the embedding
* `float` / `double` values are exact rationals (`ℚ`); a hit distance, whose
  default is "+∞", is a `WithTop ℚ`.
* `Object*` is an abstract type `Obj`; the virtual methods `getBounds` and
  `getIntersection` of a primitive are function parameters.
* `BVHBuildNode*` is the type `BVHBuildNode Obj`, whose constructor `null`
  is the null pointer.  Dereferencing a null pointer is a fault, `none`.
* `std::sort` is a function parameter `sort`; the theorems that need it assume
  what the standard promises of it (a permutation of the input, ordered by the
  comparison), nothing about the order of equal keys.  One instance is
  `libstdcxx.sort`, the algorithm of the GNU C++ library.
* Where a reciprocal may be infinite (a zero direction component), the slab
  test is restated as `Bounds3.IntersectPInf` over `Ext`, the finite values
  extended by `+∞`, `-∞` and NaN with the IEEE-754 product and comparison; on
  finite reciprocals it is `Bounds3.IntersectP`.
* The constructor of `BVHAccel` takes the value `root0` that the member `root`
  holds before the body runs, because the constructor does not initialise it.
* `recursiveBuild` carries a recursion budget (`fuel`): `none` is "the call
  does not return within that many nested calls".
* `get_random_float()` is a parameter `u` of `sampleLight`, and the virtual
  methods `hasEmit`, `getArea` and `Sample` are function parameters.
* `castRay` works on a `Scene` record that holds the query `intersect`, the
  primitive and material capabilities, `norm` and `normalize` (which take a
  square root) and the sequence `rand` of the values of `get_random_float()`;
  it carries a recursion budget like `recursiveBuild` and reports, next to the
  colour, what it did (draws, light samples, depths of the recursive calls).
* A function with output parameters returns the tuple of its result and of the
  final values of those parameters; `kInfinity` is `⊤`.
* `cv::Point2f` is a pair of rationals; an array of three vertices is a triple.
-/

namespace GAMES101

/-! ## Vector3f and Ray -/

/-- Modelled from the spec: `Vector3f` of `Vector.hpp`, a 3D point or vector with
three `float` coordinates. -/
structure Vector3f where
  x : ℚ
  y : ℚ
  z : ℚ
deriving DecidableEq

namespace Vector3f

/-- Modelled from the spec: `Vector3f::Min` of `Vector.hpp`, the componentwise
minimum. -/
def Min (p1 p2 : Vector3f) : Vector3f :=
  ⟨min p1.x p2.x, min p1.y p2.y, min p1.z p2.z⟩

/-- Modelled from the spec: `Vector3f::Max` of `Vector.hpp`, the componentwise
maximum. -/
def Max (p1 p2 : Vector3f) : Vector3f :=
  ⟨max p1.x p2.x, max p1.y p2.y, max p1.z p2.z⟩

/-- Modelled from the spec: `operator+` of `Vector.hpp`, the componentwise sum. -/
def add (a b : Vector3f) : Vector3f := ⟨a.x + b.x, a.y + b.y, a.z + b.z⟩

/-- Modelled from the spec: `operator-` of `Vector.hpp`, the componentwise
difference. -/
def sub (a b : Vector3f) : Vector3f := ⟨a.x - b.x, a.y - b.y, a.z - b.z⟩

/-- Modelled from the spec: `operator*` of `Vector.hpp` with a scalar on the
left. -/
def smul (r : ℚ) (a : Vector3f) : Vector3f := ⟨r * a.x, r * a.y, r * a.z⟩

/-- Coordinate `i` of a vector (`0 = x`, `1 = y`, anything else `z`). -/
def coord (i : ℕ) (a : Vector3f) : ℚ :=
  match i with
  | 0 => a.x
  | 1 => a.y
  | _ => a.z

end Vector3f

/-- Modelled from the spec: `Ray` of `Ray.hpp`, an origin point and a direction
vector, parametrized as `P(t) = origin + t * direction`. -/
structure Ray where
  origin : Vector3f
  direction : Vector3f
deriving DecidableEq

/-- Modelled from the spec: `Ray::operator()(t)` of `Ray.hpp`, the point
`P(t) = origin + t * direction`. -/
def Ray.eval (ray : Ray) (t : ℚ) : Vector3f :=
  Vector3f.add ray.origin (Vector3f.smul t ray.direction)

/-! ## Bounds3 -/

/-- An axis-aligned box given by two corner points. -/
structure Bounds3 where
  pMin : Vector3f
  pMax : Vector3f
deriving DecidableEq

/-- `std::numeric_limits<double>::max()`, the largest finite `double`. -/
def maxNum : ℚ := 2 ^ 1024 - 2 ^ 971

/-- `std::numeric_limits<double>::lowest()`. -/
def minNum : ℚ := -maxNum

/-- `int(b)` for a `bool`. -/
def boolToInt (b : Bool) : ℤ := if b then 1 else 0

namespace Bounds3

/-- `Bounds3()`: the empty box, `pMin` at the largest and `pMax` at the lowest
number. -/
def empty : Bounds3 :=
  { pMax := ⟨minNum, minNum, minNum⟩, pMin := ⟨maxNum, maxNum, maxNum⟩ }

/-- `Bounds3(p)`. -/
def ofPoint (p : Vector3f) : Bounds3 := ⟨p, p⟩

/-- `Bounds3(p1, p2)`. -/
def ofPoints (p1 p2 : Vector3f) : Bounds3 :=
  { pMin := ⟨min p1.x p2.x, min p1.y p2.y, min p1.z p2.z⟩,
    pMax := ⟨max p1.x p2.x, max p1.y p2.y, max p1.z p2.z⟩ }

/-- `Diagonal()`. -/
def Diagonal (b : Bounds3) : Vector3f := Vector3f.sub b.pMax b.pMin

/-- `maxExtent()`. -/
def maxExtent (b : Bounds3) : ℕ :=
  let d := b.Diagonal
  if d.x > d.y ∧ d.x > d.z then 0
  else if d.y > d.z then 1
  else 2

/-- `Centroid()`. -/
def Centroid (b : Bounds3) : Vector3f :=
  Vector3f.add (Vector3f.smul (1 / 2) b.pMin) (Vector3f.smul (1 / 2) b.pMax)

/-- `Inside(p, b)`. -/
def Inside (p : Vector3f) (b : Bounds3) : Bool :=
  decide (p.x ≥ b.pMin.x ∧ p.x ≤ b.pMax.x ∧ p.y ≥ b.pMin.y ∧
          p.y ≤ b.pMax.y ∧ p.z ≥ b.pMin.z ∧ p.z ≤ b.pMax.z)

/-- `Bounds3::IntersectP(ray, invDir, dirIsNeg)`: the slab test. -/
def IntersectP (b : Bounds3) (ray : Ray) (invDir : Vector3f)
    (dirIsNeg : ℤ × ℤ × ℤ) : Bool :=
  let tmin := (b.pMin.x - ray.origin.x) * invDir.x
  let tmax := (b.pMax.x - ray.origin.x) * invDir.x
  let tmin_x := if dirIsNeg.1 > 0 then tmax else tmin
  let tmax_x := if dirIsNeg.1 > 0 then tmin else tmax
  let tmin := (b.pMin.y - ray.origin.y) * invDir.y
  let tmax := (b.pMax.y - ray.origin.y) * invDir.y
  let tmin_y := if dirIsNeg.2.1 > 0 then tmax else tmin
  let tmax_y := if dirIsNeg.2.1 > 0 then tmin else tmax
  let tmin := (b.pMin.z - ray.origin.z) * invDir.z
  let tmax := (b.pMax.z - ray.origin.z) * invDir.z
  let tmin_z := if dirIsNeg.2.2 > 0 then tmax else tmin
  let tmax_z := if dirIsNeg.2.2 > 0 then tmin else tmax
  let t_enter := max tmin_x (max tmin_y tmin_z)
  let t_exit := min tmax_x (min tmax_y tmax_z)
  if t_enter < t_exit then true else false

/-- The per-axis entry parameters `(tmin_x, tmin_y, tmin_z)` that `IntersectP`
takes the maximum of. -/
def entryParams (b : Bounds3) (ray : Ray) (invDir : Vector3f)
    (dirIsNeg : ℤ × ℤ × ℤ) : ℚ × ℚ × ℚ :=
  let tmin := (b.pMin.x - ray.origin.x) * invDir.x
  let tmax := (b.pMax.x - ray.origin.x) * invDir.x
  let tmin_x := if dirIsNeg.1 > 0 then tmax else tmin
  let tmin := (b.pMin.y - ray.origin.y) * invDir.y
  let tmax := (b.pMax.y - ray.origin.y) * invDir.y
  let tmin_y := if dirIsNeg.2.1 > 0 then tmax else tmin
  let tmin := (b.pMin.z - ray.origin.z) * invDir.z
  let tmax := (b.pMax.z - ray.origin.z) * invDir.z
  let tmin_z := if dirIsNeg.2.2 > 0 then tmax else tmin
  (tmin_x, tmin_y, tmin_z)

/-- The per-axis exit parameters `(tmax_x, tmax_y, tmax_z)` that `IntersectP`
takes the minimum of. -/
def exitParams (b : Bounds3) (ray : Ray) (invDir : Vector3f)
    (dirIsNeg : ℤ × ℤ × ℤ) : ℚ × ℚ × ℚ :=
  let tmin := (b.pMin.x - ray.origin.x) * invDir.x
  let tmax := (b.pMax.x - ray.origin.x) * invDir.x
  let tmax_x := if dirIsNeg.1 > 0 then tmin else tmax
  let tmin := (b.pMin.y - ray.origin.y) * invDir.y
  let tmax := (b.pMax.y - ray.origin.y) * invDir.y
  let tmax_y := if dirIsNeg.2.1 > 0 then tmin else tmax
  let tmin := (b.pMin.z - ray.origin.z) * invDir.z
  let tmax := (b.pMax.z - ray.origin.z) * invDir.z
  let tmax_z := if dirIsNeg.2.2 > 0 then tmin else tmax
  (tmax_x, tmax_y, tmax_z)

/-- Box validity: `pMin ≤ pMax` on every axis. -/
def Valid (b : Bounds3) : Prop :=
  b.pMin.x ≤ b.pMax.x ∧ b.pMin.y ≤ b.pMax.y ∧ b.pMin.z ≤ b.pMax.z

instance (b : Bounds3) : Decidable b.Valid := by
  unfold Valid; infer_instance

end Bounds3

/-- `Union(b1, b2)`. -/
def Union (b1 b2 : Bounds3) : Bounds3 :=
  { pMin := Vector3f.Min b1.pMin b2.pMin, pMax := Vector3f.Max b1.pMax b2.pMax }

/-- `Union(b, p)` for a point `p`. -/
def UnionPoint (b : Bounds3) (p : Vector3f) : Bounds3 :=
  { pMin := Vector3f.Min b.pMin p, pMax := Vector3f.Max b.pMax p }

/-! ## What `getIntersection` hands to `IntersectP` -/

/-- The `dirIsNeg` array computed at the top of `BVHAccel::getIntersection`. -/
def dirIsNegOf (ray : Ray) : ℤ × ℤ × ℤ :=
  (boolToInt (decide (ray.direction.x > 0)),
   boolToInt (decide (ray.direction.y > 0)),
   boolToInt (decide (ray.direction.z > 0)))

/-- The `invDir` vector computed at the top of `BVHAccel::getIntersection`. -/
def invDirOf (ray : Ray) : Vector3f :=
  ⟨1 / ray.direction.x, 1 / ray.direction.y, 1 / ray.direction.z⟩

/-- The sign flags as the documentation of `Bounds3::IntersectP` describes its
parameter: `[int(x<0), int(y<0), int(z<0)]`. -/
def negFlags (d : Vector3f) : ℤ × ℤ × ℤ :=
  (boolToInt (decide (d.x < 0)), boolToInt (decide (d.y < 0)),
   boolToInt (decide (d.z < 0)))

/-- The componentwise reciprocal `(1/dx, 1/dy, 1/dz)`. -/
def recip (d : Vector3f) : Vector3f := ⟨1 / d.x, 1 / d.y, 1 / d.z⟩

/-- The hit criterion in the words of the specification: with
`t0 = (pMin - origin) * invDir` and `t1 = (pMax - origin) * invDir` per axis,
the largest of the three `min t0 t1` is strictly below the smallest of the
three `max t0 t1`. -/
def specSlabHit (b : Bounds3) (origin invDir : Vector3f) : Prop :=
  max (max (min ((b.pMin.x - origin.x) * invDir.x) ((b.pMax.x - origin.x) * invDir.x))
           (min ((b.pMin.y - origin.y) * invDir.y) ((b.pMax.y - origin.y) * invDir.y)))
      (min ((b.pMin.z - origin.z) * invDir.z) ((b.pMax.z - origin.z) * invDir.z))
    < min (min (max ((b.pMin.x - origin.x) * invDir.x) ((b.pMax.x - origin.x) * invDir.x))
               (max ((b.pMin.y - origin.y) * invDir.y) ((b.pMax.y - origin.y) * invDir.y)))
          (max ((b.pMin.z - origin.z) * invDir.z) ((b.pMax.z - origin.z) * invDir.z))

/-! ## Intersection records and BVH nodes -/

/-- Modelled from the spec: `Intersection` of `Intersection.hpp`, a record with
a "did it happen" flag, the hit point, the surface normal, the hit distance,
the emitted radiance, the hit primitive and a reference to its material. -/
structure Intersection (Obj : Type) where
  happened : Bool
  coords : Vector3f
  normal : Vector3f
  distance : WithTop ℚ
  emit : Vector3f
  obj : Option Obj
  m : Option ℕ

/-- Modelled from the spec: the default-constructed `Intersection()`, the
"no intersection" sentinel: nothing happened, distance `+∞`. -/
def Intersection.new {Obj : Type} : Intersection Obj :=
  { happened := false, coords := ⟨0, 0, 0⟩, normal := ⟨0, 0, 0⟩, distance := ⊤,
    emit := ⟨0, 0, 0⟩, obj := none, m := none }

/-- Modelled from the spec: `BVHBuildNode*` of `BVH.hpp`.  `null` is the null
pointer; `mk bounds left right object` is a pointer to a node with these four
fields (`object` is `none` for a null `Object*`). -/
inductive BVHBuildNode (Obj : Type) where
  | null : BVHBuildNode Obj
  | mk (bounds : Bounds3) (left right : BVHBuildNode Obj) (object : Option Obj) :
      BVHBuildNode Obj

namespace BVHBuildNode

/-- `node == nullptr`. -/
def isNull {Obj : Type} : BVHBuildNode Obj → Bool
  | null => true
  | mk _ _ _ _ => false

/-- `node->bounds`; `none` when `node` is null. -/
def bounds? {Obj : Type} : BVHBuildNode Obj → Option Bounds3
  | null => none
  | mk b _ _ _ => some b

/-- A node is a leaf when both child pointers are null (the test of
`getIntersection`). -/
def isLeaf {Obj : Type} : BVHBuildNode Obj → Bool
  | null => false
  | mk _ l r _ => l.isNull && r.isNull

/-- The primitives held by the leaves below a node, from left to right. -/
def leaves {Obj : Type} : BVHBuildNode Obj → List Obj
  | null => []
  | mk _ l r o => if l.isNull && r.isNull then o.toList else leaves l ++ leaves r

/-- The number of leaf nodes below (and including) a node. -/
def numLeaves {Obj : Type} : BVHBuildNode Obj → ℕ
  | null => 0
  | mk _ l r _ => if l.isNull && r.isNull then 1 else numLeaves l + numLeaves r

/-- The nodes of a subtree: the node itself and everything below it. -/
def nodes {Obj : Type} : BVHBuildNode Obj → List (BVHBuildNode Obj)
  | null => []
  | mk b l r o => mk b l r o :: (nodes l ++ nodes r)

/-- The shape the specification gives a tree: every node is either a leaf,
with two null children and one primitive, or an internal node with exactly two
children (both non-null) and no primitive of its own. -/
def WellFormed {Obj : Type} : BVHBuildNode Obj → Prop
  | null => False
  | mk _ l r o =>
      (l.isNull = true ∧ r.isNull = true ∧ o.isSome = true) ∨
      (l.isNull = false ∧ r.isNull = false ∧ o = none ∧ WellFormed l ∧ WellFormed r)

/-- The height of a tree: the number of edges on the longest path from the
node to a leaf. -/
def height {Obj : Type} : BVHBuildNode Obj → ℕ
  | null => 0
  | mk _ l r _ => if l.isNull && r.isNull then 0 else max (height l) (height r) + 1

end BVHBuildNode

/-! ## BVH construction -/

/-- The centroid box computed in the third branch of `recursiveBuild`: the
loop `centroidBounds = Union(centroidBounds, objects[i]->getBounds().Centroid())`
started from `Bounds3()`. -/
def centroidBoundsOf {Obj : Type} (getBounds : Obj → Bounds3) (objects : List Obj) :
    Bounds3 :=
  objects.foldl (fun cb o => UnionPoint cb (getBounds o).Centroid) Bounds3.empty

/-- The `switch (dim)` of `recursiveBuild`: `std::sort` with the comparison of
the centroid coordinate on axis `dim`; no case, and no sorting, for any other
value of `dim`. -/
def sortByDim {Obj : Type} (getBounds : Obj → Bounds3)
    (sort : (Obj → Obj → Bool) → List Obj → List Obj) (dim : ℕ) (objects : List Obj) :
    List Obj :=
  match dim with
  | 0 => sort (fun f1 f2 => decide ((getBounds f1).Centroid.x < (getBounds f2).Centroid.x))
           objects
  | 1 => sort (fun f1 f2 => decide ((getBounds f1).Centroid.y < (getBounds f2).Centroid.y))
           objects
  | 2 => sort (fun f1 f2 => decide ((getBounds f1).Centroid.z < (getBounds f2).Centroid.z))
           objects
  | _ => objects

/-- `BVHAccel::recursiveBuild(objects)`.  `fuel` bounds the depth of nested
calls; `sort comp objects` stands for `std::sort(objects.begin(),
objects.end(), comp)`. -/
def recursiveBuild {Obj : Type} (getBounds : Obj → Bounds3)
    (sort : (Obj → Obj → Bool) → List Obj → List Obj) :
    ℕ → List Obj → Option (BVHBuildNode Obj)
  | 0, _ => none
  | fuel + 1, objects =>
    -- `bounds`, the union of all primitives' bounds, is computed and never read
    let _bounds := objects.foldl (fun b o => Union b (getBounds o)) Bounds3.empty
    match objects with
    | [o] => some (BVHBuildNode.mk (getBounds o) BVHBuildNode.null BVHBuildNode.null (some o))
    | [o0, o1] =>
      (recursiveBuild getBounds sort fuel [o0]).bind fun left =>
      (recursiveBuild getBounds sort fuel [o1]).bind fun right =>
      left.bounds?.bind fun lb =>
      right.bounds?.bind fun rb =>
      some (BVHBuildNode.mk (Union lb rb) left right none)
    | objects =>
      let centroidBounds := centroidBoundsOf getBounds objects
      let dim := centroidBounds.maxExtent
      let objects := sortByDim getBounds sort dim objects
      let leftshapes := objects.take (objects.length / 2)
      let rightshapes := objects.drop (objects.length / 2)
      -- `assert(objects.size() == (leftshapes.size() + rightshapes.size()))`
      if objects.length = leftshapes.length + rightshapes.length then
        (recursiveBuild getBounds sort fuel leftshapes).bind fun left =>
        (recursiveBuild getBounds sort fuel rightshapes).bind fun right =>
        left.bounds?.bind fun lb =>
        right.bounds?.bind fun rb =>
        some (BVHBuildNode.mk (Union lb rb) left right none)
      else none

/-- The two split strategies of `BVHAccel::SplitMethod`. -/
inductive SplitMethod where
  | NAIVE
  | SAH
deriving DecidableEq

/-- Modelled from the spec: the data members of a `BVHAccel` (`BVH.hpp`). -/
structure BVHAccel (Obj : Type) where
  maxPrimsInNode : ℤ
  splitMethod : SplitMethod
  primitives : List Obj
  root : BVHBuildNode Obj

/-- The constructor `BVHAccel::BVHAccel(p, maxPrimsInNode, splitMethod)`; `none`
when `recursiveBuild` does not return within `fuel` nested calls.  The
initialiser list sets `maxPrimsInNode`, `splitMethod` and `primitives` and
does not mention `root`, and the body assigns `root` only after the early
return for an empty list: `root0` is the value that the member `root` holds
when the body starts (whatever its declaration in `BVH.hpp` or the storage of
the object gives it), and it is what the empty branch leaves there. -/
def BVHAccel.new {Obj : Type} (getBounds : Obj → Bounds3)
    (sort : (Obj → Obj → Bool) → List Obj → List Obj) (fuel : ℕ)
    (p : List Obj) (maxPrimsInNode : ℤ) (splitMethod : SplitMethod)
    (root0 : BVHBuildNode Obj) : Option (BVHAccel Obj) :=
  if p.isEmpty then
    some { maxPrimsInNode := min 255 maxPrimsInNode, splitMethod := splitMethod,
           primitives := p, root := root0 }
  else
    (recursiveBuild getBounds sort fuel p).map fun r =>
      { maxPrimsInNode := min 255 maxPrimsInNode, splitMethod := splitMethod,
        primitives := p, root := r }

/-! ## BVH traversal -/

/-- `BVHAccel::getIntersection(node, ray)`.  `objIntersection o ray` stands for
the virtual call `o->getIntersection(ray)`; the result is `none` when a null
pointer is dereferenced. -/
def getIntersection {Obj : Type} (objIntersection : Obj → Ray → Intersection Obj) :
    BVHBuildNode Obj → Ray → Option (Intersection Obj)
  | BVHBuildNode.null, _ => none
  | BVHBuildNode.mk bounds left right object, ray =>
    let dirIsNeg : ℤ × ℤ × ℤ :=
      (boolToInt (decide (ray.direction.x > 0)),
       boolToInt (decide (ray.direction.y > 0)),
       boolToInt (decide (ray.direction.z > 0)))
    let invDir : Vector3f :=
      ⟨1 / ray.direction.x, 1 / ray.direction.y, 1 / ray.direction.z⟩
    if bounds.IntersectP ray invDir dirIsNeg = false then
      some Intersection.new
    else if left.isNull && right.isNull then
      object.map fun o => objIntersection o ray
    else
      (getIntersection objIntersection left ray).bind fun hit1 =>
      (getIntersection objIntersection right ray).bind fun hit2 =>
      some (if hit1.distance < hit2.distance then hit1 else hit2)

/-- `BVHAccel::Intersect(ray)`. -/
def BVHAccel.Intersect {Obj : Type} (objIntersection : Obj → Ray → Intersection Obj)
    (accel : BVHAccel Obj) (ray : Ray) : Option (Intersection Obj) :=
  let isect : Intersection Obj := Intersection.new
  if accel.root.isNull then some isect
  else getIntersection objIntersection accel.root ray

/-- The number of nodes `getIntersection` is called on (and whose bounds it
tests) during `getIntersection(node, ray)`. -/
def visitedNodes {Obj : Type} : BVHBuildNode Obj → Ray → ℕ
  | BVHBuildNode.null, _ => 0
  | BVHBuildNode.mk bounds left right _, ray =>
    if bounds.IntersectP ray (invDirOf ray) (dirIsNegOf ray) = false then 1
    else if left.isNull && right.isNull then 1
    else 1 + visitedNodes left ray + visitedNodes right ray

/-- The number of nodes visited by `BVHAccel::Intersect(ray)`. -/
def BVHAccel.visited {Obj : Type} (accel : BVHAccel Obj) (ray : Ray) : ℕ :=
  if accel.root.isNull then 0 else visitedNodes accel.root ray

/-! ## Reference notions of the specification -/

/-- Brute force, in the words of the specification: test the ray against every
primitive directly and keep the nearest hit (the first one among equally near
hits); the sentinel when the list is empty. -/
def bruteForce {Obj : Type} (objIntersection : Obj → Ray → Intersection Obj)
    (objects : List Obj) (ray : Ray) : Intersection Obj :=
  objects.foldl
    (fun best o => if (objIntersection o ray).distance < best.distance
                   then objIntersection o ray else best)
    Intersection.new

/-- The union of a list of boxes, componentwise least `pMin` and greatest
`pMax`; `none` for the empty list. -/
def unionAll : List Bounds3 → Option Bounds3
  | [] => none
  | b :: bs =>
    match unionAll bs with
    | none => some b
    | some u => some (Union b u)

/-- The bounding box of the centroids of the primitives' bounds, in the words
of the specification: the union of the one-point boxes of the centroids. -/
def centroidBox {Obj : Type} (getBounds : Obj → Bounds3) (objects : List Obj) :
    Option Bounds3 :=
  unionAll (objects.map fun o => Bounds3.ofPoint (getBounds o).Centroid)

/-- Box `outer` contains box `inner`. -/
def Bounds3.Contains (outer inner : Bounds3) : Prop :=
  outer.pMin.x ≤ inner.pMin.x ∧ outer.pMin.y ≤ inner.pMin.y ∧ outer.pMin.z ≤ inner.pMin.z ∧
  inner.pMax.x ≤ outer.pMax.x ∧ inner.pMax.y ≤ outer.pMax.y ∧ inner.pMax.z ≤ outer.pMax.z

/-- A point all of whose coordinates are finite `double`s. -/
def Vector3f.Finite (p : Vector3f) : Prop :=
  minNum ≤ p.x ∧ p.x ≤ maxNum ∧ minNum ≤ p.y ∧ p.y ≤ maxNum ∧ minNum ≤ p.z ∧ p.z ≤ maxNum

/-- What the C++ standard promises of `std::sort` for the comparisons used by
`recursiveBuild`: the result is a permutation of the input. -/
def SortPermutes {Obj : Type} (sort : (Obj → Obj → Bool) → List Obj → List Obj) : Prop :=
  ∀ (comp : Obj → Obj → Bool) (l : List Obj), List.Perm (sort comp l) l

/-- What the C++ standard promises of `std::sort` for a comparison "smaller
key": in the result no element is followed by one with a smaller key. -/
def SortOrders {Obj : Type} (sort : (Obj → Obj → Bool) → List Obj → List Obj) : Prop :=
  ∀ (key : Obj → ℚ) (l : List Obj),
    List.Pairwise (fun a b => key a ≤ key b) (sort (fun a b => decide (key a < key b)) l)

/-- An insertion sort, one admissible `std::sort`. -/
def insertionSort {Obj : Type} (comp : Obj → Obj → Bool) (l : List Obj) : List Obj :=
  l.insertionSort (fun a b => comp b a = false)

/-- Every node of the tree has as bounds exactly the union of the bounds of the
primitives held by the leaves below it. -/
def BoundsExact {Obj : Type} (getBounds : Obj → Bounds3) (t : BVHBuildNode Obj) : Prop :=
  ∀ s ∈ t.nodes, s.bounds? = unionAll (s.leaves.map getBounds)

/-- A box whose `pMin` coordinates do not exceed the largest `double` and whose
`pMax` coordinates are not below the lowest one. -/
def Bounds3.WithinLimits (b : Bounds3) : Prop :=
  b.pMin.x ≤ maxNum ∧ b.pMin.y ≤ maxNum ∧ b.pMin.z ≤ maxNum ∧
  minNum ≤ b.pMax.x ∧ minNum ≤ b.pMax.y ∧ minNum ≤ b.pMax.z

/-! ## Sample data -/

/-- The box `[-1, 1]³`. -/
def unitBox : Bounds3 := ⟨⟨-1, -1, -1⟩, ⟨1, 1, 1⟩⟩

/-- A ray from `(-1, -2, -2)` with the unit direction `(1/3, 2/3, 2/3)`; it
reaches the centre of `unitBox` at `t = 3`. -/
def sampleRay : Ray := ⟨⟨-1, -2, -2⟩, ⟨1 / 3, 2 / 3, 2 / 3⟩⟩

/-- The box `[1, 2]³`. -/
def boxBehind : Bounds3 := ⟨⟨1, 1, 1⟩, ⟨2, 2, 2⟩⟩

/-- A ray from `(5/2, 7/2, 7/2)` with the unit direction `(1/3, 2/3, 2/3)`: it
starts beyond `boxBehind` and moves away from it. -/
def rayAway : Ray := ⟨⟨5 / 2, 7 / 2, 7 / 2⟩, ⟨1 / 3, 2 / 3, 2 / 3⟩⟩

/-- A box whose corners are exchanged: `pMin = (1,1,1)`, `pMax = (-1,-1,-1)`. -/
def invertedBox : Bounds3 := ⟨⟨1, 1, 1⟩, ⟨-1, -1, -1⟩⟩

/-- Two leaves with the bounds `invertedBox`, holding the primitives 0 and 1,
under a root with the same bounds. -/
def sampleLeaf (o : ℕ) : BVHBuildNode ℕ :=
  BVHBuildNode.mk invertedBox BVHBuildNode.null BVHBuildNode.null (some o)

/-- A root over `sampleLeaf 0` and `sampleLeaf 1`. -/
def sampleNode : BVHBuildNode ℕ :=
  BVHBuildNode.mk invertedBox (sampleLeaf 0) (sampleLeaf 1) none

/-- A primitive interface for the sample node: primitive 0 is hit at distance
5, every other primitive at distance 4. -/
def sampleHit (o : ℕ) (_ray : Ray) : Intersection ℕ :=
  { happened := true, coords := ⟨0, 0, 0⟩, normal := ⟨0, 0, 0⟩,
    distance := if o = 0 then ((5 : ℚ) : WithTop ℚ) else ((4 : ℚ) : WithTop ℚ),
    emit := ⟨0, 0, 0⟩, obj := some o, m := none }

/-- The bounds of the unit sphere around the origin, for every primitive. -/
def sphereBounds (_o : ℕ) : Bounds3 := unitBox

/-- The unit sphere around the origin as a primitive: `sampleRay`, which starts
at distance 3 from the centre and points at it, hits the sphere at distance 2
in the point `(-1/3, -2/3, -2/3)`; other rays are not described. -/
def sphereHit (o : ℕ) (ray : Ray) : Intersection ℕ :=
  if ray = sampleRay then
    { happened := true, coords := ⟨-1 / 3, -2 / 3, -2 / 3⟩,
      normal := ⟨-1 / 3, -2 / 3, -2 / 3⟩, distance := ((2 : ℚ) : WithTop ℚ),
      emit := ⟨0, 0, 0⟩, obj := some o, m := none }
  else Intersection.new

/-- Sample bounds for the primitives `0, 1, 2, ...`: primitive `i` occupies
`[i, i + 1] × [0, 1] × [0, 1]`. -/
def boxAt (i : ℕ) : Bounds3 := ⟨⟨(i : ℚ), 0, 0⟩, ⟨(i : ℚ) + 1, 1, 1⟩⟩

/-- The tie-break in the words of the specification, order x, then y, then z:
the lowest-numbered axis among those with the largest component (0 if x ties
for largest, else 1 if y ties for largest, else 2). -/
def lowestLargestAxis (d : Vector3f) : ℕ :=
  if d.y ≤ d.x ∧ d.z ≤ d.x then 0
  else if d.z ≤ d.y then 1
  else 2

/-- The box `[0, 1] × [0, 1] × [0, 0]`: its diagonal `(1, 1, 0)` has x and y
tied for the largest component. -/
def tieBox : Bounds3 := ⟨⟨0, 0, 0⟩, ⟨1, 1, 0⟩⟩

/-! ## Scene: light sampling -/

/-- The first loop of `Scene::sampleLight`: `emit_area_sum` after adding
`getArea()` of every object with `hasEmit()`. -/
def emitAreaSum {Obj : Type} (hasEmit : Obj → Bool) (getArea : Obj → ℚ)
    (objects : List Obj) : ℚ :=
  objects.foldl
    (fun emit_area_sum o => if hasEmit o then emit_area_sum + getArea o else emit_area_sum) 0

/-- The second loop of `Scene::sampleLight`, entered at index `k` with the
running total `emit_area_sum`: the index and the object on which `Sample` is
called, `none` when the loop ends without a call. -/
def sampleLoop {Obj : Type} (hasEmit : Obj → Bool) (getArea : Obj → ℚ) (p : ℚ) :
    List Obj → ℚ → ℕ → Option (ℕ × Obj)
  | [], _, _ => none
  | o :: rest, emit_area_sum, k =>
    if hasEmit o then
      if p ≤ emit_area_sum + getArea o then some (k, o)
      else sampleLoop hasEmit getArea p rest (emit_area_sum + getArea o) (k + 1)
    else sampleLoop hasEmit getArea p rest emit_area_sum (k + 1)

/-- The object that `Scene::sampleLight` delegates to when `get_random_float()`
returns `u`: its index in `objects` and the object. -/
def sampledLight {Obj : Type} (hasEmit : Obj → Bool) (getArea : Obj → ℚ)
    (objects : List Obj) (u : ℚ) : Option (ℕ × Obj) :=
  sampleLoop hasEmit getArea (u * emitAreaSum hasEmit getArea objects) objects 0 0

/-- `Scene::sampleLight(pos, pdf)`: `u` is the value of `get_random_float()`,
`Sample o` the effect of `o->Sample(pos, pdf)` on the two reference
parameters.  The result is the final value of `(pos, pdf)`. -/
def sampleLight {Obj : Type} (hasEmit : Obj → Bool) (getArea : Obj → ℚ)
    (Sample : Obj → Intersection Obj × ℚ → Intersection Obj × ℚ)
    (objects : List Obj) (u : ℚ) (pos : Intersection Obj) (pdf : ℚ) :
    Intersection Obj × ℚ :=
  let emit_area_sum := emitAreaSum hasEmit getArea objects
  let p := u * emit_area_sum
  match sampleLoop hasEmit getArea p objects 0 0 with
  | some (_, o) => Sample o (pos, pdf)
  | none => (pos, pdf)

/-- The total emissive area in the words of the specification: the sum of
`getArea()` over the emissive objects. -/
def emissiveArea {Obj : Type} (hasEmit : Obj → Bool) (getArea : Obj → ℚ)
    (objects : List Obj) : ℚ :=
  ((objects.filter hasEmit).map getArea).sum

/-- Object `o` at index `k` is, in list order, the first emissive object whose
running total of emissive area (the emissive area of the objects up to and
including it) meets or exceeds `p`. -/
def IsFirstMeeting {Obj : Type} (hasEmit : Obj → Bool) (getArea : Obj → ℚ)
    (objects : List Obj) (p : ℚ) (k : ℕ) (o : Obj) : Prop :=
  objects[k]? = some o ∧ hasEmit o = true ∧
  p ≤ emissiveArea hasEmit getArea (objects.take (k + 1)) ∧
  ∀ j < k, ∀ o', objects[j]? = some o' → hasEmit o' = true →
    emissiveArea hasEmit getArea (objects.take (j + 1)) < p

/-- Sample lights: the odd numbers emit. -/
def oddEmits (o : ℕ) : Bool := decide (o % 2 = 1)

/-- Sample lights: object `o` has area `o`. -/
def areaOf (o : ℕ) : ℚ := (o : ℚ)

/-- Sample lights: every object has area 0. -/
def zeroArea (_o : ℕ) : ℚ := 0

/-- A sample `Sample` routine: it records the object in `pos.obj` and the number
of the object as `pdf`. -/
def markSample (o : ℕ) (s : Intersection ℕ × ℚ) : Intersection ℕ × ℚ :=
  ({ s.1 with obj := some o }, (o : ℚ))

/-- Sample lights: every object emits. -/
def allEmit (_o : ℕ) : Bool := true

/-! ## Scene: the path-tracing integrator -/

namespace Vector3f

/-- Modelled from the spec: unary `operator-` of `Vector.hpp`. -/
def neg (a : Vector3f) : Vector3f := ⟨-a.x, -a.y, -a.z⟩

/-- Modelled from the spec: `operator*` of `Vector.hpp` between two vectors, the
componentwise product. -/
def mul (a b : Vector3f) : Vector3f := ⟨a.x * b.x, a.y * b.y, a.z * b.z⟩

/-- Modelled from the spec: `operator*` of `Vector.hpp` with a scalar on the
right. -/
def scale (a : Vector3f) (r : ℚ) : Vector3f := ⟨a.x * r, a.y * r, a.z * r⟩

/-- Modelled from the spec: `operator/` of `Vector.hpp` by a scalar. -/
def divide (a : Vector3f) (r : ℚ) : Vector3f := ⟨a.x / r, a.y / r, a.z / r⟩

/-- Modelled from the spec: the constructor `Vector3f(float xx)` of `Vector.hpp`,
all three coordinates equal to `xx`. -/
def splat (xx : ℚ) : Vector3f := ⟨xx, xx, xx⟩

end Vector3f

/-- Modelled from the spec: `dotProduct(a, b)` of `Vector.hpp`. -/
def dotProduct (a b : Vector3f) : ℚ := a.x * b.x + a.y * b.y + a.z * b.z

/-- Modelled from the spec: what `Scene::castRay` consumes of the `Scene` of
`Scene.hpp` and of its collaborators.  `intersect` is `Scene::intersect`, the
nearest-intersection query of the BVH; `hasEmit`, `getArea` and `Sample` are the
primitive capability; `eval`, `sample` and `pdf` are the material capability,
called on the material reference `intersection.m`; `norm` and `normalize` are
the two functions of `Vector.hpp` that take a square root; `rand k` is the
value that the `k`-th call of `get_random_float()` returns. -/
structure Scene (Obj : Type) where
  objects : List Obj
  backgroundColor : Vector3f
  RussianRoulette : ℚ
  intersect : Ray → Intersection Obj
  hasEmit : Obj → Bool
  getArea : Obj → ℚ
  Sample : Obj → Intersection Obj × ℚ → Intersection Obj × ℚ
  eval : Option ℕ → Vector3f → Vector3f → Vector3f → Vector3f
  sample : Option ℕ → Vector3f → Vector3f → Vector3f
  pdf : Option ℕ → Vector3f → Vector3f → Vector3f → ℚ
  norm : Vector3f → ℚ
  normalize : Vector3f → Vector3f
  rand : ℕ → ℚ

/-- What a call of `castRay` returns and what it did: the returned colour, the
number of `get_random_float()` calls it made itself or through `sampleLight`,
the number of `sampleLight` calls, and the `depth` arguments of the recursive
`castRay` calls, the nested ones included, outermost first. -/
structure CastResult where
  hitcolor : Vector3f
  draws : ℕ
  lightSamples : ℕ
  callDepths : List ℤ
deriving DecidableEq

/-- The local variable `L_dir` of `castRay`: the direct term, from the light
sample `inter` with the density `pdf_light`. -/
def L_dir {Obj : Type} (scene : Scene Obj) (intersection : Intersection Obj)
    (wo p N : Vector3f) (inter : Intersection Obj) (pdf_light : ℚ) : Vector3f :=
  let x := inter.coords
  let ws := scene.normalize (Vector3f.sub x p)
  let NN := scene.normalize inter.normal
  if scene.norm (Vector3f.sub (scene.intersect ⟨p, ws⟩).coords x) < 1 / 100 then
    Vector3f.divide
      (Vector3f.scale
        (Vector3f.scale (Vector3f.mul inter.emit (scene.eval intersection.m wo ws N))
          (dotProduct ws N))
        (dotProduct (Vector3f.neg ws) NN))
      ((scene.norm (Vector3f.sub x p) * scene.norm (Vector3f.sub x p)) * pdf_light)
  else Vector3f.splat 0

/-- The value assigned to the local variable `L_indir` of `castRay` when the
path continues in direction `wi` and the recursive call returns `incoming`. -/
def L_indir {Obj : Type} (scene : Scene Obj) (intersection : Intersection Obj)
    (wo N wi incoming : Vector3f) : Vector3f :=
  Vector3f.divide
    (Vector3f.scale (Vector3f.mul incoming (scene.eval intersection.m wi wo N))
      (dotProduct wi N))
    (scene.pdf intersection.m wi wo N * scene.RussianRoulette)

/-- `Scene::castRay(ray, depth)`, entered when `i` calls of
`get_random_float()` have been made.  `fuel` bounds the depth of nested calls;
`none` is "the call does not return within that many nested calls". -/
def castRay {Obj : Type} (scene : Scene Obj) : ℕ → Ray → ℤ → ℕ → Option CastResult
  | 0, _, _, _ => none
  | fuel + 1, ray, depth, i =>
    let intersection := scene.intersect ray
    let hitcolor := Vector3f.splat 1
    if scene.norm intersection.emit > 0 then
      some { hitcolor := Vector3f.splat 1, draws := 0, lightSamples := 0, callDepths := [] }
    else if intersection.happened then
      let wo := scene.normalize (Vector3f.neg ray.direction)
      let p := intersection.coords
      let N := scene.normalize intersection.normal
      let sampled := sampleLight scene.hasEmit scene.getArea scene.Sample scene.objects
        (scene.rand i) Intersection.new 0
      let inter := sampled.1
      let pdf_light := sampled.2
      let P_RR := scene.rand (i + 1)
      if P_RR < scene.RussianRoulette then
        let wi := scene.sample intersection.m wo N
        match castRay scene fuel ⟨p, wi⟩ depth (i + 2) with
        | none => none
        | some r =>
          some { hitcolor := Vector3f.add (L_indir scene intersection wo N wi r.hitcolor)
                              (L_dir scene intersection wo p N inter pdf_light),
                 draws := 2 + r.draws,
                 lightSamples := 1 + r.lightSamples,
                 callDepths := depth :: r.callDepths }
      else
        some { hitcolor := Vector3f.add (Vector3f.splat 0)
                            (L_dir scene intersection wo p N inter pdf_light),
               draws := 2, lightSamples := 1, callDepths := [] }
    else
      some { hitcolor := hitcolor, draws := 0, lightSamples := 0, callDepths := [] }

/-- The Russian-Roulette estimator of `castRay` for one colour channel: with the
continuation probability `q` and the weighted recursive contribution `X`, the
indirect term is `X / q` when the draw `P_RR` is below `q` and 0 otherwise. -/
def rrIndirect {K : Type} [LinearOrderedField K] (q X P_RR : K) : K :=
  if P_RR < q then X / q else 0

/-- A Euclidean norm on rational vectors: the rational square root of the sum
of the squares, exact when that sum is the square of a rational. -/
def ratNorm (v : Vector3f) : ℚ := Rat.sqrt (v.x * v.x + v.y * v.y + v.z * v.z)

/-- The `normalize` of `Vector.hpp` over `ratNorm`: the vector divided by its
norm, and the vector itself when the sum of squares is not positive. -/
def ratNormalize (v : Vector3f) : Vector3f :=
  if v.x * v.x + v.y * v.y + v.z * v.z > 0 then Vector3f.divide v (ratNorm v) else v

/-- The record a ray gets back from a diffuse, non-emissive wall at the
origin with the normal `(0, 0, 1)` and the material 0. -/
def wallHit : Intersection Unit :=
  { happened := true, coords := ⟨0, 0, 0⟩, normal := ⟨0, 0, 1⟩,
    distance := ((1 : ℚ) : WithTop ℚ), emit := ⟨0, 0, 0⟩, obj := some (), m := some 0 }

/-- The record a ray gets back from a light with the emitted radiance
`(3, 4, 0)`. -/
def lampHit : Intersection Unit :=
  { happened := true, coords := ⟨0, 0, 1⟩, normal := ⟨0, 0, -1⟩,
    distance := ((1 : ℚ) : WithTop ℚ), emit := ⟨3, 4, 0⟩, obj := some (), m := some 1 }

/-- A scene without lights in which `intersect` answers every ray with `hit`
and in which the first `2 * bounces` values of `get_random_float()` are 0 and
all later ones 1, so that the first `bounces` Russian-Roulette draws are 0; the
continuation probability is `4/5`, the background `(47/200, 27/40, 211/250)`. -/
def boxScene (hit : Intersection Unit) (bounces : ℕ) : Scene Unit :=
  { objects := [],
    backgroundColor := ⟨47 / 200, 27 / 40, 211 / 250⟩,
    RussianRoulette := 4 / 5,
    intersect := fun _ => hit,
    hasEmit := fun _ => false,
    getArea := fun _ => 0,
    Sample := fun _ s => s,
    eval := fun _ _ _ _ => ⟨1, 1, 1⟩,
    sample := fun _ _ N => N,
    pdf := fun _ _ _ _ => 1,
    norm := ratNorm,
    normalize := ratNormalize,
    rand := fun k => if k < 2 * bounces then 0 else 1 }

/-! ## Reference notions for the traversal and for termination -/

/-- The primitives of the leaves that `getIntersection` reaches: those whose own
bounds and all of whose ancestors' bounds pass the slab test that
`getIntersection` performs. -/
def reachedLeaves {Obj : Type} : BVHBuildNode Obj → Ray → List Obj
  | BVHBuildNode.null, _ => []
  | BVHBuildNode.mk bounds left right object, ray =>
    if bounds.IntersectP ray (invDirOf ray) (dirIsNegOf ray) = false then []
    else if left.isNull && right.isNull then object.toList
    else reachedLeaves left ray ++ reachedLeaves right ray

/-- The minimum of a list of distances, `+∞` for the empty list. -/
def minDistance (ds : List (WithTop ℚ)) : WithTop ℚ := ds.foldr min ⊤

/-- The arguments of the recursive calls in the body of `recursiveBuild(objects)`:
none for one primitive, the two one-element lists for two primitives, and
otherwise the two halves of the sorted list. -/
def recursiveCallArgs {Obj : Type} (getBounds : Obj → Bounds3)
    (sort : (Obj → Obj → Bool) → List Obj → List Obj) (objects : List Obj) :
    List (List Obj) :=
  match objects with
  | [_] => []
  | [o0, o1] => [[o0], [o1]]
  | objects =>
    let centroidBounds := centroidBoundsOf getBounds objects
    let dim := centroidBounds.maxExtent
    let objects := sortByDim getBounds sort dim objects
    [objects.take (objects.length / 2), objects.drop (objects.length / 2)]

/-- Stability in the words of the specification: elements with equal keys keep
their relative input order, that is, for every key value the elements with
that key appear in the result in the same order as in the input. -/
def SortStable {Obj : Type} (sort : (Obj → Obj → Bool) → List Obj → List Obj) : Prop :=
  ∀ (key : Obj → ℚ) (l : List Obj) (v : ℚ),
    (sort (fun a b => decide (key a < key b)) l).filter (fun a => decide (key a = v))
      = l.filter (fun a => decide (key a = v))

/-- Another admissible `std::sort`: the insertion sort of the reversed input,
which orders by the comparison and puts elements with equal keys in the
reverse of their input order. -/
def reverseSort {Obj : Type} (comp : Obj → Obj → Bool) (l : List Obj) : List Obj :=
  insertionSort comp l.reverse

/-! ## Bounds3: the intersection of two boxes -/

/-- `Bounds3::Intersect(b)`: the two-point constructor applied to the
componentwise `fmax` of the two `pMin` and the componentwise `fmin` of the two
`pMax`. -/
def Bounds3.Intersect (a b : Bounds3) : Bounds3 :=
  Bounds3.ofPoints
    ⟨max a.pMin.x b.pMin.x, max a.pMin.y b.pMin.y, max a.pMin.z b.pMin.z⟩
    ⟨min a.pMax.x b.pMax.x, min a.pMax.y b.pMax.y, min a.pMax.z b.pMax.z⟩

/-- The box `[0, 1]³`. -/
def cube01 : Bounds3 := ⟨⟨0, 0, 0⟩, ⟨1, 1, 1⟩⟩

/-- The box `[2, 3] × [0, 1] × [0, 1]`, disjoint from `cube01`. -/
def cube23 : Bounds3 := ⟨⟨2, 0, 0⟩, ⟨3, 1, 1⟩⟩

/-! ## The brute-force `trace` of Assignment 5 and Assignment 7 -/

/-- Modelled from the spec: `Vector2f` of `Vector.hpp`, two `float` coordinates. -/
structure Vector2f where
  x : ℚ
  y : ℚ
deriving DecidableEq

/-- What one call `object->intersect(..., tNearK, indexK, uvK)` of the virtual
method leaves behind: the returned flag and the values of the output variables
after the call (`tNearK` is `kInfinity` before it). -/
structure IntersectOut where
  hit : Bool
  tNearK : WithTop ℚ
  indexK : ℕ
  uvK : Vector2f

/-- Modelled from the spec: `hit_payload` of `Renderer.hpp`. -/
structure hit_payload (Obj : Type) where
  tNear : WithTop ℚ
  index : ℕ
  uv : Vector2f
  hit_obj : Obj

/-- The body of the loop of `trace` (`Renderer.cpp`) on the variables `tNear`
and `payload`. -/
def traceStep {Obj : Type} (intersect : Obj → Vector3f → Vector3f → IntersectOut)
    (orig dir : Vector3f) (st : WithTop ℚ × Option (hit_payload Obj)) (object : Obj) :
    WithTop ℚ × Option (hit_payload Obj) :=
  let r := intersect object orig dir
  if r.hit && decide (r.tNearK < st.1) then
    (r.tNearK, some { hit_obj := object, tNear := r.tNearK, index := r.indexK, uv := r.uvK })
  else st

/-- `trace(orig, dir, objects)` of `Renderer.cpp`; `tNear` starts at `kInfinity`
and the payload starts empty. -/
def trace {Obj : Type} (intersect : Obj → Vector3f → Vector3f → IntersectOut)
    (orig dir : Vector3f) (objects : List Obj) : Option (hit_payload Obj) :=
  (objects.foldl (traceStep intersect orig dir) (⊤, none)).2

/-- The body of the loop of `Scene::trace` on the variables `tNear`, `index`
and `*hitObject`. -/
def Scene.traceStep {Obj : Type} (intersect : Obj → Ray → IntersectOut) (ray : Ray)
    (st : WithTop ℚ × ℕ × Option Obj) (object : Obj) : WithTop ℚ × ℕ × Option Obj :=
  let r := intersect object ray
  if r.hit && decide (r.tNearK < st.1) then (r.tNearK, r.indexK, some object) else st

/-- `Scene::trace(ray, objects, tNear, index, hitObject)`: the returned flag
and the final values of `tNear`, `index` and `*hitObject` (`none` is
`nullptr`). -/
def Scene.trace {Obj : Type} (intersect : Obj → Ray → IntersectOut) (ray : Ray)
    (objects : List Obj) (tNear : WithTop ℚ) (index : ℕ) :
    Bool × WithTop ℚ × ℕ × Option Obj :=
  let st := objects.foldl (Scene.traceStep intersect ray) (tNear, index, none)
  (st.2.2.isSome, st.1, st.2.1, st.2.2)

/-- The loop that the two `trace` functions share, on the running bound and the
object kept so far: an object replaces the kept one when its `intersect`
succeeds (`ok`) with a distance (`dist`) below the running bound. -/
def nearestStep {Obj : Type} (ok : Obj → Bool) (dist : Obj → WithTop ℚ)
    (st : WithTop ℚ × Option Obj) (object : Obj) : WithTop ℚ × Option Obj :=
  if ok object && decide (dist object < st.1) then (dist object, some object) else st

/-- The spec's description of the reported object: its `intersect` succeeds,
no object with a successful `intersect` is nearer, and it sits at an index of
the list before which every object with a successful `intersect` is strictly
farther. -/
def IsFirstNearest {Obj : Type} (ok : Obj → Bool) (dist : Obj → WithTop ℚ)
    (objects : List Obj) (o : Obj) : Prop :=
  ok o = true ∧ ∃ k : ℕ, objects[k]? = some o ∧
    (∀ x ∈ objects, ok x = true → dist o ≤ dist x) ∧
    ∀ j : ℕ, j < k → ∀ x : Obj, objects[j]? = some x → ok x = true → dist o < dist x

/-- Sample objects `0, 1, 2, 3` for `trace`: object 0 is missed, objects 1 and
3 are hit at distance 2, object 2 at distance 5. -/
def sampleIntersect (o : ℕ) : IntersectOut :=
  if o = 0 then ⟨false, ⊤, 0, ⟨0, 0⟩⟩
  else if o = 2 then ⟨true, ((5 : ℚ) : WithTop ℚ), 20, ⟨0, 0⟩⟩
  else ⟨true, ((2 : ℚ) : WithTop ℚ), 10 * o, ⟨0, 0⟩⟩

/-! ## `rayTriangleIntersect` of Assignment 5 -/

/-- Modelled from the spec: `crossProduct` of `Vector.hpp`, the cross product of
two vectors. -/
def crossProduct (a b : Vector3f) : Vector3f :=
  ⟨a.y * b.z - a.z * b.y, a.z * b.x - a.x * b.z, a.x * b.y - a.y * b.x⟩

/-- `rayTriangleIntersect(v0, v1, v2, orig, dir, tnear, u, v)`: the returned
flag and the values written to `tnear`, `u` and `v`. -/
def rayTriangleIntersect (v0 v1 v2 orig dir : Vector3f) : Bool × ℚ × ℚ × ℚ :=
  let E1 := v1.sub v0
  let E2 := v2.sub v0
  let S := orig.sub v0
  let S1 := crossProduct dir E2
  let S2 := crossProduct S E1
  let tnear := 1 / dotProduct S1 E1 * dotProduct S2 E2
  let u := 1 / dotProduct S1 E1 * dotProduct S1 S
  let v := 1 / dotProduct S1 E1 * dotProduct S2 dir
  (decide (tnear > 0 ∧ u > 0 ∧ v > 0 ∧ (1 - u - v) > 0), tnear, u, v)

/-! ## The Bezier curve of Assignment 4 -/

/-- Modelled from the spec: `cv::Point2f` of OpenCV, a point of the image plane with
two `float` coordinates. -/
structure Point2f where
  x : ℚ
  y : ℚ
deriving DecidableEq

/-- `p + q` of `cv::Point2f`. -/
def Point2f.add (p q : Point2f) : Point2f := ⟨p.x + q.x, p.y + q.y⟩

/-- `p * s` of `cv::Point2f`. -/
def Point2f.scale (p : Point2f) (s : ℚ) : Point2f := ⟨p.x * s, p.y * s⟩

/-- `s * p` of `cv::Point2f`. -/
def Point2f.smul (s : ℚ) (p : Point2f) : Point2f := ⟨s * p.x, s * p.y⟩

/-- The `point` that the loop of `naive_bezier(points, window)` computes for the
parameter `t` and marks in the window; reading `points[0]` to `points[3]`
out of range is a fault, `none`. -/
def naive_bezier (points : List Point2f) (t : ℚ) : Option Point2f :=
  match points[0]?, points[1]?, points[2]?, points[3]? with
  | some p_0, some p_1, some p_2, some p_3 =>
    some ((((Point2f.smul ((1 - t) ^ 3) p_0).add (Point2f.smul (3 * t * (1 - t) ^ 2) p_1)).add
      (Point2f.smul (3 * t ^ 2 * (1 - t)) p_2)).add (Point2f.smul (t ^ 3) p_3))
  | _, _, _, _ => none

/-- `recursive_bezier(control_points, t)`.  For the empty vector the `else`
branch forms `control_points.end() - 1`, which is out of range: a fault,
`none`. -/
def recursive_bezier (control_points : List Point2f) (t : ℚ) : Option Point2f :=
  if control_points.length = 1 then control_points[0]?
  else if control_points.length = 0 then none
  else
    let left_control_points := control_points.dropLast
    let right_control_points := control_points.tail
    match recursive_bezier left_control_points t, recursive_bezier right_control_points t with
    | some left_bezier, some right_bezier =>
      some ((left_bezier.scale (1 - t)).add (right_bezier.scale t))
    | _, _ => none
termination_by control_points.length
decreasing_by
  · simp only [List.length_dropLast]; omega
  · simp only [List.length_tail]; omega

/-- The Bernstein sum `Σ_i C(n, i)·t^i·(1 − t)^(n − i)·f i` over `i = 0..n`. -/
def bernstein (f : ℕ → ℚ) (t : ℚ) (n : ℕ) : ℚ :=
  ∑ i in Finset.range (n + 1), (n.choose i : ℚ) * t ^ i * (1 - t) ^ (n - i) * f i

/-- The spec's Bezier curve point of the control points `P_0..P_n`: the
Bernstein sum of each coordinate. -/
def bernsteinPoint (P : List Point2f) (t : ℚ) : Point2f :=
  ⟨bernstein (fun i => (P.getD i ⟨0, 0⟩).x) t (P.length - 1),
   bernstein (fun i => (P.getD i ⟨0, 0⟩).y) t (P.length - 1)⟩

/-! ## The rasterizer of Assignment 2 -/

/-- The conversion of a floating-point value to `int`, as at a call that passes
a `double` for an `int` parameter: the fractional part is discarded. -/
def toInt (q : ℚ) : ℤ := if 0 ≤ q then ⌊q⌋ else ⌈q⌉

/-- `insideTriangle(int x, int y, const Vector3f* _v)`; the array `_v` of three
vertices is a triple, and the `Vector3f` of Eigen is the structure of three
coordinates used throughout. -/
def insideTriangle (x y : ℤ) (_v : Vector3f × Vector3f × Vector3f) : Bool :=
  let v0 := _v.1
  let v1 := _v.2.1
  let v2 := _v.2.2
  let p : Vector3f := ⟨(x : ℚ), (y : ℚ), 0⟩
  let edge0 := v1.sub v0
  let edge1 := v2.sub v1
  let edge2 := v0.sub v2
  let v0p := p.sub v0
  let v1p := p.sub v1
  let v2p := p.sub v2
  let cross0 := edge0.x * v0p.y - edge0.y * v0p.x
  let cross1 := edge1.x * v1p.y - edge1.y * v1p.x
  let cross2 := edge2.x * v2p.y - edge2.y * v2p.x
  decide ((cross0 ≥ 0 ∧ cross1 ≥ 0 ∧ cross2 ≥ 0) ∨ (cross0 ≤ 0 ∧ cross1 ≤ 0 ∧ cross2 ≤ 0))

/-- `computeBarycentric2D(float x, float y, const Vector3f* v)`: the tuple
`{c1, c2, c3}`. -/
def computeBarycentric2D (x y : ℚ) (v : Vector3f × Vector3f × Vector3f) : ℚ × ℚ × ℚ :=
  let c1 := (x * (v.2.1.y - v.2.2.y) + (v.2.2.x - v.2.1.x) * y + v.2.1.x * v.2.2.y
              - v.2.2.x * v.2.1.y)
            / (v.1.x * (v.2.1.y - v.2.2.y) + (v.2.2.x - v.2.1.x) * v.1.y + v.2.1.x * v.2.2.y
              - v.2.2.x * v.2.1.y)
  let c2 := (x * (v.2.2.y - v.1.y) + (v.1.x - v.2.2.x) * y + v.2.2.x * v.1.y
              - v.1.x * v.2.2.y)
            / (v.2.1.x * (v.2.2.y - v.1.y) + (v.1.x - v.2.2.x) * v.2.1.y + v.2.2.x * v.1.y
              - v.1.x * v.2.2.y)
  let c3 := (x * (v.1.y - v.2.1.y) + (v.2.1.x - v.1.x) * y + v.1.x * v.2.1.y
              - v.2.1.x * v.1.y)
            / (v.2.2.x * (v.1.y - v.2.1.y) + (v.2.1.x - v.1.x) * v.2.2.y + v.1.x * v.2.1.y
              - v.2.1.x * v.1.y)
  (c1, c2, c3)

/-- The condition `insideTriangle(x + 0.5, y + 0.5, t.v)` of the pixel loop of
`rasterize_triangle` for the pixel `(x, y)`: the two `double` arguments are
converted to the `int` parameters of `insideTriangle`. -/
def rasterize_triangle_covered (v : Vector3f × Vector3f × Vector3f) (x y : ℤ) : Bool :=
  insideTriangle (toInt ((x : ℚ) + 1 / 2)) (toInt ((y : ℚ) + 1 / 2)) v

/-- The value `barycentric` of the pixel loop of `rasterize_triangle` for the
pixel `(x, y)`: `computeBarycentric2D(x + 0.5, y + 0.5, t.v)`. -/
def rasterize_triangle_barycentric (v : Vector3f × Vector3f × Vector3f) (x y : ℤ) :
    ℚ × ℚ × ℚ :=
  computeBarycentric2D ((x : ℚ) + 1 / 2) ((y : ℚ) + 1 / 2) v

/-- Twice the signed area of the screen-space triangle `v0, v1, v2`. -/
def signedArea2 (v : Vector3f × Vector3f × Vector3f) : ℚ :=
  (v.2.1.x - v.1.x) * (v.2.2.y - v.1.y) - (v.2.2.x - v.1.x) * (v.2.1.y - v.1.y)

/-- The three edge functions of the triangle at the point `(px, py)` of the
plane: for each edge, the cross product of the edge with the vector from its
start to the point. -/
def edgeFunctions (px py : ℚ) (v : Vector3f × Vector3f × Vector3f) : ℚ × ℚ × ℚ :=
  ((v.2.1.x - v.1.x) * (py - v.1.y) - (v.2.1.y - v.1.y) * (px - v.1.x),
   (v.2.2.x - v.2.1.x) * (py - v.2.1.y) - (v.2.2.y - v.2.1.y) * (px - v.2.1.x),
   (v.1.x - v.2.2.x) * (py - v.2.2.y) - (v.1.y - v.2.2.y) * (px - v.2.2.x))

/-- The point `(px, py)` lies on the same side of, or on, all three edges. -/
def OnSameSide (px py : ℚ) (v : Vector3f × Vector3f × Vector3f) : Prop :=
  let e := edgeFunctions px py v
  (0 ≤ e.1 ∧ 0 ≤ e.2.1 ∧ 0 ≤ e.2.2) ∨ (e.1 ≤ 0 ∧ e.2.1 ≤ 0 ∧ e.2.2 ≤ 0)

/-- The triangle `(1/4, 1/4), (1, 1/4), (1/4, 1)` in the screen plane. -/
def cornerTriangle : Vector3f × Vector3f × Vector3f :=
  (⟨1 / 4, 1 / 4, 0⟩, ⟨1, 1 / 4, 0⟩, ⟨1 / 4, 1, 0⟩)

/-! ## The slab test on infinite reciprocals -/

/-- A `double` as far as the slab test with an infinite reciprocal needs it: a
finite value (an exact rational), `+∞`, `-∞`, or NaN. -/
inductive Ext where
  | ninf : Ext
  | fin (q : ℚ) : Ext
  | pinf : Ext
  | nan : Ext
deriving DecidableEq

/-- The IEEE-754 product of a finite value with a `double`: a non-zero value
times an infinity is the infinity of the product's sign, and `0 * ±∞` is NaN. -/
def Ext.scale (a : ℚ) : Ext → Ext
  | Ext.fin q => Ext.fin (a * q)
  | Ext.pinf => if 0 < a then Ext.pinf else if a < 0 then Ext.ninf else Ext.nan
  | Ext.ninf => if 0 < a then Ext.ninf else if a < 0 then Ext.pinf else Ext.nan
  | Ext.nan => Ext.nan

/-- The IEEE-754 comparison `a < b`: false when an operand is NaN. -/
def Ext.lt : Ext → Ext → Bool
  | Ext.nan, _ => false
  | _, Ext.nan => false
  | Ext.pinf, _ => false
  | _, Ext.ninf => false
  | Ext.ninf, _ => true
  | Ext.fin _, Ext.pinf => true
  | Ext.fin a, Ext.fin b => decide (a < b)

/-- `std::max(a, b)`: `b` when `a < b`, else `a`. -/
def Ext.max (a b : Ext) : Ext := if Ext.lt a b then b else a

/-- `std::min(a, b)`: `b` when `b < a`, else `a`. -/
def Ext.min (a b : Ext) : Ext := if Ext.lt b a then b else a

/-- The reciprocal `1.0f / d` of a direction component as `getIntersection`
computes it: the finite reciprocal of a non-zero `d`, `+∞` for `+0.0` and `-∞`
for `-0.0` (`negZero` tells which zero a zero component is). -/
def recipInf (d : ℚ) (negZero : Bool) : Ext :=
  if d = 0 then (if negZero then Ext.ninf else Ext.pinf) else Ext.fin (1 / d)

/-- `Bounds3::IntersectP(ray, invDir, dirIsNeg)` on reciprocals that may be
infinite: the same statements as `Bounds3.IntersectP`, with the products, the
comparison, `std::max` and `std::min` of IEEE-754. -/
def Bounds3.IntersectPInf (b : Bounds3) (ray : Ray) (invDir : Ext × Ext × Ext)
    (dirIsNeg : ℤ × ℤ × ℤ) : Bool :=
  let tmin := Ext.scale (b.pMin.x - ray.origin.x) invDir.1
  let tmax := Ext.scale (b.pMax.x - ray.origin.x) invDir.1
  let tmin_x := if dirIsNeg.1 > 0 then tmax else tmin
  let tmax_x := if dirIsNeg.1 > 0 then tmin else tmax
  let tmin := Ext.scale (b.pMin.y - ray.origin.y) invDir.2.1
  let tmax := Ext.scale (b.pMax.y - ray.origin.y) invDir.2.1
  let tmin_y := if dirIsNeg.2.1 > 0 then tmax else tmin
  let tmax_y := if dirIsNeg.2.1 > 0 then tmin else tmax
  let tmin := Ext.scale (b.pMin.z - ray.origin.z) invDir.2.2
  let tmax := Ext.scale (b.pMax.z - ray.origin.z) invDir.2.2
  let tmin_z := if dirIsNeg.2.2 > 0 then tmax else tmin
  let tmax_z := if dirIsNeg.2.2 > 0 then tmin else tmax
  let t_enter := Ext.max tmin_x (Ext.max tmin_y tmin_z)
  let t_exit := Ext.min tmax_x (Ext.min tmax_y tmax_z)
  if Ext.lt t_enter t_exit then true else false

/-- Entry `k` of a triple (`0`, `1`, anything else the last). -/
def tripleAt {α : Type} (k : ℕ) (t : α × α × α) : α :=
  match k with
  | 0 => t.1
  | 1 => t.2.1
  | _ => t.2.2

/-- The entry and the exit parameter `(tmin_k, tmax_k)` that `IntersectPInf`
computes for the axis `k`. -/
def Bounds3.slabInf (b : Bounds3) (ray : Ray) (invDir : Ext × Ext × Ext)
    (dirIsNeg : ℤ × ℤ × ℤ) (k : ℕ) : Ext × Ext :=
  let tmin := Ext.scale (Vector3f.coord k b.pMin - Vector3f.coord k ray.origin)
    (tripleAt k invDir)
  let tmax := Ext.scale (Vector3f.coord k b.pMax - Vector3f.coord k ray.origin)
    (tripleAt k invDir)
  (if tripleAt k dirIsNeg > 0 then tmax else tmin,
   if tripleAt k dirIsNeg > 0 then tmin else tmax)

/-- The slab test restricted to two axes, given their entry and exit
parameters: the larger entry is below the smaller exit. -/
def slabTest2 (a b : Ext × Ext) : Bool := Ext.lt (Ext.max a.1 b.1) (Ext.min a.2 b.2)

/-- The two axes other than `k`, in the order x, y, z. -/
def remainingAxes (k : ℕ) : ℕ × ℕ :=
  match k with
  | 0 => (1, 2)
  | 1 => (0, 2)
  | _ => (0, 1)

/-- A ray from `(0, -3, -4)` with the unit direction `(0, 3/5, 4/5)`: it runs
in the plane `x = 0` and reaches the centre of `unitBox` at `t = 5`. -/
def planeRay : Ray := ⟨⟨0, -3, -4⟩, ⟨0, 3 / 5, 4 / 5⟩⟩

/-! ## `std::sort` of the GNU C++ library

The algorithm of `std::sort` in libstdc++ (`bits/stl_algo.h`, `bits/stl_heap.h`
of GCC 12): an introsort (median-of-three quicksort down to ranges of 16
elements, heap sort when the depth limit is used up) followed by an insertion
sort.  The array is a list, an iterator is a position in it.  Reading a
position outside the array, which the library's "unguarded" loops do only for
a comparison that is not a strict weak ordering, ends the loop instead. -/

namespace libstdcxx

/-- The comparison `comp(*a, *b)` of the elements at two positions. -/
def compAt {α : Type} (comp : α → α → Bool) (l : List α) (a b : ℕ) : Bool :=
  match l[a]?, l[b]? with
  | some x, some y => comp x y
  | _, _ => false

/-- `std::iter_swap(a, b)`. -/
def iter_swap {α : Type} (l : List α) (a b : ℕ) : List α :=
  match l[a]?, l[b]? with
  | some x, some y => (l.set a y).set b x
  | _, _ => l

/-- The assignment `*dst = std::move(*src)`. -/
def assign {α : Type} (l : List α) (dst src : ℕ) : List α :=
  match l[src]? with
  | some x => l.set dst x
  | none => l

/-- `__move_median_to_first(result, a, b, c, comp)`. -/
def move_median_to_first {α : Type} (comp : α → α → Bool) (l : List α)
    (result a b c : ℕ) : List α :=
  if compAt comp l a b then
    if compAt comp l b c then iter_swap l result b
    else if compAt comp l a c then iter_swap l result c
    else iter_swap l result a
  else if compAt comp l a c then iter_swap l result a
  else if compAt comp l b c then iter_swap l result c
  else iter_swap l result b

/-- The loop of `__unguarded_linear_insert`, with the hole at position `last`:
`while (comp(val, *next)) { *last = *next; last = next; --next; }` followed by
`*last = val`. -/
def linear_insert_loop {α : Type} (comp : α → α → Bool) (val : α) :
    List α → ℕ → List α
  | l, 0 => l.set 0 val
  | l, next + 1 =>
    match l[next]? with
    | some x =>
      if comp val x then linear_insert_loop comp val (l.set (next + 1) x) next
      else l.set (next + 1) val
    | none => l.set (next + 1) val

/-- `__unguarded_linear_insert(last, comp)`. -/
def unguarded_linear_insert {α : Type} (comp : α → α → Bool) (l : List α) (last : ℕ) :
    List α :=
  match l[last]? with
  | some val => linear_insert_loop comp val l last
  | none => l

/-- The body of the loop of `__insertion_sort(first, last, comp)` for the
position `i`: an element smaller than `*first` is moved to the front by
`move_backward(first, i, i + 1)`, any other is inserted by
`__unguarded_linear_insert`. -/
def insertion_step {α : Type} (comp : α → α → Bool) (first : ℕ) (l : List α) (i : ℕ) :
    List α :=
  if compAt comp l i first then
    match l[i]? with
    | some val => l.take first ++ val :: ((l.drop first).take (i - first) ++ l.drop (i + 1))
    | none => l
  else unguarded_linear_insert comp l i

/-- `__insertion_sort(first, last, comp)`. -/
def insertion_sort {α : Type} (comp : α → α → Bool) (l : List α) (first last : ℕ) :
    List α :=
  if first = last then l
  else (List.range (last - (first + 1))).foldl
    (fun l k => insertion_step comp first l (first + 1 + k)) l

/-- `__unguarded_insertion_sort(first, last, comp)`. -/
def unguarded_insertion_sort {α : Type} (comp : α → α → Bool) (l : List α)
    (first last : ℕ) : List α :=
  (List.range (last - first)).foldl (fun l k => unguarded_linear_insert comp l (first + k)) l

/-- `__final_insertion_sort(first, last, comp)`, with `_S_threshold = 16`. -/
def final_insertion_sort {α : Type} (comp : α → α → Bool) (l : List α) (first last : ℕ) :
    List α :=
  if last - first > 16 then
    unguarded_insertion_sort comp (insertion_sort comp l first (first + 16)) (first + 16) last
  else insertion_sort comp l first last

/-- The loop `while (comp(first, pivot)) ++first` of `__unguarded_partition`;
`fuel` is the number of positions left in the array. -/
def scan_up {α : Type} (comp : α → α → Bool) (l : List α) (pivot : ℕ) : ℕ → ℕ → ℕ
  | 0, first => first
  | fuel + 1, first =>
    if compAt comp l first pivot then scan_up comp l pivot fuel (first + 1) else first

/-- The loop `while (comp(pivot, last)) --last` of `__unguarded_partition`. -/
def scan_down {α : Type} (comp : α → α → Bool) (l : List α) (pivot : ℕ) : ℕ → ℕ
  | 0 => 0
  | last + 1 =>
    if compAt comp l pivot (last + 1) then scan_down comp l pivot last else last + 1

/-- `__unguarded_partition(first, last, pivot, comp)`: the array after the
swaps and the returned position.  Every round moves `first` up by at least
one position, so `fuel` rounds are enough when `fuel` is the length of the
array. -/
def unguarded_partition {α : Type} (comp : α → α → Bool) (pivot : ℕ) :
    ℕ → List α → ℕ → ℕ → List α × ℕ
  | 0, l, first, _ => (l, first)
  | fuel + 1, l, first, last =>
    let first := scan_up comp l pivot (l.length - first) first
    let last := scan_down comp l pivot (last - 1)
    if first < last then unguarded_partition comp pivot fuel (iter_swap l first last) (first + 1) last
    else (l, first)

/-- `__unguarded_partition_pivot(first, last, comp)`. -/
def unguarded_partition_pivot {α : Type} (comp : α → α → Bool) (l : List α)
    (first last : ℕ) : List α × ℕ :=
  let mid := first + (last - first) / 2
  let l := move_median_to_first comp l first (first + 1) mid (last - 1)
  unguarded_partition comp first l.length l (first + 1) last

/-- The loop of `__push_heap(first, holeIndex, topIndex, value, comp)`. -/
def push_heap {α : Type} (comp : α → α → Bool) (first topIndex : ℕ) (value : α) :
    ℕ → List α → ℕ → List α
  | 0, l, holeIndex => l.set (first + holeIndex) value
  | fuel + 1, l, holeIndex =>
    let parent := (holeIndex - 1) / 2
    match l[first + parent]? with
    | some x =>
      if holeIndex > topIndex && comp x value then
        push_heap comp first topIndex value fuel (l.set (first + holeIndex) x) parent
      else l.set (first + holeIndex) value
    | none => l.set (first + holeIndex) value

/-- The first loop of `__adjust_heap`: the hole moves down to the larger
child; the array, `holeIndex` and `secondChild` after it. -/
def sift_down {α : Type} (comp : α → α → Bool) (first len : ℕ) :
    ℕ → List α → ℕ → ℕ → List α × ℕ × ℕ
  | 0, l, holeIndex, secondChild => (l, holeIndex, secondChild)
  | fuel + 1, l, holeIndex, secondChild =>
    if secondChild < (len - 1) / 2 then
      let secondChild := 2 * (secondChild + 1)
      let secondChild :=
        if compAt comp l (first + secondChild) (first + (secondChild - 1)) then secondChild - 1
        else secondChild
      sift_down comp first len fuel (assign l (first + holeIndex) (first + secondChild))
        secondChild secondChild
    else (l, holeIndex, secondChild)

/-- `__adjust_heap(first, holeIndex, len, value, comp)`. -/
def adjust_heap {α : Type} (comp : α → α → Bool) (l : List α) (first holeIndex len : ℕ)
    (value : α) : List α :=
  let topIndex := holeIndex
  let s := sift_down comp first len len l holeIndex holeIndex
  let l := s.1
  let holeIndex := s.2.1
  let secondChild := s.2.2
  if len % 2 = 0 ∧ secondChild = (len - 2) / 2 then
    let secondChild := 2 * (secondChild + 1)
    let l := assign l (first + holeIndex) (first + (secondChild - 1))
    let holeIndex := secondChild - 1
    push_heap comp first topIndex value (holeIndex + 1) l holeIndex
  else push_heap comp first topIndex value (holeIndex + 1) l holeIndex

/-- `__pop_heap(first, last, result, comp)`. -/
def pop_heap {α : Type} (comp : α → α → Bool) (l : List α) (first last result : ℕ) :
    List α :=
  match l[result]? with
  | some value => adjust_heap comp (assign l result first) first 0 (last - first) value
  | none => l

/-- The loop of `__make_heap`, entered with `parent`. -/
def make_heap_loop {α : Type} (comp : α → α → Bool) (first len : ℕ) : List α → ℕ → List α
  | l, 0 =>
    match l[first]? with
    | some value => adjust_heap comp l first 0 len value
    | none => l
  | l, parent + 1 =>
    match l[first + (parent + 1)]? with
    | some value => make_heap_loop comp first len (adjust_heap comp l first (parent + 1) len value)
        parent
    | none => l

/-- `__make_heap(first, last, comp)`. -/
def make_heap {α : Type} (comp : α → α → Bool) (l : List α) (first last : ℕ) : List α :=
  if last - first < 2 then l
  else make_heap_loop comp first (last - first) l ((last - first - 2) / 2)

/-- `__sort_heap(first, last, comp)`; `n` is `last - first`. -/
def sort_heap {α : Type} (comp : α → α → Bool) (first : ℕ) : ℕ → List α → List α
  | 0, l => l
  | n + 1, l =>
    if n + 1 > 1 then sort_heap comp first n (pop_heap comp l first (first + n) (first + n))
    else l

/-- The call `__partial_sort(first, last, last, comp)` of the introsort:
`__heap_select` makes a heap of the whole range (its loop over the empty range
after `middle = last` does nothing) and `__sort_heap` sorts it. -/
def partial_sort {α : Type} (comp : α → α → Bool) (l : List α) (first last : ℕ) : List α :=
  sort_heap comp first (last - first) (make_heap comp l first last)

/-- `__introsort_loop(first, last, depth_limit, comp)`. -/
def introsort_loop {α : Type} (comp : α → α → Bool) : ℕ → List α → ℕ → ℕ → List α
  | 0, l, first, last =>
    if last - first > 16 then partial_sort comp l first last else l
  | depth_limit + 1, l, first, last =>
    if last - first > 16 then
      let r := unguarded_partition_pivot comp l first last
      let cut := r.2
      introsort_loop comp depth_limit (introsort_loop comp depth_limit r.1 cut last) first cut
    else l

/-- The halving loop behind `std::__lg`. -/
def lg_loop : ℕ → ℕ → ℕ
  | 0, _ => 0
  | fuel + 1, n => if n < 2 then 0 else lg_loop fuel (n / 2) + 1

/-- `std::__lg(n)`: the position of the highest set bit of `n`. -/
def lg (n : ℕ) : ℕ := lg_loop n n

/-- `std::sort(first, last, comp)` on a whole array. -/
def sort {α : Type} (comp : α → α → Bool) (l : List α) : List α :=
  if l.length ≠ 0 then
    final_insertion_sort comp (introsort_loop comp (lg l.length * 2) l 0 l.length) 0 l.length
  else l

end libstdcxx

/-- Sample bounds for primitives in two columns: primitive `i` occupies the
unit cube at `x = 0` (even `i`) or at `x = 100` (odd `i`) and at `y = i`. -/
def columnBox (i : ℕ) : Bounds3 :=
  ⟨⟨100 * ((i % 2 : ℕ) : ℚ), (i : ℚ), 0⟩, ⟨100 * ((i % 2 : ℕ) : ℚ) + 1, (i : ℚ) + 1, 1⟩⟩

/-- The seventeen primitives `0, 1, ..., 16`. -/
def columnObjects : List ℕ := [0, 1, 2, 3, 4, 5, 6, 7, 8, 9, 10, 11, 12, 13, 14, 15, 16]

/-- No two primitives have the same sort key wherever `recursiveBuild` sorts:
in every list of three or more primitives that the construction reaches
within `fuel` nested calls, the centroid coordinates on the split axis of that
list are pairwise distinct.  The lists reached are the halves of the sorted
list, which distinct keys determine; they are written with the insertion
sort. -/
def SplitKeysDistinct {Obj : Type} (getBounds : Obj → Bounds3) : ℕ → List Obj → Prop
  | 0, _ => True
  | fuel + 1, objects =>
    if objects.length = 1 ∨ objects.length = 2 then True
    else
      (objects.map fun o =>
        Vector3f.coord (centroidBoundsOf getBounds objects).maxExtent
          (getBounds o).Centroid).Nodup ∧
      SplitKeysDistinct getBounds fuel
        ((sortByDim getBounds insertionSort (centroidBoundsOf getBounds objects).maxExtent
            objects).take
          ((sortByDim getBounds insertionSort (centroidBoundsOf getBounds objects).maxExtent
            objects).length / 2)) ∧
      SplitKeysDistinct getBounds fuel
        ((sortByDim getBounds insertionSort (centroidBoundsOf getBounds objects).maxExtent
            objects).drop
          ((sortByDim getBounds insertionSort (centroidBoundsOf getBounds objects).maxExtent
            objects).length / 2))

/-! # Theorems -/

/-! ## The slab test, one axis at a time -/

theorem boolToInt_pos (b : Bool) : boolToInt b > 0 ↔ b = true := by
  cases b <;> simp [boolToInt]

theorem boolToInt_decide_pos (p : Prop) [Decidable p] (h : p) :
    boolToInt (decide p) > 0 :=
  (boolToInt_pos _).2 (decide_eq_true h)

theorem boolToInt_decide_not_pos (p : Prop) [Decidable p] (h : ¬ p) :
    ¬ boolToInt (decide p) > 0 :=
  fun hf => h (of_decide_eq_true ((boolToInt_pos _).1 hf))

/-- Multiplying by the reciprocal of a positive number keeps the order. -/
theorem mul_recip_le_of_pos (lo hi o d : ℚ) (h : lo ≤ hi) (hd : 0 < d) :
    (lo - o) * (1 / d) ≤ (hi - o) * (1 / d) :=
  mul_le_mul_of_nonneg_right (by linarith) (one_div_pos.mpr hd).le

/-- Multiplying by the reciprocal of a negative number reverses the order. -/
theorem mul_recip_le_of_neg (lo hi o d : ℚ) (h : lo ≤ hi) (hd : d < 0) :
    (hi - o) * (1 / d) ≤ (lo - o) * (1 / d) :=
  mul_le_mul_of_nonpos_right (by linarith) (one_div_neg.mpr hd).le

/-- With the flag `int(d < 0)` the entry parameter of an axis is the smaller
of the two plane parameters. -/
theorem axis_entry_negFlag (lo hi o d : ℚ) (h : lo ≤ hi) (hd : d ≠ 0) :
    (if boolToInt (decide (d < 0)) > 0 then (hi - o) * (1 / d) else (lo - o) * (1 / d))
      = min ((lo - o) * (1 / d)) ((hi - o) * (1 / d)) := by
  rcases lt_or_gt_of_ne hd with hneg | hpos
  · rw [if_pos (boolToInt_decide_pos _ hneg),
      min_eq_right (mul_recip_le_of_neg lo hi o d h hneg)]
  · rw [if_neg (boolToInt_decide_not_pos _ (not_lt.mpr hpos.le)),
      min_eq_left (mul_recip_le_of_pos lo hi o d h hpos)]

/-- With the flag `int(d < 0)` the exit parameter of an axis is the larger of
the two plane parameters. -/
theorem axis_exit_negFlag (lo hi o d : ℚ) (h : lo ≤ hi) (hd : d ≠ 0) :
    (if boolToInt (decide (d < 0)) > 0 then (lo - o) * (1 / d) else (hi - o) * (1 / d))
      = max ((lo - o) * (1 / d)) ((hi - o) * (1 / d)) := by
  rcases lt_or_gt_of_ne hd with hneg | hpos
  · rw [if_pos (boolToInt_decide_pos _ hneg),
      max_eq_left (mul_recip_le_of_neg lo hi o d h hneg)]
  · rw [if_neg (boolToInt_decide_not_pos _ (not_lt.mpr hpos.le)),
      max_eq_right (mul_recip_le_of_pos lo hi o d h hpos)]

/-- With the flag `int(d > 0)` that `getIntersection` computes, the value used
as exit parameter of an axis is the smaller of the two plane parameters and
the value used as entry parameter the larger one. -/
theorem axis_posFlag (lo hi o d : ℚ) (h : lo ≤ hi) (hd : d ≠ 0) :
    (if boolToInt (decide (d > 0)) > 0 then (lo - o) * (1 / d) else (hi - o) * (1 / d))
      ≤ (if boolToInt (decide (d > 0)) > 0 then (hi - o) * (1 / d) else (lo - o) * (1 / d)) := by
  rcases lt_or_gt_of_ne hd with hneg | hpos
  · have hf := boolToInt_decide_not_pos (d > 0) (not_lt.mpr hneg.le)
    rw [if_neg hf, if_neg hf]
    exact mul_recip_le_of_neg lo hi o d h hneg
  · have hf := boolToInt_decide_pos (d > 0) hpos
    rw [if_pos hf, if_pos hf]
    exact mul_recip_le_of_pos lo hi o d h hpos

/-- `IntersectP` compares the largest entry parameter with the smallest exit
parameter. -/
theorem IntersectP_eq_true_iff (b : Bounds3) (ray : Ray) (invDir : Vector3f)
    (f : ℤ × ℤ × ℤ) :
    b.IntersectP ray invDir f = true ↔
      max (b.entryParams ray invDir f).1
          (max (b.entryParams ray invDir f).2.1 (b.entryParams ray invDir f).2.2)
        < min (b.exitParams ray invDir f).1
            (min (b.exitParams ray invDir f).2.1 (b.exitParams ray invDir f).2.2) := by
  simp [Bounds3.IntersectP, Bounds3.entryParams, Bounds3.exitParams]

/-- With the arguments that `getIntersection` computes, the slab test fails on
every box with `pMin ≤ pMax` when no direction component is zero: on each axis
the value used as entry parameter is at least the value used as exit
parameter. -/
theorem IntersectP_codeFlags_eq_false (b : Bounds3) (ray : Ray) (hb : b.Valid)
    (hx : ray.direction.x ≠ 0) (hy : ray.direction.y ≠ 0) (hz : ray.direction.z ≠ 0) :
    b.IntersectP ray (invDirOf ray) (dirIsNegOf ray) = false := by
  have h1 := axis_posFlag b.pMin.x b.pMax.x ray.origin.x ray.direction.x hb.1 hx
  have h2 := axis_posFlag b.pMin.y b.pMax.y ray.origin.y ray.direction.y hb.2.1 hy
  have h3 := axis_posFlag b.pMin.z b.pMax.z ray.origin.z ray.direction.z hb.2.2 hz
  rw [← Bool.not_eq_true, IntersectP_eq_true_iff, not_lt]
  simp only [Bounds3.entryParams, Bounds3.exitParams, invDirOf, dirIsNegOf]
  exact le_trans (min_le_left _ _) (le_trans h1 (le_max_left _ _))

/-- The slab test on `unitBox` with the arguments that `getIntersection`
computes for `sampleRay`. -/
theorem getIntersection_flags_probe :
    unitBox.IntersectP sampleRay (invDirOf sampleRay) (dirIsNegOf sampleRay) = false := by
  norm_num [Bounds3.IntersectP, dirIsNegOf, invDirOf, sampleRay, unitBox, boolToInt]

/-! ## C2: the flags handed to `IntersectP` -/

/-- C2 (the code deviates): for `sampleRay`, whose direction components are all
positive, `getIntersection` hands `IntersectP` the flags `(1, 1, 1)`, whereas
flags that are 1 exactly on negative components would be `(0, 0, 0)`; on
`unitBox` the entry parameters that `IntersectP` then uses are `(6, 9/2, 9/2)`
and the exit parameters `(0, 3/2, 3/2)`, so each entry parameter is greater
than the exit parameter of its axis and the test answers `false`. -/
theorem getIntersection_flags_sampleRay :
    invDirOf sampleRay = recip sampleRay.direction ∧
    dirIsNegOf sampleRay = (1, 1, 1) ∧
    negFlags sampleRay.direction = (0, 0, 0) ∧
    unitBox.entryParams sampleRay (invDirOf sampleRay) (dirIsNegOf sampleRay)
      = (6, 9 / 2, 9 / 2) ∧
    unitBox.exitParams sampleRay (invDirOf sampleRay) (dirIsNegOf sampleRay)
      = (0, 3 / 2, 3 / 2) ∧
    unitBox.IntersectP sampleRay (invDirOf sampleRay) (dirIsNegOf sampleRay) = false := by
  refine ⟨rfl, ?_, ?_, ?_, ?_, ?_⟩
  · norm_num [dirIsNegOf, sampleRay, boolToInt]
  · norm_num [negFlags, sampleRay, boolToInt]
  · norm_num [Bounds3.entryParams, dirIsNegOf, invDirOf, sampleRay, unitBox, boolToInt]
  · norm_num [Bounds3.exitParams, dirIsNegOf, invDirOf, sampleRay, unitBox, boolToInt]
  · norm_num [Bounds3.IntersectP, dirIsNegOf, invDirOf, sampleRay, unitBox, boolToInt]

/-! ## C3: the hit criterion -/

/-- C3 (as stated, for every box): on `invertedBox`, whose `pMin` lies above
its `pMax`, `IntersectP` answers `false` for `sampleRay` although the largest
`min t0 t1` (3/2) is below the smallest `max t0 t1` (9/2). -/
theorem IntersectP_invertedBox_ne_specSlabHit :
    ¬ (invertedBox.IntersectP sampleRay (recip sampleRay.direction)
          (negFlags sampleRay.direction) = true ↔
        specSlabHit invertedBox sampleRay.origin (recip sampleRay.direction)) := by
  have hcode : invertedBox.IntersectP sampleRay (recip sampleRay.direction)
      (negFlags sampleRay.direction) = false := by
    norm_num [Bounds3.IntersectP, negFlags, recip, sampleRay, invertedBox, boolToInt]
  have hspec : specSlabHit invertedBox sampleRay.origin (recip sampleRay.direction) := by
    norm_num [specSlabHit, recip, sampleRay, invertedBox]
  rw [hcode]
  exact fun h => Bool.false_ne_true (h.2 hspec)

/-- C3 (amended): for every box with `pMin ≤ pMax` on every axis, every ray
origin and every direction without a zero component, with `invDir` the
componentwise reciprocal and the flags 1 exactly on the negative components,
`IntersectP` returns true if and only if the largest per-axis `min t0 t1` is
strictly less than the smallest per-axis `max t0 t1`. -/
theorem IntersectP_iff_specSlabHit (b : Bounds3) (origin d : Vector3f)
    (hb : b.Valid) (hx : d.x ≠ 0) (hy : d.y ≠ 0) (hz : d.z ≠ 0) :
    b.IntersectP ⟨origin, d⟩ (recip d) (negFlags d) = true ↔
      specSlabHit b origin (recip d) := by
  rw [IntersectP_eq_true_iff]
  simp only [Bounds3.entryParams, Bounds3.exitParams, negFlags, recip, specSlabHit]
  rw [axis_entry_negFlag _ _ _ _ hb.1 hx, axis_entry_negFlag _ _ _ _ hb.2.1 hy,
    axis_entry_negFlag _ _ _ _ hb.2.2 hz, axis_exit_negFlag _ _ _ _ hb.1 hx,
    axis_exit_negFlag _ _ _ _ hb.2.1 hy, axis_exit_negFlag _ _ _ _ hb.2.2 hz,
    max_assoc, min_assoc]

/-- The amended C3 at `unitBox` and the ray of `sampleRay`. -/
theorem IntersectP_iff_specSlabHit_witness :
    unitBox.Valid ∧
    (unitBox.IntersectP ⟨sampleRay.origin, sampleRay.direction⟩
        (recip sampleRay.direction) (negFlags sampleRay.direction) = true ↔
      specSlabHit unitBox sampleRay.origin (recip sampleRay.direction)) :=
  ⟨by norm_num [Bounds3.Valid, unitBox],
   IntersectP_iff_specSlabHit unitBox sampleRay.origin sampleRay.direction
    (by norm_num [Bounds3.Valid, unitBox]) (by norm_num [sampleRay])
    (by norm_num [sampleRay]) (by norm_num [sampleRay])⟩

/-! ## C4: rays through the interior -/

/-- C4: for a box with `pMin < pMax` on every axis and a ray without a zero
direction component (`invDir` the reciprocal, flags 1 exactly on negative
components), if some point `origin + t * direction` with `t ≥ 0` lies strictly
inside the box then `IntersectP` returns true. -/
theorem IntersectP_of_interior_point (b : Bounds3) (ray : Ray)
    (_hb : b.pMin.x < b.pMax.x ∧ b.pMin.y < b.pMax.y ∧ b.pMin.z < b.pMax.z)
    (hx : ray.direction.x ≠ 0) (hy : ray.direction.y ≠ 0) (hz : ray.direction.z ≠ 0)
    (t : ℚ) (_ht : 0 ≤ t)
    (hin : b.pMin.x < (ray.eval t).x ∧ (ray.eval t).x < b.pMax.x ∧
           b.pMin.y < (ray.eval t).y ∧ (ray.eval t).y < b.pMax.y ∧
           b.pMin.z < (ray.eval t).z ∧ (ray.eval t).z < b.pMax.z) :
    b.IntersectP ray (recip ray.direction) (negFlags ray.direction) = true := by
  obtain ⟨h1, h2, h3, h4, h5, h6⟩ := hin
  simp only [Ray.eval, Vector3f.add, Vector3f.smul] at h1 h2 h3 h4 h5 h6
  have key : ∀ lo hi o d : ℚ, d ≠ 0 → lo < o + t * d → o + t * d < hi →
      (if boolToInt (decide (d < 0)) > 0 then (hi - o) * (1 / d) else (lo - o) * (1 / d)) < t ∧
      t < (if boolToInt (decide (d < 0)) > 0 then (lo - o) * (1 / d) else (hi - o) * (1 / d)) := by
    intro lo hi o d hd hlo hhi
    rcases lt_or_gt_of_ne hd with hneg | hpos
    · have hf := boolToInt_decide_pos (d < 0) hneg
      rw [if_pos hf, if_pos hf, mul_one_div, mul_one_div, div_lt_iff_of_neg hneg,
        lt_div_iff_of_neg hneg]
      constructor <;> linarith
    · have hf := boolToInt_decide_not_pos (d < 0) (not_lt.mpr hpos.le)
      rw [if_neg hf, if_neg hf, mul_one_div, mul_one_div, div_lt_iff₀ hpos, lt_div_iff₀ hpos]
      constructor <;> linarith
  obtain ⟨ex, xx⟩ := key _ _ _ _ hx h1 h2
  obtain ⟨ey, xy⟩ := key _ _ _ _ hy h3 h4
  obtain ⟨ez, xz⟩ := key _ _ _ _ hz h5 h6
  rw [IntersectP_eq_true_iff]
  simp only [Bounds3.entryParams, Bounds3.exitParams, negFlags, recip]
  exact lt_trans (max_lt ex (max_lt ey ez)) (lt_min xx (lt_min xy xz))

/-- C4 at `unitBox` and `sampleRay`, which is at the centre of the box for
`t = 3`. -/
theorem IntersectP_of_interior_point_witness :
    unitBox.IntersectP sampleRay (recip sampleRay.direction)
      (negFlags sampleRay.direction) = true :=
  IntersectP_of_interior_point unitBox sampleRay (by norm_num [unitBox])
    (by norm_num [sampleRay]) (by norm_num [sampleRay]) (by norm_num [sampleRay])
    3 (by norm_num)
    (by norm_num [Ray.eval, Vector3f.add, Vector3f.smul, sampleRay, unitBox])

/-! ## C5: rays aimed away from the box -/

/-- C5 (as stated): `rayAway` starts beyond `boxBehind` and moves away
from it, so no point `origin + t * direction` with `t ≥ 0` lies in the box,
yet `IntersectP`, called with the reciprocal direction and the flags of the
negative components, returns true: the line meets the box for
`-15/4 < t < -9/4` and the test never looks at the sign of the exit
parameter. -/
theorem IntersectP_boxBehind_eq_true :
    rayAway.direction.x ≠ 0 ∧ rayAway.direction.y ≠ 0 ∧ rayAway.direction.z ≠ 0 ∧
    (∀ t : ℚ, 0 ≤ t → Bounds3.Inside (rayAway.eval t) boxBehind = false) ∧
    boxBehind.IntersectP rayAway (recip rayAway.direction)
      (negFlags rayAway.direction) = true := by
  refine ⟨by norm_num [rayAway], by norm_num [rayAway], by norm_num [rayAway], ?_, ?_⟩
  · intro t ht
    simp only [Bounds3.Inside, Ray.eval, Vector3f.add, Vector3f.smul, rayAway, boxBehind,
      decide_eq_false_iff_not, not_and_or, not_le]
    right; left
    linarith
  · norm_num [Bounds3.IntersectP, negFlags, recip, rayAway, boxBehind, boolToInt]

/-- With the flag `int(d < 0)` and the reciprocal of a non-zero direction
component `d`, a parameter `t` between the entry and the exit parameter of an
axis gives a coordinate `o + t * d` between the two slab planes. -/
theorem axis_between_negFlag (lo hi o d t : ℚ) (hd : d ≠ 0)
    (hentry : (if boolToInt (decide (d < 0)) > 0 then (hi - o) * (1 / d)
      else (lo - o) * (1 / d)) ≤ t)
    (hexit : t ≤ (if boolToInt (decide (d < 0)) > 0 then (lo - o) * (1 / d)
      else (hi - o) * (1 / d))) :
    lo ≤ o + t * d ∧ o + t * d ≤ hi := by
  rcases lt_or_gt_of_ne hd with hneg | hpos
  · rw [if_pos (boolToInt_decide_pos _ hneg)] at hentry hexit
    rw [mul_one_div, div_le_iff_of_neg hneg] at hentry
    rw [mul_one_div, le_div_iff_of_neg hneg] at hexit
    constructor <;> linarith
  · rw [if_neg (boolToInt_decide_not_pos _ (not_lt.mpr hpos.le))] at hentry hexit
    rw [mul_one_div, div_le_iff₀ hpos] at hentry
    rw [mul_one_div, le_div_iff₀ hpos] at hexit
    constructor <;> linarith

/-- C5 (amended): for every box and every ray with non-zero direction
components (invDir the reciprocal, flags set 1 exactly on negative
components): if the whole line of the ray misses the box, i.e. no point
`origin + t·direction`, for `t` of either sign, lies in the box, `IntersectP`
returns false. -/
theorem IntersectP_false_of_line_misses (b : Bounds3) (ray : Ray)
    (hx : ray.direction.x ≠ 0) (hy : ray.direction.y ≠ 0) (hz : ray.direction.z ≠ 0)
    (hmiss : ∀ t : ℚ, Bounds3.Inside (ray.eval t) b = false) :
    b.IntersectP ray (recip ray.direction) (negFlags ray.direction) = false := by
  by_contra hne
  have htrue : b.IntersectP ray (recip ray.direction) (negFlags ray.direction) = true := by
    simpa using hne
  have hlt := (IntersectP_eq_true_iff b ray _ _).mp htrue
  have h1 := le_max_left (b.entryParams ray (recip ray.direction) (negFlags ray.direction)).1
    (max (b.entryParams ray (recip ray.direction) (negFlags ray.direction)).2.1
      (b.entryParams ray (recip ray.direction) (negFlags ray.direction)).2.2)
  have h2 := le_trans (le_max_left
    (b.entryParams ray (recip ray.direction) (negFlags ray.direction)).2.1
    (b.entryParams ray (recip ray.direction) (negFlags ray.direction)).2.2)
    (le_max_right (b.entryParams ray (recip ray.direction) (negFlags ray.direction)).1 _)
  have h3 := le_trans (le_max_right
    (b.entryParams ray (recip ray.direction) (negFlags ray.direction)).2.1
    (b.entryParams ray (recip ray.direction) (negFlags ray.direction)).2.2)
    (le_max_right (b.entryParams ray (recip ray.direction) (negFlags ray.direction)).1 _)
  have h4 := le_of_lt (lt_of_lt_of_le hlt (min_le_left _ _))
  have h5 := le_of_lt (lt_of_lt_of_le hlt (le_trans (min_le_right _ _) (min_le_left _ _)))
  have h6 := le_of_lt (lt_of_lt_of_le hlt (le_trans (min_le_right _ _) (min_le_right _ _)))
  have ax := axis_between_negFlag b.pMin.x b.pMax.x ray.origin.x ray.direction.x _ hx h1 h4
  have ay := axis_between_negFlag b.pMin.y b.pMax.y ray.origin.y ray.direction.y _ hy h2 h5
  have az := axis_between_negFlag b.pMin.z b.pMax.z ray.origin.z ray.direction.z _ hz h3 h6
  have hin : Bounds3.Inside (ray.eval (max
      (b.entryParams ray (recip ray.direction) (negFlags ray.direction)).1
      (max (b.entryParams ray (recip ray.direction) (negFlags ray.direction)).2.1
        (b.entryParams ray (recip ray.direction) (negFlags ray.direction)).2.2))) b = true := by
    simp only [Bounds3.Inside, Ray.eval, Vector3f.add, Vector3f.smul, decide_eq_true_eq,
      ge_iff_le]
    exact ⟨ax.1, ax.2, ay.1, ay.2, az.1, az.2⟩
  rw [hmiss] at hin
  exact absurd hin (by simp)

/-- C5 (amended) for `boxBehind` and a ray from `(5, 0, 0)` with the direction
`(1/3, 2/3, 2/3)`, whose line passes the box at a distance. -/
theorem IntersectP_false_of_line_misses_witness :
    (∀ t : ℚ, Bounds3.Inside ((⟨⟨5, 0, 0⟩, ⟨1 / 3, 2 / 3, 2 / 3⟩⟩ : Ray).eval t) boxBehind
      = false) ∧
    boxBehind.IntersectP ⟨⟨5, 0, 0⟩, ⟨1 / 3, 2 / 3, 2 / 3⟩⟩
      (recip (⟨1 / 3, 2 / 3, 2 / 3⟩ : Vector3f)) (negFlags (⟨1 / 3, 2 / 3, 2 / 3⟩ : Vector3f))
      = false :=
  have hmiss : ∀ t : ℚ,
      Bounds3.Inside ((⟨⟨5, 0, 0⟩, ⟨1 / 3, 2 / 3, 2 / 3⟩⟩ : Ray).eval t) boxBehind = false := by
    intro t
    simp only [Bounds3.Inside, Ray.eval, Vector3f.add, Vector3f.smul, boxBehind,
      decide_eq_false_iff_not, ge_iff_le]
    intro h
    linarith [h.2.1, h.2.2.1]
  ⟨hmiss, IntersectP_false_of_line_misses boxBehind ⟨⟨5, 0, 0⟩, ⟨1 / 3, 2 / 3, 2 / 3⟩⟩
    (by norm_num) (by norm_num) (by norm_num) hmiss⟩

/-! ## Unfolding the traversal -/

/-- The body of `getIntersection` on a non-null node. -/
theorem getIntersection_mk {Obj : Type} (objIntersection : Obj → Ray → Intersection Obj)
    (bounds : Bounds3) (left right : BVHBuildNode Obj) (object : Option Obj) (ray : Ray) :
    getIntersection objIntersection (BVHBuildNode.mk bounds left right object) ray =
      if bounds.IntersectP ray (invDirOf ray) (dirIsNegOf ray) = false then
        some Intersection.new
      else if left.isNull && right.isNull then
        object.map fun o => objIntersection o ray
      else
        (getIntersection objIntersection left ray).bind fun hit1 =>
        (getIntersection objIntersection right ray).bind fun hit2 =>
        some (if hit1.distance < hit2.distance then hit1 else hit2) := rfl

/-- On a well-formed tree `getIntersection` dereferences no null pointer: it
returns a result for every ray. -/
theorem getIntersection_total {Obj : Type} (objIntersection : Obj → Ray → Intersection Obj)
    (ray : Ray) {t : BVHBuildNode Obj} (w : t.WellFormed) :
    ∃ hit, getIntersection objIntersection t ray = some hit := by
  induction t with
  | null => exact absurd w (by simp [BVHBuildNode.WellFormed])
  | mk b l r o ihl ihr =>
    rw [getIntersection_mk]
    by_cases hbox : b.IntersectP ray (invDirOf ray) (dirIsNegOf ray) = false
    · exact ⟨_, if_pos hbox⟩
    · rw [if_neg hbox]
      rcases w with ⟨hl, hr, ho⟩ | ⟨hl, _, _, wl, wr⟩
      · obtain ⟨p, rfl⟩ := Option.isSome_iff_exists.mp ho
        rw [hl, hr]
        exact ⟨_, rfl⟩
      · obtain ⟨h1, e1⟩ := ihl wl
        obtain ⟨h2, e2⟩ := ihr wr
        rw [hl, e1, e2]
        exact ⟨_, rfl⟩

/-! ## C6: the empty primitive list -/

/-- For an empty primitive list the constructor returns without building
anything, whatever the recursion budget (also with none at all, so
`recursiveBuild` is not entered), and without assigning `root`: the member
keeps the value `root0` it had when the body started. -/
theorem BVHAccel_new_nil_root {Obj : Type} (getBounds : Obj → Bounds3)
    (sort : (Obj → Obj → Bool) → List Obj → List Obj) (fuel : ℕ)
    (maxPrimsInNode : ℤ) (splitMethod : SplitMethod) (root0 : BVHBuildNode Obj) :
    ∃ accel : BVHAccel Obj,
      BVHAccel.new getBounds sort fuel [] maxPrimsInNode splitMethod root0 = some accel ∧
      BVHAccel.new getBounds sort 0 [] maxPrimsInNode splitMethod root0 = some accel ∧
      accel.root = root0 :=
  ⟨_, rfl, rfl, rfl⟩

/-- When `root` is the null pointer, `Intersect` returns for every ray the
default record (`happened = false`, distance `+∞`) and visits no node. -/
theorem Intersect_of_null_root {Obj : Type} (objIntersection : Obj → Ray → Intersection Obj)
    (accel : BVHAccel Obj) (hroot : accel.root = BVHBuildNode.null) (ray : Ray) :
    accel.Intersect objIntersection ray = some Intersection.new ∧
    (Intersection.new : Intersection Obj).happened = false ∧
    (Intersection.new : Intersection Obj).distance = ⊤ ∧
    accel.visited ray = 0 := by
  refine ⟨?_, rfl, rfl, ?_⟩
  · simp [BVHAccel.Intersect, hroot, BVHBuildNode.isNull]
  · simp [BVHAccel.visited, hroot, BVHBuildNode.isNull]

/-- C6 (the code deviates): for the empty primitive list the constructor
returns before the only assignment to `root` (and does not enter
`recursiveBuild`: no recursion budget is needed), so `root` is left as it was.
When the member held the address of a node, here the leaf `sampleLeaf 0`,
`Intersect` does not take its `if (!root)` exit: it visits that node and
returns the hit of its primitive instead of the default record. -/
theorem BVHAccel_new_nil_stale_root :
    ∃ accel : BVHAccel ℕ,
      BVHAccel.new sphereBounds insertionSort 0 [] 1 SplitMethod.NAIVE (sampleLeaf 0)
        = some accel ∧
      accel.root = sampleLeaf 0 ∧
      accel.visited sampleRay = 1 ∧
      accel.Intersect sampleHit sampleRay = some (sampleHit 0 sampleRay) ∧
      (sampleHit 0 sampleRay).happened = true ∧
      accel.Intersect sampleHit sampleRay ≠ some Intersection.new := by
  have hP : invertedBox.IntersectP sampleRay (invDirOf sampleRay) (dirIsNegOf sampleRay)
      = true := by
    norm_num [Bounds3.IntersectP, invDirOf, dirIsNegOf, sampleRay, invertedBox, boolToInt]
  have hI : getIntersection sampleHit (sampleLeaf 0) sampleRay
      = some (sampleHit 0 sampleRay) := by
    unfold sampleLeaf
    rw [getIntersection_mk, if_neg (by rw [hP]; simp)]
    rfl
  refine ⟨_, rfl, rfl, ?_, hI, rfl, ?_⟩
  · show (if (sampleLeaf 0).isNull then 0 else visitedNodes (sampleLeaf 0) sampleRay) = 1
    simp [sampleLeaf, BVHBuildNode.isNull, visitedNodes, hP]
  · show getIntersection sampleHit (sampleLeaf 0) sampleRay ≠ _
    rw [hI]
    intro h
    have := congrArg Intersection.happened (Option.some.inj h)
    simp [sampleHit, Intersection.new] at this

/-! ## C7: one step of the traversal -/

/-- C7: for every node `mk bounds left right object` and every ray,
`getIntersection` returns the sentinel (distance `+∞`) when the slab test on
`bounds` fails; when it passes and the node is a leaf holding `p`, exactly
`p->getIntersection(ray)`; when it passes and the node is not a leaf, with
`hit1`, `hit2` the results for the children, it returns `hit1` if
`hit1.distance < hit2.distance` and `hit2` otherwise, so the returned distance
is the minimum of the two.  On a well-formed node (leaves hold a primitive,
other nodes have two children) the call returns a result. -/
theorem getIntersection_step {Obj : Type}
    (objIntersection : Obj → Ray → Intersection Obj)
    (bounds : Bounds3) (left right : BVHBuildNode Obj) (object : Option Obj) (ray : Ray) :
    (bounds.IntersectP ray (invDirOf ray) (dirIsNegOf ray) = false →
      getIntersection objIntersection (BVHBuildNode.mk bounds left right object) ray
        = some Intersection.new ∧
      (Intersection.new : Intersection Obj).distance = ⊤) ∧
    (bounds.IntersectP ray (invDirOf ray) (dirIsNegOf ray) = true →
      left.isNull = true → right.isNull = true → ∀ p, object = some p →
      getIntersection objIntersection (BVHBuildNode.mk bounds left right object) ray
        = some (objIntersection p ray)) ∧
    (bounds.IntersectP ray (invDirOf ray) (dirIsNegOf ray) = true →
      (left.isNull && right.isNull) = false →
      ∀ hit1 hit2, getIntersection objIntersection left ray = some hit1 →
        getIntersection objIntersection right ray = some hit2 →
        ∃ hit, getIntersection objIntersection (BVHBuildNode.mk bounds left right object) ray
            = some hit ∧
          (hit1.distance < hit2.distance → hit = hit1) ∧
          (¬ hit1.distance < hit2.distance → hit = hit2) ∧
          hit.distance = min hit1.distance hit2.distance) ∧
    ((BVHBuildNode.mk bounds left right object).WellFormed →
      ∃ hit, getIntersection objIntersection (BVHBuildNode.mk bounds left right object) ray
        = some hit) := by
  refine ⟨fun h => ⟨?_, rfl⟩, fun h hl hr p hp => ?_, fun h hleaf hit1 hit2 e1 e2 => ?_,
    fun w => getIntersection_total objIntersection ray w⟩
  · rw [getIntersection_mk, if_pos h]
  · rw [getIntersection_mk, if_neg (by simp [h]), hl, hr, hp]
    rfl
  · refine ⟨if hit1.distance < hit2.distance then hit1 else hit2, ?_, ?_, ?_, ?_⟩
    · rw [getIntersection_mk, if_neg (by simp [h]), if_neg (by simp [hleaf]), e1, e2]
      rfl
    · intro hlt
      rw [if_pos hlt]
    · intro hlt
      rw [if_neg hlt]
    · by_cases hlt : hit1.distance < hit2.distance
      · rw [if_pos hlt, min_eq_left hlt.le]
      · rw [if_neg hlt, min_eq_right (not_lt.mp hlt)]

/-- C7 at `sampleNode` and `sampleRay`: the slab test passes on the root and on
both leaves, the leaves report the distances 5 and 4, and the root returns the
hit of the right leaf. -/
theorem getIntersection_step_witness :
    ∃ hit, getIntersection sampleHit sampleNode sampleRay = some hit ∧
      (sampleHit 0 sampleRay = sampleHit 1 sampleRay → False) ∧
      (¬ (sampleHit 0 sampleRay).distance < (sampleHit 1 sampleRay).distance →
        hit = sampleHit 1 sampleRay) ∧
      hit.distance = min (sampleHit 0 sampleRay).distance (sampleHit 1 sampleRay).distance := by
  have hbox : invertedBox.IntersectP sampleRay (invDirOf sampleRay) (dirIsNegOf sampleRay)
      = true := by
    norm_num [Bounds3.IntersectP, dirIsNegOf, invDirOf, sampleRay, invertedBox, boolToInt]
  have hleaf : ∀ o, getIntersection sampleHit (sampleLeaf o) sampleRay
      = some (sampleHit o sampleRay) := fun o =>
    (getIntersection_step sampleHit invertedBox BVHBuildNode.null BVHBuildNode.null
      (some o) sampleRay).2.1 hbox rfl rfl o rfl
  obtain ⟨hit, h1, _, h3, h4⟩ :=
    (getIntersection_step sampleHit invertedBox (sampleLeaf 0) (sampleLeaf 1) none
      sampleRay).2.2.1 hbox rfl _ _ (hleaf 0) (hleaf 1)
  refine ⟨hit, h1, ?_, h3, h4⟩
  intro h
  have := congrArg Intersection.obj h
  simp [sampleHit] at this

/-! ## Algebra of `Union` -/

theorem Union_comm (a b : Bounds3) : Union a b = Union b a := by
  simp [Union, Vector3f.Min, Vector3f.Max, min_comm, max_comm]

theorem Union_assoc (a b c : Bounds3) : Union (Union a b) c = Union a (Union b c) := by
  simp [Union, Vector3f.Min, Vector3f.Max, min_assoc, max_assoc]

theorem Union_left_comm (a b c : Bounds3) : Union a (Union b c) = Union b (Union a c) := by
  rw [← Union_assoc, Union_comm a b, Union_assoc]

theorem UnionPoint_eq_Union (b : Bounds3) (p : Vector3f) :
    UnionPoint b p = Union b (Bounds3.ofPoint p) := rfl

theorem Contains_Union_left (a b : Bounds3) : (Union a b).Contains a := by
  simp [Bounds3.Contains, Union, Vector3f.Min, Vector3f.Max]

theorem Contains_Union_right (a b : Bounds3) : (Union a b).Contains b := by
  simp [Bounds3.Contains, Union, Vector3f.Min, Vector3f.Max]

theorem Contains_trans {a b c : Bounds3} (h1 : a.Contains b) (h2 : b.Contains c) :
    a.Contains c := by
  obtain ⟨p1, p2, p3, p4, p5, p6⟩ := h1
  obtain ⟨q1, q2, q3, q4, q5, q6⟩ := h2
  exact ⟨p1.trans q1, p2.trans q2, p3.trans q3, q4.trans p4, q5.trans p5, q6.trans p6⟩

theorem Contains_refl (a : Bounds3) : a.Contains a :=
  ⟨le_refl _, le_refl _, le_refl _, le_refl _, le_refl _, le_refl _⟩

theorem Valid_Union {a b : Bounds3} (ha : a.Valid) : (Union a b).Valid := by
  obtain ⟨h1, h2, h3⟩ := ha
  refine ⟨?_, ?_, ?_⟩
  · exact le_trans (min_le_left _ _) (le_trans h1 (le_max_left _ _))
  · exact le_trans (min_le_left _ _) (le_trans h2 (le_max_left _ _))
  · exact le_trans (min_le_left _ _) (le_trans h3 (le_max_left _ _))

/-! ## The union of a list of boxes -/

/-- Joining two optional boxes, `none` being "no box". -/
theorem unionAll_cons (b : Bounds3) (bs : List Bounds3) :
    unionAll (b :: bs) = some (match unionAll bs with
      | none => b
      | some u => Union b u) := by
  simp only [unionAll]
  cases unionAll bs <;> rfl

theorem unionAll_eq_none {l : List Bounds3} : unionAll l = none ↔ l = [] := by
  cases l with
  | nil => simp [unionAll]
  | cons b bs => simp [unionAll_cons]

theorem unionAll_append_some {l1 l2 : List Bounds3} {u1 u2 : Bounds3}
    (h1 : unionAll l1 = some u1) (h2 : unionAll l2 = some u2) :
    unionAll (l1 ++ l2) = some (Union u1 u2) := by
  induction l1 generalizing u1 with
  | nil => simp [unionAll] at h1
  | cons b bs ih =>
    rw [List.cons_append, unionAll_cons]
    rw [unionAll_cons] at h1
    cases hbs : unionAll bs with
    | none =>
      rw [hbs] at h1
      have hnil : bs = [] := unionAll_eq_none.mp hbs
      subst hnil
      simp only [Option.some.injEq] at h1
      subst h1
      simp [h2]
    | some u =>
      rw [hbs] at h1
      simp only [Option.some.injEq] at h1
      subst h1
      rw [ih hbs, Union_assoc]

theorem unionAll_perm {l1 l2 : List Bounds3} (h : l1.Perm l2) :
    unionAll l1 = unionAll l2 := by
  induction h with
  | nil => rfl
  | cons a _ ih => rw [unionAll_cons, unionAll_cons, ih]
  | swap a b l =>
    rw [unionAll_cons, unionAll_cons, unionAll_cons, unionAll_cons]
    cases unionAll l with
    | none => simp [Union_comm]
    | some u => simp [Union_left_comm]
  | trans _ _ ih1 ih2 => rw [ih1, ih2]

theorem unionAll_contains {l : List Bounds3} {u : Bounds3} (h : unionAll l = some u) :
    ∀ b ∈ l, u.Contains b := by
  induction l generalizing u with
  | nil => simp [unionAll] at h
  | cons a as ih =>
    rw [unionAll_cons] at h
    intro b hb
    cases has : unionAll as with
    | none =>
      rw [has] at h
      have hnil : as = [] := unionAll_eq_none.mp has
      subst hnil
      simp only [Option.some.injEq] at h
      subst h
      simp only [List.mem_singleton] at hb
      subst hb
      exact Contains_refl _
    | some v =>
      rw [has] at h
      simp only [Option.some.injEq] at h
      subst h
      rcases List.mem_cons.mp hb with rfl | hb
      · exact Contains_Union_left _ _
      · exact Contains_trans (Contains_Union_right _ _) (ih has b hb)

/-- The loop `acc = Union(acc, g(o))` over a list joins `acc` with the union of
the list. -/
theorem foldl_Union_eq {α : Type} (g : α → Bounds3) (l : List α) (acc : Bounds3) :
    l.foldl (fun b o => Union b (g o)) acc =
      match unionAll (l.map g) with
      | none => acc
      | some u => Union acc u := by
  induction l generalizing acc with
  | nil => simp [unionAll]
  | cons a as ih =>
    rw [List.foldl_cons, ih, List.map_cons, unionAll_cons]
    cases unionAll (as.map g) with
    | none => rfl
    | some u => simp [Union_assoc]

/-! ## Shape of trees -/

theorem WellFormed_isNull {Obj : Type} {t : BVHBuildNode Obj} (h : t.WellFormed) :
    t.isNull = false := by
  cases t with
  | null => exact absurd h (by simp [BVHBuildNode.WellFormed])
  | mk b l r o => rfl

theorem mem_nodes_self {Obj : Type} {t : BVHBuildNode Obj} (h : t.isNull = false) :
    t ∈ t.nodes := by
  cases t with
  | null => simp [BVHBuildNode.isNull] at h
  | mk b l r o => simp [BVHBuildNode.nodes]

theorem leaves_mk_of_not_null {Obj : Type} (b : Bounds3) (l r : BVHBuildNode Obj)
    (o : Option Obj) (hl : l.isNull = false) :
    (BVHBuildNode.mk b l r o).leaves = l.leaves ++ r.leaves := by
  simp [BVHBuildNode.leaves, hl]

theorem numLeaves_mk_of_not_null {Obj : Type} (b : Bounds3) (l r : BVHBuildNode Obj)
    (o : Option Obj) (hl : l.isNull = false) :
    (BVHBuildNode.mk b l r o).numLeaves = l.numLeaves + r.numLeaves := by
  simp [BVHBuildNode.numLeaves, hl]

theorem numLeaves_eq_length_leaves {Obj : Type} {t : BVHBuildNode Obj}
    (h : t.WellFormed) : t.numLeaves = t.leaves.length := by
  induction t with
  | null => exact absurd h (by simp [BVHBuildNode.WellFormed])
  | mk b l r o ihl ihr =>
    rcases h with ⟨hl, hr, ho⟩ | ⟨hl, _, _, wl, wr⟩
    · obtain ⟨p, rfl⟩ := Option.isSome_iff_exists.mp ho
      simp [BVHBuildNode.numLeaves, BVHBuildNode.leaves, hl, hr]
    · rw [numLeaves_mk_of_not_null b l r o hl, leaves_mk_of_not_null b l r o hl,
        List.length_append, ihl wl, ihr wr]

/-! ## Unfolding the construction -/

theorem recursiveBuild_single {Obj : Type} (getBounds : Obj → Bounds3)
    (sort : (Obj → Obj → Bool) → List Obj → List Obj) (fuel : ℕ) (o : Obj) :
    recursiveBuild getBounds sort (fuel + 1) [o] =
      some (BVHBuildNode.mk (getBounds o) BVHBuildNode.null BVHBuildNode.null (some o)) :=
  rfl

theorem recursiveBuild_pair {Obj : Type} (getBounds : Obj → Bounds3)
    (sort : (Obj → Obj → Bool) → List Obj → List Obj) (fuel : ℕ) (o0 o1 : Obj) :
    recursiveBuild getBounds sort (fuel + 1) [o0, o1] =
      (recursiveBuild getBounds sort fuel [o0]).bind fun left =>
      (recursiveBuild getBounds sort fuel [o1]).bind fun right =>
      left.bounds?.bind fun lb =>
      right.bounds?.bind fun rb =>
      some (BVHBuildNode.mk (Union lb rb) left right none) :=
  rfl

theorem recursiveBuild_many {Obj : Type} (getBounds : Obj → Bounds3)
    (sort : (Obj → Obj → Bool) → List Obj → List Obj) (fuel : ℕ) (objects : List Obj)
    (h : objects.length ≠ 1) (h2 : objects.length ≠ 2) :
    recursiveBuild getBounds sort (fuel + 1) objects =
      (recursiveBuild getBounds sort fuel
        ((sortByDim getBounds sort (centroidBoundsOf getBounds objects).maxExtent objects).take
          ((sortByDim getBounds sort (centroidBoundsOf getBounds objects).maxExtent
            objects).length / 2))).bind fun left =>
      (recursiveBuild getBounds sort fuel
        ((sortByDim getBounds sort (centroidBoundsOf getBounds objects).maxExtent objects).drop
          ((sortByDim getBounds sort (centroidBoundsOf getBounds objects).maxExtent
            objects).length / 2))).bind fun right =>
      left.bounds?.bind fun lb =>
      right.bounds?.bind fun rb =>
      some (BVHBuildNode.mk (Union lb rb) left right none) := by
  have hassert : ∀ l : List Obj,
      l.length = (l.take (l.length / 2)).length + (l.drop (l.length / 2)).length := by
    intro l
    rw [List.length_take, List.length_drop]
    omega
  match objects, h, h2 with
  | [], _, _ => simp only [recursiveBuild]; rw [if_pos (hassert _)]
  | [_], h, _ => exact absurd rfl h
  | [_, _], _, h2 => exact absurd rfl h2
  | a :: b :: c :: t, _, _ => simp only [recursiveBuild]; rw [if_pos (hassert _)]

theorem sortByDim_perm {Obj : Type} (getBounds : Obj → Bounds3)
    (sort : (Obj → Obj → Bool) → List Obj → List Obj) (hperm : SortPermutes sort)
    (dim : ℕ) (objects : List Obj) :
    (sortByDim getBounds sort dim objects).Perm objects := by
  unfold sortByDim
  split
  · exact hperm _ _
  · exact hperm _ _
  · exact hperm _ _
  · exact List.Perm.refl _

/-! ## Invariants of the construction -/

/-- A node made of two built subtrees inherits their invariants. -/
theorem build_halves {Obj : Type} (getBounds : Obj → Bounds3)
    (sort : (Obj → Obj → Bool) → List Obj → List Obj) (fuel : ℕ) (L R : List Obj)
    (hL : ∃ t, recursiveBuild getBounds sort fuel L = some t ∧ t.WellFormed ∧
      BoundsExact getBounds t ∧ t.leaves.Perm L)
    (hR : ∃ t, recursiveBuild getBounds sort fuel R = some t ∧ t.WellFormed ∧
      BoundsExact getBounds t ∧ t.leaves.Perm R) :
    ∃ b tl tr,
      ((recursiveBuild getBounds sort fuel L).bind fun left =>
        (recursiveBuild getBounds sort fuel R).bind fun right =>
        left.bounds?.bind fun lb =>
        right.bounds?.bind fun rb =>
        some (BVHBuildNode.mk (Union lb rb) left right none))
        = some (BVHBuildNode.mk b tl tr none) ∧
      (BVHBuildNode.mk b tl tr none).WellFormed ∧
      BoundsExact getBounds (BVHBuildNode.mk b tl tr none) ∧
      (BVHBuildNode.mk b tl tr none).leaves = tl.leaves ++ tr.leaves ∧
      (BVHBuildNode.mk b tl tr none).numLeaves = tl.numLeaves + tr.numLeaves ∧
      tl.WellFormed ∧ tr.WellFormed ∧ tl.leaves.Perm L ∧ tr.leaves.Perm R := by
  obtain ⟨tl, el, wl, bl, pl⟩ := hL
  obtain ⟨tr, er, wr, br, pr⟩ := hR
  have nl := WellFormed_isNull wl
  have nr := WellFormed_isNull wr
  obtain ⟨lb, hlb⟩ : ∃ lb, tl.bounds? = some lb := by
    cases tl with
    | null => simp [BVHBuildNode.isNull] at nl
    | mk b _ _ _ => exact ⟨b, rfl⟩
  obtain ⟨rb, hrb⟩ : ∃ rb, tr.bounds? = some rb := by
    cases tr with
    | null => simp [BVHBuildNode.isNull] at nr
    | mk b _ _ _ => exact ⟨b, rfl⟩
  have hleaves := leaves_mk_of_not_null (Union lb rb) tl tr none nl
  refine ⟨Union lb rb, tl, tr, ?_, ?_, ?_, hleaves,
    numLeaves_mk_of_not_null (Union lb rb) tl tr none nl, wl, wr, pl, pr⟩
  · rw [el, er]
    simp only [Option.bind, hlb, hrb]
  · exact Or.inr ⟨nl, nr, rfl, wl, wr⟩
  · intro s hs
    simp only [BVHBuildNode.nodes, List.mem_cons, List.mem_append] at hs
    rcases hs with rfl | hs | hs
    · rw [hleaves, List.map_append]
      have h1 := bl tl (mem_nodes_self nl)
      have h2 := br tr (mem_nodes_self nr)
      rw [hlb] at h1
      rw [hrb] at h2
      rw [unionAll_append_some h1.symm h2.symm]
      rfl
    · exact bl s hs
    · exact br s hs

/-- For a non-empty list and a recursion budget of at least its length,
`recursiveBuild` returns a well-formed tree with exact bounds whose leaves are
a permutation of the list. -/
theorem recursiveBuild_inv {Obj : Type} (getBounds : Obj → Bounds3)
    (sort : (Obj → Obj → Bool) → List Obj → List Obj) (hperm : SortPermutes sort) :
    ∀ (fuel : ℕ) (objs : List Obj), objs ≠ [] → objs.length ≤ fuel →
      ∃ t, recursiveBuild getBounds sort fuel objs = some t ∧ t.WellFormed ∧
        BoundsExact getBounds t ∧ t.leaves.Perm objs := by
  intro fuel
  induction fuel with
  | zero =>
    intro objs hne hlen
    exact absurd (List.length_eq_zero.mp (Nat.le_zero.mp hlen)) hne
  | succ fuel ih =>
    intro objs hne hlen
    by_cases h1 : objs.length = 1
    · obtain ⟨o, rfl⟩ := List.length_eq_one.mp h1
      refine ⟨_, recursiveBuild_single getBounds sort fuel o, ?_, ?_, ?_⟩
      · exact Or.inl ⟨rfl, rfl, rfl⟩
      · intro s hs
        simp only [BVHBuildNode.nodes, List.append_nil, List.mem_singleton] at hs
        subst hs
        rfl
      · exact List.Perm.refl _
    · by_cases h2 : objs.length = 2
      · obtain ⟨o0, o1, rfl⟩ := List.length_eq_two.mp h2
        have hf : 1 ≤ fuel := by simpa using hlen
        obtain ⟨b, tl, tr, e, w, be, hl, _, _, _, pl, pr⟩ :=
          build_halves getBounds sort fuel [o0] [o1]
            (ih [o0] (by simp) (by simpa using hf)) (ih [o1] (by simp) (by simpa using hf))
        refine ⟨_, (recursiveBuild_pair getBounds sort fuel o0 o1).trans e, w, be, ?_⟩
        rw [hl]
        exact List.Perm.append pl pr
      · have hp := sortByDim_perm getBounds sort hperm
          (centroidBoundsOf getBounds objs).maxExtent objs
        have hlen' := hp.length_eq
        have hpos : 0 < objs.length := List.length_pos.mpr hne
        have h3 : 3 ≤ objs.length := by omega
        obtain ⟨b, tl, tr, e, w, be, hl, _, _, _, pl, pr⟩ :=
          build_halves getBounds sort fuel _ _
            (ih ((sortByDim getBounds sort (centroidBoundsOf getBounds objs).maxExtent
                objs).take ((sortByDim getBounds sort
                  (centroidBoundsOf getBounds objs).maxExtent objs).length / 2))
              (List.ne_nil_of_length_pos (by rw [List.length_take]; omega))
              (by rw [List.length_take]; omega))
            (ih ((sortByDim getBounds sort (centroidBoundsOf getBounds objs).maxExtent
                objs).drop ((sortByDim getBounds sort
                  (centroidBoundsOf getBounds objs).maxExtent objs).length / 2))
              (List.ne_nil_of_length_pos (by rw [List.length_drop]; omega))
              (by rw [List.length_drop]; omega))
        refine ⟨_, (recursiveBuild_many getBounds sort fuel objs h1 h2).trans e, w, be, ?_⟩
        rw [hl]
        exact ((List.Perm.append pl pr).trans
          (by rw [List.take_append_drop])).trans hp

/-! ## The insertion sort is an admissible `std::sort` -/

theorem insertionSort_permutes {Obj : Type} :
    SortPermutes (insertionSort : (Obj → Obj → Bool) → List Obj → List Obj) :=
  fun _ l => List.perm_insertionSort _ l

theorem insertionSort_orders {Obj : Type} :
    SortOrders (insertionSort : (Obj → Obj → Bool) → List Obj → List Obj) := by
  intro key l
  haveI : IsTotal Obj (fun a b => decide (key b < key a) = false) :=
    ⟨fun a b => by
      simp only [decide_eq_false_iff_not, not_lt]
      exact le_total _ _⟩
  haveI : IsTrans Obj (fun a b => decide (key b < key a) = false) :=
    ⟨fun a b c => by
      simp only [decide_eq_false_iff_not, not_lt]
      exact le_trans⟩
  have h := List.sorted_insertionSort (fun a b => decide (key b < key a) = false) l
  refine List.Pairwise.imp ?_ h
  intro a b hab
  simpa using hab

/-! ## The centroid box -/

theorem maxExtent_lt_three (b : Bounds3) : b.maxExtent < 3 := by
  simp only [Bounds3.maxExtent]
  split_ifs <;> simp

theorem Union_empty_left {u : Bounds3} (h : u.WithinLimits) : Union Bounds3.empty u = u := by
  obtain ⟨h1, h2, h3, h4, h5, h6⟩ := h
  cases u with
  | mk pMin pMax =>
    cases pMin
    cases pMax
    simp only [Union, Bounds3.empty, Vector3f.Min, Vector3f.Max] at *
    simp [min_eq_right, max_eq_right, h1, h2, h3, h4, h5, h6]

theorem WithinLimits_Union {a b : Bounds3} (ha : a.WithinLimits) :
    (Union a b).WithinLimits := by
  obtain ⟨h1, h2, h3, h4, h5, h6⟩ := ha
  exact ⟨le_trans (min_le_left _ _) h1, le_trans (min_le_left _ _) h2,
    le_trans (min_le_left _ _) h3, le_trans h4 (le_max_left _ _),
    le_trans h5 (le_max_left _ _), le_trans h6 (le_max_left _ _)⟩

theorem unionAll_withinLimits {l : List Bounds3} {u : Bounds3}
    (hl : ∀ b ∈ l, b.WithinLimits) (h : unionAll l = some u) : u.WithinLimits := by
  cases l with
  | nil => simp [unionAll] at h
  | cons a as =>
    rw [unionAll_cons] at h
    have ha := hl a (List.mem_cons_self _ _)
    cases has : unionAll as with
    | none =>
      rw [has] at h
      simp only [Option.some.injEq] at h
      subst h
      exact ha
    | some v =>
      rw [has] at h
      simp only [Option.some.injEq] at h
      subst h
      exact WithinLimits_Union ha

theorem unionAll_valid {l : List Bounds3} {u : Bounds3}
    (hl : ∀ b ∈ l, b.Valid) (h : unionAll l = some u) : u.Valid := by
  cases l with
  | nil => simp [unionAll] at h
  | cons a as =>
    rw [unionAll_cons] at h
    have ha := hl a (List.mem_cons_self _ _)
    cases has : unionAll as with
    | none =>
      rw [has] at h
      simp only [Option.some.injEq] at h
      subst h
      exact ha
    | some v =>
      rw [has] at h
      simp only [Option.some.injEq] at h
      subst h
      exact Valid_Union ha

/-- For a non-empty list of primitives with finite centroids, the box that the
loop of `recursiveBuild` computes is the bounding box of the centroids. -/
theorem centroidBoundsOf_eq_centroidBox {Obj : Type} (getBounds : Obj → Bounds3)
    (objs : List Obj) (hne : objs ≠ [])
    (hfin : ∀ o ∈ objs, (getBounds o).Centroid.Finite) :
    centroidBox getBounds objs = some (centroidBoundsOf getBounds objs) := by
  have hfold := foldl_Union_eq (fun o => Bounds3.ofPoint (getBounds o).Centroid) objs
    Bounds3.empty
  have hcb : centroidBoundsOf getBounds objs =
      objs.foldl (fun b o => Union b (Bounds3.ofPoint (getBounds o).Centroid))
        Bounds3.empty := rfl
  unfold centroidBox
  cases hu : unionAll (objs.map fun o => Bounds3.ofPoint (getBounds o).Centroid) with
  | none =>
    have := unionAll_eq_none.mp hu
    simp only [List.map_eq_nil_iff] at this
    exact absurd this hne
  | some u =>
    rw [hu] at hfold
    have hlim : u.WithinLimits := by
      refine unionAll_withinLimits ?_ hu
      intro b hb
      obtain ⟨o, ho, rfl⟩ := List.mem_map.mp hb
      obtain ⟨f1, f2, f3, f4, f5, f6⟩ := hfin o ho
      exact ⟨f2, f4, f6, f1, f3, f5⟩
    rw [hcb, hfold]
    exact congrArg some (Union_empty_left hlim).symm

theorem sortByDim_sorted {Obj : Type} (getBounds : Obj → Bounds3)
    (sort : (Obj → Obj → Bool) → List Obj → List Obj) (hsort : SortOrders sort)
    (dim : ℕ) (hdim : dim < 3) (objects : List Obj) :
    List.Pairwise
      (fun a c => Vector3f.coord dim (getBounds a).Centroid
        ≤ Vector3f.coord dim (getBounds c).Centroid)
      (sortByDim getBounds sort dim objects) := by
  match dim, hdim with
  | 0, _ => exact hsort (fun o => (getBounds o).Centroid.x) objects
  | 1, _ => exact hsort (fun o => (getBounds o).Centroid.y) objects
  | 2, _ => exact hsort (fun o => (getBounds o).Centroid.z) objects

/-! ## C8: the leaves of the built tree -/

/-- C8: for every non-empty list of `N` primitives (and a recursion budget of
at least `N`), `recursiveBuild` returns a tree with exactly `N` leaves, in
which every leaf holds exactly one primitive and every other node has exactly
two children, and whose leaves hold a permutation of the input list. -/
theorem recursiveBuild_leaves {Obj : Type} (getBounds : Obj → Bounds3)
    (sort : (Obj → Obj → Bool) → List Obj → List Obj) (hperm : SortPermutes sort)
    (objs : List Obj) (hne : objs ≠ []) (fuel : ℕ) (hfuel : objs.length ≤ fuel) :
    ∃ t, recursiveBuild getBounds sort fuel objs = some t ∧
      t.numLeaves = objs.length ∧ t.WellFormed ∧ t.leaves.Perm objs := by
  obtain ⟨t, e, w, _, pm⟩ := recursiveBuild_inv getBounds sort hperm fuel objs hne hfuel
  exact ⟨t, e, by rw [numLeaves_eq_length_leaves w, pm.length_eq], w, pm⟩

/-- C8 for the primitives `2, 0, 1` with the bounds `boxAt`, sorted by
insertion. -/
theorem recursiveBuild_leaves_witness :
    ∃ t, recursiveBuild boxAt insertionSort 3 [2, 0, 1] = some t ∧
      t.numLeaves = [2, 0, 1].length ∧ t.WellFormed ∧ t.leaves.Perm [2, 0, 1] :=
  recursiveBuild_leaves boxAt insertionSort insertionSort_permutes [2, 0, 1]
    (by simp) 3 (by simp)

/-! ## C9: the bounds of the built tree -/

/-- C9: in the tree built from a non-empty list, the bounds of every node equal
the union of `getBounds()` over exactly the primitives held below that node;
the bounds of the root equal the union over all input primitives; and the
bounds of every node contain the bounds of each primitive below it. -/
theorem recursiveBuild_bounds {Obj : Type} (getBounds : Obj → Bounds3)
    (sort : (Obj → Obj → Bool) → List Obj → List Obj) (hperm : SortPermutes sort)
    (objs : List Obj) (hne : objs ≠ []) (fuel : ℕ) (hfuel : objs.length ≤ fuel) :
    ∃ t, recursiveBuild getBounds sort fuel objs = some t ∧
      (∀ s ∈ t.nodes, s.bounds? = unionAll (s.leaves.map getBounds)) ∧
      t.bounds? = unionAll (objs.map getBounds) ∧
      (∀ s ∈ t.nodes, ∀ b, s.bounds? = some b → ∀ o ∈ s.leaves, b.Contains (getBounds o)) := by
  obtain ⟨t, e, w, be, pm⟩ := recursiveBuild_inv getBounds sort hperm fuel objs hne hfuel
  refine ⟨t, e, be, ?_, ?_⟩
  · rw [be t (mem_nodes_self (WellFormed_isNull w))]
    exact unionAll_perm (pm.map getBounds)
  · intro s hs b hb o ho
    have hu := be s hs
    rw [hb] at hu
    exact unionAll_contains hu.symm (getBounds o) (List.mem_map_of_mem getBounds ho)

/-- C9 for the primitives `2, 0, 1` with the bounds `boxAt`. -/
theorem recursiveBuild_bounds_witness :
    ∃ t, recursiveBuild boxAt insertionSort 3 [2, 0, 1] = some t ∧
      (∀ s ∈ t.nodes, s.bounds? = unionAll (s.leaves.map boxAt)) ∧
      t.bounds? = unionAll ([2, 0, 1].map boxAt) ∧
      (∀ s ∈ t.nodes, ∀ b, s.bounds? = some b → ∀ o ∈ s.leaves, b.Contains (boxAt o)) :=
  recursiveBuild_bounds boxAt insertionSort insertionSort_permutes [2, 0, 1]
    (by simp) 3 (by simp)

/-! ## C10: the median split -/

/-- C10: for a list of more than two primitives with finite centroids,
`recursiveBuild` uses the bounding box of the centroids of the primitives'
bounds, takes its `maxExtent` axis as split axis, and returns a node whose left
subtree holds exactly `⌊n/2⌋` primitives and whose right subtree the remaining
`n - ⌊n/2⌋`; on the split axis the centroid coordinate of every primitive on
the left is less than or equal to that of every primitive on the right. -/
theorem recursiveBuild_split {Obj : Type} (getBounds : Obj → Bounds3)
    (sort : (Obj → Obj → Bool) → List Obj → List Obj)
    (hperm : SortPermutes sort) (hsort : SortOrders sort)
    (objs : List Obj) (hlen : 2 < objs.length)
    (hfin : ∀ o ∈ objs, (getBounds o).Centroid.Finite)
    (fuel : ℕ) (hfuel : objs.length ≤ fuel) :
    ∃ box b tl tr,
      centroidBox getBounds objs = some box ∧
      centroidBoundsOf getBounds objs = box ∧
      recursiveBuild getBounds sort fuel objs = some (BVHBuildNode.mk b tl tr none) ∧
      tl.numLeaves = objs.length / 2 ∧
      tr.numLeaves = objs.length - objs.length / 2 ∧
      (tl.leaves ++ tr.leaves).Perm objs ∧
      ∀ a ∈ tl.leaves, ∀ c ∈ tr.leaves,
        Vector3f.coord box.maxExtent (getBounds a).Centroid
          ≤ Vector3f.coord box.maxExtent (getBounds c).Centroid := by
  have hne : objs ≠ [] := by
    intro h
    rw [h] at hlen
    simp at hlen
  obtain ⟨fuel, rfl⟩ : ∃ f, fuel = f + 1 := ⟨fuel - 1, by omega⟩
  have hp := sortByDim_perm getBounds sort hperm
    (centroidBoundsOf getBounds objs).maxExtent objs
  have hs := sortByDim_sorted getBounds sort hsort
    (centroidBoundsOf getBounds objs).maxExtent (maxExtent_lt_three _) objs
  have hlen' := hp.length_eq
  obtain ⟨b, tl, tr, e, _, _, _, _, wl, wr, pl, pr⟩ :=
    build_halves getBounds sort fuel _ _
      (recursiveBuild_inv getBounds sort hperm fuel
        ((sortByDim getBounds sort (centroidBoundsOf getBounds objs).maxExtent
          objs).take ((sortByDim getBounds sort
            (centroidBoundsOf getBounds objs).maxExtent objs).length / 2))
        (List.ne_nil_of_length_pos (by rw [List.length_take]; omega))
        (by rw [List.length_take]; omega))
      (recursiveBuild_inv getBounds sort hperm fuel
        ((sortByDim getBounds sort (centroidBoundsOf getBounds objs).maxExtent
          objs).drop ((sortByDim getBounds sort
            (centroidBoundsOf getBounds objs).maxExtent objs).length / 2))
        (List.ne_nil_of_length_pos (by rw [List.length_drop]; omega))
        (by rw [List.length_drop]; omega))
  refine ⟨centroidBoundsOf getBounds objs, b, tl, tr,
    centroidBoundsOf_eq_centroidBox getBounds objs hne hfin, rfl,
    (recursiveBuild_many getBounds sort fuel objs (by omega) (by omega)).trans e,
    ?_, ?_, ?_, ?_⟩
  · rw [numLeaves_eq_length_leaves wl, pl.length_eq, List.length_take]
    omega
  · rw [numLeaves_eq_length_leaves wr, pr.length_eq, List.length_drop]
    omega
  · exact ((List.Perm.append pl pr).trans (by rw [List.take_append_drop])).trans hp
  · intro a ha c hc
    rw [← List.take_append_drop
      ((sortByDim getBounds sort (centroidBoundsOf getBounds objs).maxExtent objs).length / 2)
      (sortByDim getBounds sort (centroidBoundsOf getBounds objs).maxExtent objs),
      List.pairwise_append] at hs
    exact hs.2.2 a (pl.subset ha) c (pr.subset hc)

/-- Every `boxAt` centroid is a finite point. -/
theorem boxAt_centroid_finite : ∀ o ∈ [2, 0, 1], (boxAt o).Centroid.Finite := by
  intro o ho
  simp only [List.mem_cons, List.mem_singleton, List.not_mem_nil, or_false] at ho
  rcases ho with rfl | rfl | rfl <;>
    norm_num [Vector3f.Finite, boxAt, Bounds3.Centroid, Vector3f.add, Vector3f.smul,
      minNum, maxNum]

/-- C10 for the primitives `2, 0, 1` with the bounds `boxAt`, sorted by
insertion. -/
theorem recursiveBuild_split_witness :
    ∃ box b tl tr,
      centroidBox boxAt [2, 0, 1] = some box ∧
      centroidBoundsOf boxAt [2, 0, 1] = box ∧
      recursiveBuild boxAt insertionSort 3 [2, 0, 1] = some (BVHBuildNode.mk b tl tr none) ∧
      tl.numLeaves = [2, 0, 1].length / 2 ∧
      tr.numLeaves = [2, 0, 1].length - [2, 0, 1].length / 2 ∧
      (tl.leaves ++ tr.leaves).Perm [2, 0, 1] ∧
      ∀ a ∈ tl.leaves, ∀ c ∈ tr.leaves,
        Vector3f.coord box.maxExtent (boxAt a).Centroid
          ≤ Vector3f.coord box.maxExtent (boxAt c).Centroid :=
  recursiveBuild_split boxAt insertionSort insertionSort_permutes insertionSort_orders
    [2, 0, 1] (by simp) boxAt_centroid_finite 3 (by simp)

/-! ## C1: the traversal against brute force -/

/-- On a tree built from primitives whose bounds satisfy `pMin ≤ pMax`, and for
a ray without a zero direction component, `Intersect` returns the sentinel:
the slab test, called with the flags of the positive components, already fails
on the bounds of the root. -/
theorem Intersect_eq_sentinel_of_valid {Obj : Type} (getBounds : Obj → Bounds3)
    (sort : (Obj → Obj → Bool) → List Obj → List Obj) (hperm : SortPermutes sort)
    (objIntersection : Obj → Ray → Intersection Obj)
    (objs : List Obj) (hne : objs ≠ []) (hvalid : ∀ o ∈ objs, (getBounds o).Valid)
    (ray : Ray) (hx : ray.direction.x ≠ 0) (hy : ray.direction.y ≠ 0)
    (hz : ray.direction.z ≠ 0) (fuel : ℕ) (hfuel : objs.length ≤ fuel)
    (maxPrimsInNode : ℤ) (splitMethod : SplitMethod) (root0 : BVHBuildNode Obj) :
    ∃ accel, BVHAccel.new getBounds sort fuel objs maxPrimsInNode splitMethod root0
        = some accel ∧
      accel.Intersect objIntersection ray = some Intersection.new := by
  obtain ⟨t, e, w, be, pm⟩ := recursiveBuild_inv getBounds sort hperm fuel objs hne hfuel
  have hempty : objs.isEmpty = false := by
    cases objs with
    | nil => exact absurd rfl hne
    | cons _ _ => rfl
  refine ⟨_, by simp only [BVHAccel.new, hempty, e]; rfl, ?_⟩
  have hroot := be t (mem_nodes_self (WellFormed_isNull w))
  cases t with
  | null => exact absurd w (by simp [BVHBuildNode.WellFormed])
  | mk b l r o =>
    have hb : b.Valid := by
      refine unionAll_valid ?_ hroot.symm
      intro c hc
      obtain ⟨p, hp, rfl⟩ := List.mem_map.mp hc
      exact hvalid p (pm.subset hp)
    show getIntersection objIntersection (BVHBuildNode.mk b l r o) ray = _
    rw [getIntersection_mk, if_pos (IntersectP_codeFlags_eq_false b ray hb hx hy hz)]

/-- C1 (the code deviates): for the single primitive 0, the unit sphere with
the bounds `unitBox`, and `sampleRay`, testing the primitive directly gives
the hit at distance 2 on primitive 0, whereas `Intersect` on the tree built
from the list returns the sentinel (nothing happened, distance `+∞`, no
primitive). -/
theorem Intersect_sphere_ne_bruteForce :
    ∃ accel, BVHAccel.new sphereBounds insertionSort 1 [0] 1 SplitMethod.NAIVE
        BVHBuildNode.null = some accel ∧
      accel.Intersect sphereHit sampleRay = some Intersection.new ∧
      (bruteForce sphereHit [0] sampleRay).happened = true ∧
      (bruteForce sphereHit [0] sampleRay).distance = ((2 : ℚ) : WithTop ℚ) ∧
      (bruteForce sphereHit [0] sampleRay).obj = some 0 := by
  have hhit : sphereHit 0 sampleRay =
      { happened := true, coords := ⟨-1 / 3, -2 / 3, -2 / 3⟩,
        normal := ⟨-1 / 3, -2 / 3, -2 / 3⟩, distance := ((2 : ℚ) : WithTop ℚ),
        emit := ⟨0, 0, 0⟩, obj := some 0, m := none } := if_pos rfl
  have hlt : (sphereHit 0 sampleRay).distance
      < (Intersection.new : Intersection ℕ).distance := by
    rw [hhit]
    exact WithTop.coe_lt_top _
  have hbrute : bruteForce sphereHit [0] sampleRay = sphereHit 0 sampleRay := by
    simp only [bruteForce, List.foldl]
    exact if_pos hlt
  refine ⟨_, rfl, ?_, ?_, ?_, ?_⟩
  · show getIntersection sphereHit
      (BVHBuildNode.mk unitBox BVHBuildNode.null BVHBuildNode.null (some 0)) sampleRay = _
    rw [getIntersection_mk, if_pos getIntersection_flags_probe]
  · rw [hbrute, hhit]
  · rw [hbrute, hhit]
  · rw [hbrute, hhit]

/-! ## C11: lists of one and of two primitives -/

/-- C11: for a list of exactly one primitive `recursiveBuild` returns a leaf (no
children) whose object is that primitive and whose bounds are its bounds; for
a list of exactly two primitives it returns a node whose left child is the
leaf of the first primitive, whose right child is the leaf of the second, and
whose bounds are the union of the two primitives' bounds. -/
theorem recursiveBuild_one_two {Obj : Type} (getBounds : Obj → Bounds3)
    (sort : (Obj → Obj → Bool) → List Obj → List Obj) (fuel : ℕ) (o o0 o1 : Obj) :
    recursiveBuild getBounds sort (fuel + 1) [o] =
      some (BVHBuildNode.mk (getBounds o) BVHBuildNode.null BVHBuildNode.null (some o)) ∧
    recursiveBuild getBounds sort (fuel + 2) [o0, o1] =
      some (BVHBuildNode.mk (Union (getBounds o0) (getBounds o1))
        (BVHBuildNode.mk (getBounds o0) BVHBuildNode.null BVHBuildNode.null (some o0))
        (BVHBuildNode.mk (getBounds o1) BVHBuildNode.null BVHBuildNode.null (some o1))
        none) :=
  ⟨rfl, rfl⟩

/-! ## C12: the height of the built tree -/

/-- The two recursive calls and the two bounds behind a node that
`recursiveBuild` returns. -/
theorem bind_halves_eq_some {Obj : Type} (getBounds : Obj → Bounds3)
    (sort : (Obj → Obj → Bool) → List Obj → List Obj) (fuel : ℕ) (L R : List Obj)
    (t : BVHBuildNode Obj)
    (h : ((recursiveBuild getBounds sort fuel L).bind fun left =>
        (recursiveBuild getBounds sort fuel R).bind fun right =>
        left.bounds?.bind fun lb =>
        right.bounds?.bind fun rb =>
        some (BVHBuildNode.mk (Union lb rb) left right none)) = some t) :
    ∃ left right lb rb,
      recursiveBuild getBounds sort fuel L = some left ∧
      recursiveBuild getBounds sort fuel R = some right ∧
      left.bounds? = some lb ∧ right.bounds? = some rb ∧
      t = BVHBuildNode.mk (Union lb rb) left right none := by
  obtain ⟨left, el, h⟩ := Option.bind_eq_some.mp h
  obtain ⟨right, er, h⟩ := Option.bind_eq_some.mp h
  obtain ⟨lb, elb, h⟩ := Option.bind_eq_some.mp h
  obtain ⟨rb, erb, h⟩ := Option.bind_eq_some.mp h
  exact ⟨left, right, lb, rb, el, er, elb, erb, (Option.some.inj h).symm⟩

theorem isNull_of_bounds_some {Obj : Type} {t : BVHBuildNode Obj} {b : Bounds3}
    (h : t.bounds? = some b) : t.isNull = false := by
  cases t with
  | null => simp [BVHBuildNode.bounds?] at h
  | mk _ _ _ _ => rfl

theorem height_mk_of_not_null {Obj : Type} (b : Bounds3) (l r : BVHBuildNode Obj)
    (o : Option Obj) (hl : l.isNull = false) :
    (BVHBuildNode.mk b l r o).height = max l.height r.height + 1 := by
  simp [BVHBuildNode.height, hl]

/-- Halving (rounding up) lowers the ceiling logarithm by one. -/
theorem clog_half_succ {n : ℕ} (hn : 2 ≤ n) :
    Nat.clog 2 (n - n / 2) + 1 = Nat.clog 2 n := by
  rw [Nat.clog_of_two_le (by norm_num) hn]
  congr 2
  omega

/-- Whatever tree `recursiveBuild` returns for a non-empty list of `N`
primitives, its height is at most `⌈log₂ N⌉`. -/
theorem height_le_of_recursiveBuild {Obj : Type} (getBounds : Obj → Bounds3)
    (sort : (Obj → Obj → Bool) → List Obj → List Obj) (hperm : SortPermutes sort) :
    ∀ (fuel : ℕ) (objs : List Obj) (t : BVHBuildNode Obj), objs ≠ [] →
      recursiveBuild getBounds sort fuel objs = some t →
      t.height ≤ Nat.clog 2 objs.length := by
  intro fuel
  induction fuel with
  | zero =>
    intro objs t _ h
    simp [recursiveBuild] at h
  | succ fuel ih =>
    intro objs t hne h
    have key : ∀ L R : List Obj, L ≠ [] → R ≠ [] →
        L.length ≤ objs.length - objs.length / 2 →
        R.length ≤ objs.length - objs.length / 2 → 2 ≤ objs.length →
        ((recursiveBuild getBounds sort fuel L).bind fun left =>
          (recursiveBuild getBounds sort fuel R).bind fun right =>
          left.bounds?.bind fun lb =>
          right.bounds?.bind fun rb =>
          some (BVHBuildNode.mk (Union lb rb) left right none)) = some t →
        t.height ≤ Nat.clog 2 objs.length := by
      intro L R hL hR hLlen hRlen h2 hb
      obtain ⟨left, right, lb, rb, el, er, elb, _, rfl⟩ :=
        bind_halves_eq_some getBounds sort fuel L R t hb
      rw [height_mk_of_not_null _ _ _ _ (isNull_of_bounds_some elb), ← clog_half_succ h2]
      have h1 := (ih L left hL el).trans (Nat.clog_mono_right 2 hLlen)
      have h2 := (ih R right hR er).trans (Nat.clog_mono_right 2 hRlen)
      exact Nat.succ_le_succ (max_le h1 h2)
    by_cases h1 : objs.length = 1
    · obtain ⟨o, rfl⟩ := List.length_eq_one.mp h1
      rw [recursiveBuild_single] at h
      rw [← Option.some.inj h]
      simp [BVHBuildNode.height, BVHBuildNode.isNull]
    · by_cases h2 : objs.length = 2
      · obtain ⟨o0, o1, rfl⟩ := List.length_eq_two.mp h2
        rw [recursiveBuild_pair] at h
        exact key [o0] [o1] (by simp) (by simp) (by simp) (by simp) (by simp) h
      · have hp := sortByDim_perm getBounds sort hperm
          (centroidBoundsOf getBounds objs).maxExtent objs
        have hlen' := hp.length_eq
        have hpos : 0 < objs.length := List.length_pos.mpr hne
        rw [recursiveBuild_many getBounds sort fuel objs h1 h2] at h
        exact key _ _
          (List.ne_nil_of_length_pos (by rw [List.length_take]; omega))
          (List.ne_nil_of_length_pos (by rw [List.length_drop]; omega))
          (by rw [List.length_take]; omega) (by rw [List.length_drop]; omega)
          (by omega) h

/-- C12: for every non-empty list of `N` primitives, whatever their centroids,
`recursiveBuild` (with a recursion budget of at least `N`) returns a tree whose
height, the number of edges on the longest path from the root to a leaf, is at
most `⌈log₂ N⌉`. -/
theorem recursiveBuild_height {Obj : Type} (getBounds : Obj → Bounds3)
    (sort : (Obj → Obj → Bool) → List Obj → List Obj) (hperm : SortPermutes sort)
    (objs : List Obj) (hne : objs ≠ []) (fuel : ℕ) (hfuel : objs.length ≤ fuel) :
    ∃ t, recursiveBuild getBounds sort fuel objs = some t ∧
      t.height ≤ Nat.clog 2 objs.length := by
  obtain ⟨t, e, _, _, _⟩ := recursiveBuild_inv getBounds sort hperm fuel objs hne hfuel
  exact ⟨t, e, height_le_of_recursiveBuild getBounds sort hperm fuel objs t hne e⟩

/-- C12 for the primitives `2, 0, 1` with the bounds `boxAt`: the height is at
most `⌈log₂ 3⌉ = 2`. -/
theorem recursiveBuild_height_witness :
    ∃ t, recursiveBuild boxAt insertionSort 3 [2, 0, 1] = some t ∧
      t.height ≤ Nat.clog 2 [2, 0, 1].length :=
  recursiveBuild_height boxAt insertionSort insertionSort_permutes [2, 0, 1]
    (by simp) 3 (by simp)

/-! ## Nodes below a node -/

theorem isNull_of_mem_nodes {Obj : Type} {t s : BVHBuildNode Obj} (h : s ∈ t.nodes) :
    s.isNull = false := by
  induction t with
  | null => simp [BVHBuildNode.nodes] at h
  | mk b l r o ihl ihr =>
    simp only [BVHBuildNode.nodes, List.mem_cons, List.mem_append] at h
    rcases h with rfl | h | h
    · rfl
    · exact ihl h
    · exact ihr h

/-- In a well-formed tree the primitives below a node are among the primitives
of the whole tree. -/
theorem leaves_subset_of_mem_nodes {Obj : Type} {t s : BVHBuildNode Obj}
    (h : s ∈ t.nodes) : ∀ o ∈ s.leaves, o ∈ t.leaves := by
  induction t with
  | null => simp [BVHBuildNode.nodes] at h
  | mk b l r o ihl ihr =>
    simp only [BVHBuildNode.nodes, List.mem_cons, List.mem_append] at h
    rcases h with rfl | h | h
    · exact fun _ ho => ho
    · intro p hp
      have hl : l.isNull = false := by
        cases l with
        | null => simp [BVHBuildNode.nodes] at h
        | mk _ _ _ _ => rfl
      rw [leaves_mk_of_not_null b l r o hl]
      exact List.mem_append_left _ (ihl h p hp)
    · intro p hp
      have hr : r.isNull = false := by
        cases r with
        | null => simp [BVHBuildNode.nodes] at h
        | mk _ _ _ _ => rfl
      have hrl := ihr h p hp
      by_cases hl : l.isNull = false
      · rw [leaves_mk_of_not_null b l r o hl]
        exact List.mem_append_right _ hrl
      · have hl' : l.isNull = true := by simpa using hl
        have hln : l.leaves = [] := by
          cases l with
          | null => rfl
          | mk _ _ _ _ => simp [BVHBuildNode.isNull] at hl'
        simp only [BVHBuildNode.leaves, hl', hr, Bool.and_false, Bool.false_eq_true,
          if_false, hln, List.nil_append]
        exact hrl

/-! ## C13: the empty box is neutral for `Union` -/

/-- C13: for every box `b` and every point `p` with finite coordinates, the
union with the default-constructed (empty) box changes nothing:
`Union(Bounds3(), b)` has the `pMin` and `pMax` of `b`, and
`Union(Bounds3(), p)` is the box with `pMin = pMax = p`. -/
theorem Union_empty_eq (b : Bounds3) (p : Vector3f)
    (hb : b.pMin.Finite ∧ b.pMax.Finite) (hp : p.Finite) :
    (Union Bounds3.empty b).pMin = b.pMin ∧ (Union Bounds3.empty b).pMax = b.pMax ∧
    UnionPoint Bounds3.empty p = { pMin := p, pMax := p } := by
  obtain ⟨⟨_, b2, _, b4, _, b6⟩, ⟨c1, _, c3, _, c5, _⟩⟩ := hb
  obtain ⟨p1, p2, p3, p4, p5, p6⟩ := hp
  have hu : Union Bounds3.empty b = b := Union_empty_left ⟨b2, b4, b6, c1, c3, c5⟩
  have hq : Union Bounds3.empty (Bounds3.ofPoint p) = Bounds3.ofPoint p :=
    Union_empty_left ⟨p2, p4, p6, p1, p3, p5⟩
  exact ⟨by rw [hu], by rw [hu], hq⟩

/-- C13 at `unitBox` and the point `(1/3, 2/3, 2/3)`. -/
theorem Union_empty_eq_witness :
    (Union Bounds3.empty unitBox).pMin = unitBox.pMin ∧
    (Union Bounds3.empty unitBox).pMax = unitBox.pMax ∧
    UnionPoint Bounds3.empty ⟨1 / 3, 2 / 3, 2 / 3⟩
      = { pMin := ⟨1 / 3, 2 / 3, 2 / 3⟩, pMax := ⟨1 / 3, 2 / 3, 2 / 3⟩ } :=
  Union_empty_eq unitBox ⟨1 / 3, 2 / 3, 2 / 3⟩
    (by norm_num [Vector3f.Finite, unitBox, minNum, maxNum])
    (by norm_num [Vector3f.Finite, minNum, maxNum])

/-! ## C14: membership after a union with a point -/

/-- C14: for every box `b` (the empty box included) and every point `p`,
`Inside(p, Union(b, p))` is true, and every point `q` with `Inside(q, b)` true
also has `Inside(q, Union(b, p))` true. -/
theorem Inside_UnionPoint (b : Bounds3) (p : Vector3f) :
    Bounds3.Inside p (UnionPoint b p) = true ∧
    ∀ q : Vector3f, Bounds3.Inside q b = true → Bounds3.Inside q (UnionPoint b p) = true := by
  constructor
  · simp [Bounds3.Inside, UnionPoint, Vector3f.Min, Vector3f.Max]
  · intro q hq
    simp only [Bounds3.Inside, decide_eq_true_eq, UnionPoint, Vector3f.Min, Vector3f.Max,
      ge_iff_le] at hq ⊢
    obtain ⟨h1, h2, h3, h4, h5, h6⟩ := hq
    exact ⟨le_trans (min_le_left _ _) h1, le_trans h2 (le_max_left _ _),
      le_trans (min_le_left _ _) h3, le_trans h4 (le_max_left _ _),
      le_trans (min_le_left _ _) h5, le_trans h6 (le_max_left _ _)⟩

/-- C14 at `unitBox`, the outside point `(3, 0, 0)` and the inside point
`(1/3, 2/3, 2/3)`; and at the empty box. -/
theorem Inside_UnionPoint_witness :
    Bounds3.Inside ⟨1 / 3, 2 / 3, 2 / 3⟩ unitBox = true ∧
    Bounds3.Inside ⟨1 / 3, 2 / 3, 2 / 3⟩ (UnionPoint unitBox ⟨3, 0, 0⟩) = true ∧
    Bounds3.Inside ⟨3, 0, 0⟩ (UnionPoint Bounds3.empty ⟨3, 0, 0⟩) = true :=
  have hin : Bounds3.Inside ⟨1 / 3, 2 / 3, 2 / 3⟩ unitBox = true := by
    norm_num [Bounds3.Inside, unitBox]
  ⟨hin, (Inside_UnionPoint unitBox ⟨3, 0, 0⟩).2 ⟨1 / 3, 2 / 3, 2 / 3⟩ hin,
    (Inside_UnionPoint Bounds3.empty ⟨3, 0, 0⟩).1⟩

/-! ## C15 and C16: `maxExtent` -/

/-- The three outcomes of `maxExtent` in terms of the diagonal. -/
theorem maxExtent_cases (b : Bounds3) :
    (b.maxExtent = 0 ∧ b.Diagonal.y < b.Diagonal.x ∧ b.Diagonal.z < b.Diagonal.x) ∨
    (b.maxExtent = 1 ∧ b.Diagonal.x ≤ b.Diagonal.y ∧ b.Diagonal.z < b.Diagonal.y) ∨
    (b.maxExtent = 2 ∧ b.Diagonal.x ≤ b.Diagonal.z ∧ b.Diagonal.y ≤ b.Diagonal.z) := by
  simp only [Bounds3.maxExtent]
  by_cases h0 : b.Diagonal.x > b.Diagonal.y ∧ b.Diagonal.x > b.Diagonal.z
  · rw [if_pos h0]
    exact Or.inl ⟨rfl, h0.1, h0.2⟩
  · rw [if_neg h0]
    by_cases h1 : b.Diagonal.y > b.Diagonal.z
    · rw [if_pos h1]
      refine Or.inr (Or.inl ⟨rfl, ?_, h1⟩)
      by_contra hc
      exact h0 ⟨not_le.mp hc, lt_trans h1 (not_le.mp hc)⟩
    · rw [if_neg h1]
      refine Or.inr (Or.inr ⟨rfl, ?_, not_lt.mp h1⟩)
      by_contra hc
      exact h0 ⟨lt_of_le_of_lt (not_lt.mp h1) (not_le.mp hc), not_le.mp hc⟩

/-- C15: for every box, `maxExtent` returns an index in `{0, 1, 2}` whose
diagonal component is greater than or equal to the diagonal components on all
three axes. -/
theorem maxExtent_largest (b : Bounds3) :
    (b.maxExtent = 0 ∨ b.maxExtent = 1 ∨ b.maxExtent = 2) ∧
    b.Diagonal.x ≤ Vector3f.coord b.maxExtent b.Diagonal ∧
    b.Diagonal.y ≤ Vector3f.coord b.maxExtent b.Diagonal ∧
    b.Diagonal.z ≤ Vector3f.coord b.maxExtent b.Diagonal := by
  rcases maxExtent_cases b with ⟨e, h1, h2⟩ | ⟨e, h1, h2⟩ | ⟨e, h1, h2⟩
  · rw [e]
    exact ⟨Or.inl rfl, le_refl _, h1.le, h2.le⟩
  · rw [e]
    exact ⟨Or.inr (Or.inl rfl), h1, le_refl _, h2.le⟩
  · rw [e]
    exact ⟨Or.inr (Or.inr rfl), h1, h2, le_refl _⟩

/-- C16 (as stated): on `tieBox` the diagonal components of x and y tie for the
largest, the order x, then y, then z names axis 0, and `maxExtent` returns 1. -/
theorem maxExtent_tieBox_ne_lowest :
    tieBox.Diagonal.x = tieBox.Diagonal.y ∧ tieBox.Diagonal.z < tieBox.Diagonal.x ∧
    lowestLargestAxis tieBox.Diagonal = 0 ∧ tieBox.maxExtent = 1 ∧
    tieBox.maxExtent ≠ lowestLargestAxis tieBox.Diagonal := by
  have hd : tieBox.Diagonal = ⟨1, 1, 0⟩ := by
    norm_num [tieBox, Bounds3.Diagonal, Vector3f.sub]
  have hm : tieBox.maxExtent = 1 := by
    simp only [Bounds3.maxExtent, hd]
    norm_num
  have hl : lowestLargestAxis tieBox.Diagonal = 0 := by
    simp only [lowestLargestAxis, hd]
    norm_num
  refine ⟨by rw [hd], by rw [hd]; norm_num, hl, hm, ?_⟩
  rw [hm, hl]
  norm_num

/-- C16 (amended): `maxExtent` breaks ties in the order z, then y, then x: it
returns the highest-numbered axis among those with the largest diagonal
component, that is 2 exactly when z is (or ties for) the largest, 1 exactly
when y is (or ties for) the largest and z is smaller, and 0 exactly when x is
strictly the largest. -/
theorem maxExtent_highest_of_largest (b : Bounds3) :
    (b.maxExtent = 2 ↔ b.Diagonal.x ≤ b.Diagonal.z ∧ b.Diagonal.y ≤ b.Diagonal.z) ∧
    (b.maxExtent = 1 ↔ b.Diagonal.x ≤ b.Diagonal.y ∧ b.Diagonal.z < b.Diagonal.y) ∧
    (b.maxExtent = 0 ↔ b.Diagonal.y < b.Diagonal.x ∧ b.Diagonal.z < b.Diagonal.x) := by
  rcases maxExtent_cases b with ⟨e, h1, h2⟩ | ⟨e, h1, h2⟩ | ⟨e, h1, h2⟩
  · rw [e]
    refine ⟨⟨fun h => absurd h (by norm_num), fun h => absurd h.1 (not_le.mpr h2)⟩,
      ⟨fun h => absurd h (by norm_num), fun h => absurd h.1 (not_le.mpr h1)⟩,
      ⟨fun _ => ⟨h1, h2⟩, fun _ => rfl⟩⟩
  · rw [e]
    refine ⟨⟨fun h => absurd h (by norm_num), fun h => absurd h.2 (not_le.mpr h2)⟩,
      ⟨fun _ => ⟨h1, h2⟩, fun _ => rfl⟩,
      ⟨fun h => absurd h (by norm_num), fun h => absurd h1 (not_le.mpr h.1)⟩⟩
  · rw [e]
    refine ⟨⟨fun _ => ⟨h1, h2⟩, fun _ => rfl⟩,
      ⟨fun h => absurd h (by norm_num), fun h => absurd h2 (not_le.mpr h.2)⟩,
      ⟨fun h => absurd h (by norm_num), fun h => absurd h1 (not_le.mpr h.2)⟩⟩

/-! ## C17: box validity -/

theorem Valid_ofPoints (p1 p2 : Vector3f) : (Bounds3.ofPoints p1 p2).Valid :=
  ⟨min_le_max, min_le_max, min_le_max⟩

theorem Valid_ofPoint (p : Vector3f) : (Bounds3.ofPoint p).Valid :=
  ⟨le_refl _, le_refl _, le_refl _⟩

/-- C17: `pMin ≤ pMax` is kept by the operations that produce boxes: the
two-point constructor yields a valid box for any two points, the one-point
constructor yields a valid box, the union of a valid box with any box or any
point is valid; and every `node.bounds` of a tree that `recursiveBuild` builds
from primitives with valid bounds is valid. -/
theorem Valid_invariant {Obj : Type} (getBounds : Obj → Bounds3)
    (sort : (Obj → Obj → Bool) → List Obj → List Obj) (hperm : SortPermutes sort)
    (objs : List Obj) (hne : objs ≠ []) (hvalid : ∀ o ∈ objs, (getBounds o).Valid)
    (fuel : ℕ) (hfuel : objs.length ≤ fuel) :
    (∀ p1 p2 : Vector3f, (Bounds3.ofPoints p1 p2).Valid) ∧
    (∀ p : Vector3f, (Bounds3.ofPoint p).Valid) ∧
    (∀ a b : Bounds3, a.Valid → (Union a b).Valid ∧ (Union b a).Valid) ∧
    (∀ (a : Bounds3) (p : Vector3f), a.Valid → (UnionPoint a p).Valid) ∧
    ∃ t, recursiveBuild getBounds sort fuel objs = some t ∧
      ∀ s ∈ t.nodes, ∃ b, s.bounds? = some b ∧ b.Valid := by
  refine ⟨Valid_ofPoints, Valid_ofPoint,
    fun a b ha => ⟨Valid_Union ha, by rw [Union_comm]; exact Valid_Union ha⟩,
    fun a p ha => (Valid_Union ha : (Union a (Bounds3.ofPoint p)).Valid), ?_⟩
  obtain ⟨t, e, w, be, pm⟩ := recursiveBuild_inv getBounds sort hperm fuel objs hne hfuel
  refine ⟨t, e, ?_⟩
  intro s hs
  have hb := be s hs
  have hsub : ∀ o ∈ s.leaves, o ∈ objs := fun o ho =>
    pm.subset (leaves_subset_of_mem_nodes hs o ho)
  cases hu : unionAll (s.leaves.map getBounds) with
  | none =>
    rw [hu] at hb
    have hnull : s.isNull = false := isNull_of_mem_nodes hs
    cases s with
    | null => simp [BVHBuildNode.isNull] at hnull
    | mk _ _ _ _ => simp [BVHBuildNode.bounds?] at hb
  | some u =>
    rw [hu] at hb
    refine ⟨u, hb, unionAll_valid ?_ hu⟩
    intro c hc
    obtain ⟨o, ho, rfl⟩ := List.mem_map.mp hc
    exact hvalid o (hsub o ho)

/-- Every `boxAt` is a valid box. -/
theorem boxAt_valid : ∀ o ∈ [2, 0, 1], (boxAt o).Valid := by
  intro o _
  simp [Bounds3.Valid, boxAt]

/-- C17 for the primitives `2, 0, 1` with the bounds `boxAt`. -/
theorem Valid_invariant_witness :
    (∀ p1 p2 : Vector3f, (Bounds3.ofPoints p1 p2).Valid) ∧
    (∀ p : Vector3f, (Bounds3.ofPoint p).Valid) ∧
    (∀ a b : Bounds3, a.Valid → (Union a b).Valid ∧ (Union b a).Valid) ∧
    (∀ (a : Bounds3) (p : Vector3f), a.Valid → (UnionPoint a p).Valid) ∧
    ∃ t, recursiveBuild boxAt insertionSort 3 [2, 0, 1] = some t ∧
      ∀ s ∈ t.nodes, ∃ b, s.bounds? = some b ∧ b.Valid :=
  Valid_invariant boxAt insertionSort insertionSort_permutes [2, 0, 1] (by simp)
    boxAt_valid 3 (by simp)

/-! ## Light sampling: the two loops -/

theorem emissiveArea_nil {Obj : Type} (hasEmit : Obj → Bool) (getArea : Obj → ℚ) :
    emissiveArea hasEmit getArea [] = 0 := rfl

theorem emissiveArea_cons {Obj : Type} (hasEmit : Obj → Bool) (getArea : Obj → ℚ)
    (x : Obj) (xs : List Obj) :
    emissiveArea hasEmit getArea (x :: xs) =
      if hasEmit x then getArea x + emissiveArea hasEmit getArea xs
      else emissiveArea hasEmit getArea xs := by
  by_cases h : hasEmit x = true
  · simp [emissiveArea, List.filter_cons, h]
  · simp [emissiveArea, List.filter_cons, h]

theorem emissiveArea_append {Obj : Type} (hasEmit : Obj → Bool) (getArea : Obj → ℚ)
    (xs ys : List Obj) :
    emissiveArea hasEmit getArea (xs ++ ys) =
      emissiveArea hasEmit getArea xs + emissiveArea hasEmit getArea ys := by
  simp [emissiveArea, List.filter_append]

/-- The first loop computes the sum of `getArea()` over the emissive objects. -/
theorem emitAreaSum_eq_emissiveArea {Obj : Type} (hasEmit : Obj → Bool)
    (getArea : Obj → ℚ) (objects : List Obj) :
    emitAreaSum hasEmit getArea objects = emissiveArea hasEmit getArea objects := by
  have h : ∀ (l : List Obj) (s : ℚ),
      l.foldl (fun acc o => if hasEmit o then acc + getArea o else acc) s
        = s + emissiveArea hasEmit getArea l := by
    intro l
    induction l with
    | nil => intro s; simp [emissiveArea]
    | cons x xs ih =>
      intro s
      rw [List.foldl_cons, ih, emissiveArea_cons]
      by_cases hx : hasEmit x = true
      · simp only [hx, if_true]; ring
      · simp only [hx, if_false, Bool.false_eq_true]
  simpa [emitAreaSum] using h objects 0

/-- The second loop stops at the first emissive object whose running total
meets or exceeds `p`. -/
theorem sampleLoop_eq_some_iff {Obj : Type} (hasEmit : Obj → Bool) (getArea : Obj → ℚ)
    (p : ℚ) : ∀ (os : List Obj) (s : ℚ) (k k' : ℕ) (o : Obj),
    sampleLoop hasEmit getArea p os s k = some (k', o) ↔
      ∃ i, k' = k + i ∧ os[i]? = some o ∧ hasEmit o = true ∧
        p ≤ s + emissiveArea hasEmit getArea (os.take (i + 1)) ∧
        ∀ j < i, ∀ o', os[j]? = some o' → hasEmit o' = true →
          s + emissiveArea hasEmit getArea (os.take (j + 1)) < p := by
  intro os
  induction os with
  | nil =>
    intro s k k' o
    simp [sampleLoop]
  | cons x xs ih =>
    intro s k k' o
    by_cases hx : hasEmit x = true
    · by_cases hp : p ≤ s + getArea x
      · have hloop : sampleLoop hasEmit getArea p (x :: xs) s k = some (k, x) := by
          simp [sampleLoop, hx, hp]
        rw [hloop]
        constructor
        · intro h
          obtain ⟨rfl, rfl⟩ := Prod.mk.inj (Option.some.inj h)
          refine ⟨0, rfl, by simp, hx, ?_, fun j hj => absurd hj (Nat.not_lt_zero j)⟩
          simpa [emissiveArea_cons, emissiveArea_nil, hx] using hp
        · rintro ⟨i, rfl, hi, _, _, hall⟩
          cases i with
          | zero =>
            simp only [List.getElem?_cons_zero, Option.some.injEq] at hi
            rw [hi]
            rfl
          | succ i =>
            have := hall 0 (Nat.succ_pos i) x (by simp) hx
            simp only [zero_add, List.take_succ_cons, List.take_zero, emissiveArea_cons, hx,
              if_true, emissiveArea_nil, add_zero] at this
            exact absurd hp (not_le.mpr this)
      · have hloop : sampleLoop hasEmit getArea p (x :: xs) s k
            = sampleLoop hasEmit getArea p xs (s + getArea x) (k + 1) := by
          simp [sampleLoop, hx, hp]
        rw [hloop, ih]
        constructor
        · rintro ⟨i, rfl, hi, ho, hle, hall⟩
          refine ⟨i + 1, by omega, by simpa using hi, ho, ?_, ?_⟩
          · simpa [emissiveArea_cons, hx, add_assoc] using hle
          · intro j hj o' ho' he'
            cases j with
            | zero =>
              simpa [emissiveArea_cons, emissiveArea_nil, hx] using not_le.mp hp
            | succ j =>
              have := hall j (by omega) o' (by simpa using ho') he'
              simpa [emissiveArea_cons, hx, add_assoc] using this
        · rintro ⟨i, rfl, hi, ho, hle, hall⟩
          cases i with
          | zero =>
            exfalso
            apply hp
            simpa [emissiveArea_cons, emissiveArea_nil, hx] using hle
          | succ i =>
            refine ⟨i, by omega, by simpa using hi, ho, ?_, ?_⟩
            · simpa [emissiveArea_cons, hx, add_assoc] using hle
            · intro j hj o' ho' he'
              have := hall (j + 1) (by omega) o' (by simpa using ho') he'
              simpa [emissiveArea_cons, hx, add_assoc] using this
    · have hloop : sampleLoop hasEmit getArea p (x :: xs) s k
          = sampleLoop hasEmit getArea p xs s (k + 1) := by
        simp [sampleLoop, hx]
      rw [hloop, ih]
      constructor
      · rintro ⟨i, rfl, hi, ho, hle, hall⟩
        refine ⟨i + 1, by omega, by simpa using hi, ho, ?_, ?_⟩
        · simpa [emissiveArea_cons, hx] using hle
        · intro j hj o' ho' he'
          cases j with
          | zero =>
            simp only [List.getElem?_cons_zero, Option.some.injEq] at ho'
            rw [ho'] at hx
            exact absurd he' hx
          | succ j =>
            have := hall j (by omega) o' (by simpa using ho') he'
            simpa [emissiveArea_cons, hx] using this
      · rintro ⟨i, rfl, hi, ho, hle, hall⟩
        cases i with
        | zero =>
          simp only [List.getElem?_cons_zero, Option.some.injEq] at hi
          rw [hi] at hx
          exact absurd ho hx
        | succ i =>
          refine ⟨i, by omega, by simpa using hi, ho, ?_, ?_⟩
          · simpa [emissiveArea_cons, hx] using hle
          · intro j hj o' ho' he'
            have := hall (j + 1) (by omega) o' (by simpa using ho') he'
            simpa [emissiveArea_cons, hx] using this

/-- The object `sampleLight` delegates to, characterised. -/
theorem sampledLight_eq_some_iff {Obj : Type} (hasEmit : Obj → Bool) (getArea : Obj → ℚ)
    (objects : List Obj) (u : ℚ) (k : ℕ) (o : Obj) :
    sampledLight hasEmit getArea objects u = some (k, o) ↔
      IsFirstMeeting hasEmit getArea objects
        (u * emissiveArea hasEmit getArea objects) k o := by
  unfold sampledLight IsFirstMeeting
  rw [sampleLoop_eq_some_iff, emitAreaSum_eq_emissiveArea]
  constructor
  · rintro ⟨i, rfl, hi, ho, hle, hall⟩
    simp only [zero_add] at hle hall ⊢
    exact ⟨hi, ho, hle, hall⟩
  · rintro ⟨hi, ho, hle, hall⟩
    refine ⟨k, by omega, hi, ho, ?_, ?_⟩
    · simpa using hle
    · simpa using hall

/-! ## Light sampling: facts about emissive areas -/

theorem sampleLight_eq {Obj : Type} (hasEmit : Obj → Bool) (getArea : Obj → ℚ)
    (Sample : Obj → Intersection Obj × ℚ → Intersection Obj × ℚ)
    (objects : List Obj) (u : ℚ) (pos : Intersection Obj) (pdf : ℚ) :
    sampleLight hasEmit getArea Sample objects u pos pdf =
      match sampledLight hasEmit getArea objects u with
      | some (_, o) => Sample o (pos, pdf)
      | none => (pos, pdf) := rfl

theorem emissiveArea_nonneg {Obj : Type} (hasEmit : Obj → Bool) (getArea : Obj → ℚ)
    (l : List Obj) (h : ∀ x ∈ l, hasEmit x = true → 0 ≤ getArea x) :
    0 ≤ emissiveArea hasEmit getArea l := by
  induction l with
  | nil => simp [emissiveArea_nil]
  | cons x xs ih =>
    rw [emissiveArea_cons]
    have hxs := ih (fun y hy => h y (List.mem_cons_of_mem _ hy))
    by_cases hx : hasEmit x = true
    · rw [if_pos hx]
      exact add_nonneg (h x (List.mem_cons_self _ _) hx) hxs
    · rw [if_neg hx]
      exact hxs

theorem emissiveArea_eq_zero {Obj : Type} (hasEmit : Obj → Bool) (getArea : Obj → ℚ)
    (l : List Obj) (h : ∀ x ∈ l, hasEmit x = true → getArea x = 0) :
    emissiveArea hasEmit getArea l = 0 := by
  induction l with
  | nil => simp [emissiveArea_nil]
  | cons x xs ih =>
    rw [emissiveArea_cons, ih (fun y hy => h y (List.mem_cons_of_mem _ hy))]
    by_cases hx : hasEmit x = true
    · rw [if_pos hx, h x (List.mem_cons_self _ _) hx, add_zero]
    · rw [if_neg hx]

theorem emissiveArea_take_le {Obj : Type} (hasEmit : Obj → Bool) (getArea : Obj → ℚ)
    (l : List Obj) (h : ∀ x ∈ l, hasEmit x = true → 0 ≤ getArea x) (n : ℕ) :
    emissiveArea hasEmit getArea (l.take n) ≤ emissiveArea hasEmit getArea l := by
  have hsplit := emissiveArea_append hasEmit getArea (l.take n) (l.drop n)
  rw [List.take_append_drop] at hsplit
  have hdrop := emissiveArea_nonneg hasEmit getArea (l.drop n)
    (fun x hx => h x (List.mem_of_mem_drop hx))
  linarith

theorem getElem?_append_cons_length {α : Type} (pre post : List α) (o : α) :
    (pre ++ o :: post)[pre.length]? = some o := by
  rw [List.getElem?_append_right (le_refl _), Nat.sub_self, List.getElem?_cons_zero]

/-- When every emissive object before the end of a prefix has a running total
below `p ≥ 0`, the emissive area of the prefix is at most `p`. -/
theorem emissiveArea_prefix_le {Obj : Type} (hasEmit : Obj → Bool) (getArea : Obj → ℚ)
    (p : ℚ) (hp : 0 ≤ p) (pre : List Obj) :
    ∀ rest : List Obj,
      (∀ j < pre.length, ∀ o', (pre ++ rest)[j]? = some o' → hasEmit o' = true →
        emissiveArea hasEmit getArea ((pre ++ rest).take (j + 1)) < p) →
      emissiveArea hasEmit getArea pre ≤ p := by
  induction pre using List.reverseRecOn with
  | nil => intro _ _; simpa [emissiveArea_nil] using hp
  | append_singleton init x ih =>
    intro rest hall
    have hinit : emissiveArea hasEmit getArea init ≤ p := by
      apply ih (x :: rest)
      intro j hj o' ho' he'
      have := hall j (by rw [List.length_append]; simp; omega) o'
        (by simpa [List.append_assoc] using ho') he'
      simpa [List.append_assoc] using this
    rw [emissiveArea_append, emissiveArea_cons, emissiveArea_nil]
    by_cases hx : hasEmit x = true
    · have := hall init.length (by simp) x
        (by rw [List.append_assoc]; exact getElem?_append_cons_length init rest x) hx
      rw [List.append_assoc, List.take_append, emissiveArea_append] at this
      simp only [List.singleton_append, List.take_succ_cons, List.take_zero,
        emissiveArea_cons, emissiveArea_nil, hx, if_true] at this
      rw [if_pos hx]
      exact this.le
    · rw [if_neg hx, add_zero]
      exact hinit

/-! ## C18: which light `sampleLight` delegates to -/

/-- C18: for every object list and every draw `u`, with
`p = u * (sum of getArea() over the emissive objects)`, `sampleLight` delegates
to the `Sample` routine of the first emissive object, in list order, whose
running total of emissive area meets or exceeds `p` (and to none when there is
no such object); objects without `hasEmit()` do not contribute to the total and
are never selected. -/
theorem sampleLight_delegates {Obj : Type} (hasEmit : Obj → Bool) (getArea : Obj → ℚ)
    (Sample : Obj → Intersection Obj × ℚ → Intersection Obj × ℚ)
    (objects : List Obj) (u : ℚ) (pos : Intersection Obj) (pdf : ℚ) :
    emitAreaSum hasEmit getArea objects = emissiveArea hasEmit getArea objects ∧
    (∀ k o, sampledLight hasEmit getArea objects u = some (k, o) ↔
      IsFirstMeeting hasEmit getArea objects
        (u * emissiveArea hasEmit getArea objects) k o) ∧
    (∀ k o, sampledLight hasEmit getArea objects u = some (k, o) →
      hasEmit o = true ∧
      sampleLight hasEmit getArea Sample objects u pos pdf = Sample o (pos, pdf)) ∧
    (sampledLight hasEmit getArea objects u = none →
      sampleLight hasEmit getArea Sample objects u pos pdf = (pos, pdf)) := by
  refine ⟨emitAreaSum_eq_emissiveArea hasEmit getArea objects,
    fun k o => sampledLight_eq_some_iff hasEmit getArea objects u k o, ?_, ?_⟩
  · intro k o h
    refine ⟨((sampledLight_eq_some_iff hasEmit getArea objects u k o).mp h).2.1, ?_⟩
    rw [sampleLight_eq, h]
  · intro h
    rw [sampleLight_eq, h]

/-- C18 for the objects `1, 2, 3` (1 and 3 emit, with the areas 1 and 3) and
the draw `1/2`: `p = 2`, the running total after object 1 is 1, after object 3
it is 4, and `Sample` is called on object 3 at index 2. -/
theorem sampleLight_delegates_witness :
    sampledLight oddEmits areaOf [1, 2, 3] (1 / 2) = some (2, 3) ∧
    sampleLight oddEmits areaOf markSample [1, 2, 3] (1 / 2) Intersection.new 0
      = markSample 3 (Intersection.new, 0) := by
  have h := sampleLight_delegates oddEmits areaOf markSample [1, 2, 3] (1 / 2)
    Intersection.new 0
  have hsel : sampledLight oddEmits areaOf [1, 2, 3] (1 / 2) = some (2, 3) := by
    refine (h.2.1 2 3).mpr ⟨rfl, rfl, ?_, ?_⟩
    · norm_num [emissiveArea, List.filter, oddEmits, areaOf]
    · intro j hj o' ho' he'
      interval_cases j
      · norm_num [emissiveArea, List.filter, oddEmits, areaOf]
      · simp only [List.getElem?_cons_succ, List.getElem?_cons_zero, Option.some.injEq] at ho'
        subst ho'
        simp [oddEmits] at he'
  exact ⟨hsel, (h.2.2.1 2 3 hsel).2⟩

/-! ## C19: selection in proportion to area -/

/-- C19: when all emissive objects have positive area, the draws `u` in
`[0, 1)` for which `sampleLight` selects the emissive object `o` at index
`pre.length` of `pre ++ o :: post` form an interval with the end points
`lo = area(pre) / total` and `hi = (area(pre) + area(o)) / total`, of length
`area(o) / total`, inside `[0, 1]`: every `u` strictly between the end points
selects `o`, and every `u` that selects `o` lies between them. -/
theorem sampleLight_interval {Obj : Type} (hasEmit : Obj → Bool) (getArea : Obj → ℚ)
    (pre post : List Obj) (o : Obj) (hemit : hasEmit o = true)
    (hpos : ∀ x ∈ pre ++ o :: post, hasEmit x = true → 0 < getArea x) :
    0 ≤ emissiveArea hasEmit getArea pre / emissiveArea hasEmit getArea (pre ++ o :: post) ∧
    (emissiveArea hasEmit getArea pre + getArea o)
        / emissiveArea hasEmit getArea (pre ++ o :: post) ≤ 1 ∧
    (emissiveArea hasEmit getArea pre + getArea o)
        / emissiveArea hasEmit getArea (pre ++ o :: post)
      - emissiveArea hasEmit getArea pre / emissiveArea hasEmit getArea (pre ++ o :: post)
      = getArea o / emissiveArea hasEmit getArea (pre ++ o :: post) ∧
    ∀ u : ℚ, 0 ≤ u → u < 1 →
      ((emissiveArea hasEmit getArea pre / emissiveArea hasEmit getArea (pre ++ o :: post) < u ∧
        u < (emissiveArea hasEmit getArea pre + getArea o)
              / emissiveArea hasEmit getArea (pre ++ o :: post)) →
        sampledLight hasEmit getArea (pre ++ o :: post) u = some (pre.length, o)) ∧
      (sampledLight hasEmit getArea (pre ++ o :: post) u = some (pre.length, o) →
        emissiveArea hasEmit getArea pre / emissiveArea hasEmit getArea (pre ++ o :: post) ≤ u ∧
        u ≤ (emissiveArea hasEmit getArea pre + getArea o)
              / emissiveArea hasEmit getArea (pre ++ o :: post)) := by
  have hnn : ∀ x ∈ pre ++ o :: post, hasEmit x = true → 0 ≤ getArea x :=
    fun x hx he => (hpos x hx he).le
  have hA : 0 ≤ emissiveArea hasEmit getArea pre :=
    emissiveArea_nonneg hasEmit getArea pre
      (fun x hx => hnn x (List.mem_append_left _ hx))
  have hP : 0 ≤ emissiveArea hasEmit getArea post :=
    emissiveArea_nonneg hasEmit getArea post
      (fun x hx => hnn x (List.mem_append_right _ (List.mem_cons_of_mem _ hx)))
  have ha : 0 < getArea o := hpos o (by simp) hemit
  have hT : emissiveArea hasEmit getArea (pre ++ o :: post)
      = emissiveArea hasEmit getArea pre + getArea o + emissiveArea hasEmit getArea post := by
    rw [emissiveArea_append, emissiveArea_cons, if_pos hemit]
    ring
  have hTpos : 0 < emissiveArea hasEmit getArea (pre ++ o :: post) := by
    rw [hT]; linarith
  have htake : (pre ++ o :: post).take (pre.length + 1) = pre ++ [o] := by
    rw [List.take_append]
    rfl
  have hB : emissiveArea hasEmit getArea ((pre ++ o :: post).take (pre.length + 1))
      = emissiveArea hasEmit getArea pre + getArea o := by
    rw [htake, emissiveArea_append, emissiveArea_cons, if_pos hemit, emissiveArea_nil,
      add_zero]
  have hget : (pre ++ o :: post)[pre.length]? = some o :=
    getElem?_append_cons_length pre post o
  refine ⟨div_nonneg hA hTpos.le, ?_, ?_, ?_⟩
  · rw [div_le_one hTpos, hT]
    linarith
  · rw [← sub_div]
    congr 1
    ring
  · intro u hu0 _
    constructor
    · rintro ⟨hlo, hhi⟩
      rw [div_lt_iff₀ hTpos] at hlo
      rw [lt_div_iff₀ hTpos] at hhi
      rw [sampledLight_eq_some_iff]
      refine ⟨hget, hemit, ?_, ?_⟩
      · rw [hB]
        exact hhi.le
      · intro j hj o' _ _
        have h1 : (pre ++ o :: post).take (j + 1) = pre.take (j + 1) :=
          List.take_append_of_le_length (by omega)
        rw [h1]
        exact lt_of_le_of_lt
          (emissiveArea_take_le hasEmit getArea pre
            (fun x hx => hnn x (List.mem_append_left _ hx)) (j + 1)) hlo
    · intro hsel
      obtain ⟨_, _, hle, hall⟩ := (sampledLight_eq_some_iff _ _ _ _ _ _).mp hsel
      rw [hB] at hle
      have hp0 : 0 ≤ u * emissiveArea hasEmit getArea (pre ++ o :: post) :=
        mul_nonneg hu0 hTpos.le
      have hlow := emissiveArea_prefix_le hasEmit getArea _ hp0 pre (o :: post) hall
      exact ⟨(div_le_iff₀ hTpos).mpr hlow, (le_div_iff₀ hTpos).mpr hle⟩

/-- C19 for the objects `1, 2, 3` (1 and 3 emit, areas 1 and 3, total 4) and
object 3: the interval has the end points `1/4` and `1`, and the draw `1/2`
selects object 3. -/
theorem sampleLight_interval_witness :
    (areaOf 3 / emissiveArea oddEmits areaOf ([1, 2] ++ 3 :: []) = 3 / 4) ∧
    sampledLight oddEmits areaOf ([1, 2] ++ 3 :: []) (1 / 2) = some (2, 3) := by
  have hpos : ∀ x ∈ [1, 2] ++ 3 :: [], oddEmits x = true → 0 < areaOf x := by
    intro x hx _
    simp only [List.cons_append, List.nil_append, List.mem_cons, List.mem_singleton,
      List.not_mem_nil, or_false] at hx
    rcases hx with rfl | rfl | rfl <;> norm_num [areaOf]
  have h := sampleLight_interval oddEmits areaOf [1, 2] [] 3 rfl hpos
  refine ⟨by norm_num [emissiveArea, List.filter, oddEmits, areaOf], ?_⟩
  refine (h.2.2.2 (1 / 2) (by norm_num) (by norm_num)).1 ⟨?_, ?_⟩
  · norm_num [emissiveArea, List.filter, oddEmits, areaOf]
  · norm_num [emissiveArea, List.filter, oddEmits, areaOf]

/-! ## C20: a total emissive area of zero -/

/-- C20 (as stated): the list `[7]`, whose only object emits and has area 0,
has a total emissive area of zero, and for the draw `1/2` `sampleLight`
delegates to the `Sample` routine of that object. -/
theorem sampleLight_zeroArea_delegates :
    emissiveArea allEmit zeroArea [7] = 0 ∧
    sampledLight allEmit zeroArea [7] (1 / 2) = some (0, 7) ∧
    sampleLight allEmit zeroArea markSample [7] (1 / 2) Intersection.new 0
      = markSample 7 (Intersection.new, 0) := by
  have hsel : sampledLight allEmit zeroArea [7] (1 / 2) = some (0, 7) := by
    simp [sampledLight, sampleLoop, emitAreaSum, allEmit, zeroArea]
  refine ⟨emissiveArea_eq_zero allEmit zeroArea [7] (fun _ _ _ => rfl), hsel, ?_⟩
  rw [sampleLight_eq, hsel]

/-- C20 (amended): `sampleLight` has no guard for a total emissive area of
zero.  For an object list without emissive objects it delegates to no `Sample`
routine and leaves `pos` and `pdf` as they were passed in; for an object list
whose emissive objects all have area 0 and that contains an emissive object,
the total is zero and it delegates, for every draw `u`, to the `Sample` routine
of the first emissive object. -/
theorem sampleLight_zero_total {Obj : Type} (hasEmit : Obj → Bool) (getArea : Obj → ℚ)
    (Sample : Obj → Intersection Obj × ℚ → Intersection Obj × ℚ)
    (u : ℚ) (pos : Intersection Obj) (pdf : ℚ) :
    (∀ objects : List Obj, (∀ x ∈ objects, hasEmit x = false) →
      emissiveArea hasEmit getArea objects = 0 ∧
      sampledLight hasEmit getArea objects u = none ∧
      sampleLight hasEmit getArea Sample objects u pos pdf = (pos, pdf)) ∧
    (∀ (pre post : List Obj) (o : Obj), (∀ x ∈ pre, hasEmit x = false) →
      hasEmit o = true →
      (∀ x ∈ pre ++ o :: post, hasEmit x = true → getArea x = 0) →
      emissiveArea hasEmit getArea (pre ++ o :: post) = 0 ∧
      sampledLight hasEmit getArea (pre ++ o :: post) u = some (pre.length, o) ∧
      sampleLight hasEmit getArea Sample (pre ++ o :: post) u pos pdf = Sample o (pos, pdf)) := by
  constructor
  · intro objects hno
    have hnone : sampledLight hasEmit getArea objects u = none := by
      cases h : sampledLight hasEmit getArea objects u with
      | none => rfl
      | some ko =>
        obtain ⟨k, o⟩ := ko
        obtain ⟨hget, he, _, _⟩ := (sampledLight_eq_some_iff _ _ _ _ _ _).mp h
        rw [hno o (List.getElem?_mem hget)] at he
        exact absurd he (by simp)
    refine ⟨emissiveArea_eq_zero hasEmit getArea objects ?_, hnone, ?_⟩
    · intro x hx he
      rw [hno x hx] at he
      exact absurd he (by simp)
    · rw [sampleLight_eq, hnone]
  · intro pre post o hpre hemit hzero
    have hT := emissiveArea_eq_zero hasEmit getArea (pre ++ o :: post) hzero
    have hsel : sampledLight hasEmit getArea (pre ++ o :: post) u = some (pre.length, o) := by
      rw [sampledLight_eq_some_iff, hT, mul_zero]
      refine ⟨getElem?_append_cons_length pre post o, hemit, ?_, ?_⟩
      · rw [emissiveArea_eq_zero hasEmit getArea _
          (fun x hx => hzero x (List.mem_of_mem_take hx))]
      · intro j hj o' ho' he'
        rw [List.getElem?_append_left hj] at ho'
        rw [hpre o' (List.getElem?_mem ho')] at he'
        exact absurd he' (by simp)
    refine ⟨hT, hsel, ?_⟩
    rw [sampleLight_eq, hsel]

/-- The amended C20 for the list `2, 7, 9` with all areas 0 (7 and 9 emit) and
the draw `1/2`: `Sample` is called on object 7 at index 1. -/
theorem sampleLight_zero_total_witness :
    emissiveArea oddEmits zeroArea ([2] ++ 7 :: [9]) = 0 ∧
    sampledLight oddEmits zeroArea ([2] ++ 7 :: [9]) (1 / 2) = some ([2].length, 7) ∧
    sampleLight oddEmits zeroArea markSample ([2] ++ 7 :: [9]) (1 / 2) Intersection.new 0
      = markSample 7 (Intersection.new, 0) :=
  (sampleLight_zero_total oddEmits zeroArea markSample (1 / 2) Intersection.new 0).2
    [2] [9] 7
    (by intro x hx; simp only [List.mem_singleton] at hx; subst hx; rfl)
    rfl
    (by intro x _ _; rfl)

/-! ## Unfolding the integrator -/

/-- The body of `castRay`. -/
theorem castRay_succ {Obj : Type} (scene : Scene Obj) (fuel : ℕ) (ray : Ray) (depth : ℤ)
    (i : ℕ) :
    castRay scene (fuel + 1) ray depth i =
      if scene.norm (scene.intersect ray).emit > 0 then
        some { hitcolor := Vector3f.splat 1, draws := 0, lightSamples := 0, callDepths := [] }
      else if (scene.intersect ray).happened then
        if scene.rand (i + 1) < scene.RussianRoulette then
          match castRay scene fuel
              ⟨(scene.intersect ray).coords,
               scene.sample (scene.intersect ray).m
                 (scene.normalize (Vector3f.neg ray.direction))
                 (scene.normalize (scene.intersect ray).normal)⟩ depth (i + 2) with
          | none => none
          | some r =>
            some { hitcolor := Vector3f.add
                     (L_indir scene (scene.intersect ray)
                       (scene.normalize (Vector3f.neg ray.direction))
                       (scene.normalize (scene.intersect ray).normal)
                       (scene.sample (scene.intersect ray).m
                         (scene.normalize (Vector3f.neg ray.direction))
                         (scene.normalize (scene.intersect ray).normal))
                       r.hitcolor)
                     (L_dir scene (scene.intersect ray)
                       (scene.normalize (Vector3f.neg ray.direction))
                       (scene.intersect ray).coords
                       (scene.normalize (scene.intersect ray).normal)
                       (sampleLight scene.hasEmit scene.getArea scene.Sample scene.objects
                         (scene.rand i) Intersection.new 0).1
                       (sampleLight scene.hasEmit scene.getArea scene.Sample scene.objects
                         (scene.rand i) Intersection.new 0).2),
                   draws := 2 + r.draws,
                   lightSamples := 1 + r.lightSamples,
                   callDepths := depth :: r.callDepths }
        else
          some { hitcolor := Vector3f.add (Vector3f.splat 0)
                   (L_dir scene (scene.intersect ray)
                     (scene.normalize (Vector3f.neg ray.direction))
                     (scene.intersect ray).coords
                     (scene.normalize (scene.intersect ray).normal)
                     (sampleLight scene.hasEmit scene.getArea scene.Sample scene.objects
                       (scene.rand i) Intersection.new 0).1
                     (sampleLight scene.hasEmit scene.getArea scene.Sample scene.objects
                       (scene.rand i) Intersection.new 0).2),
                 draws := 2, lightSamples := 1, callDepths := [] }
      else
        some { hitcolor := Vector3f.splat 1, draws := 0, lightSamples := 0,
               callDepths := [] } := rfl

/-- A ray for which the query reports that nothing happened gets the initial
value of `hitcolor`, whatever the background colour of the scene. -/
theorem castRay_miss {Obj : Type} (scene : Scene Obj) (fuel : ℕ) (ray : Ray) (depth : ℤ)
    (i : ℕ) (h : (scene.intersect ray).happened = false) :
    castRay scene (fuel + 1) ray depth i =
      some { hitcolor := ⟨1, 1, 1⟩, draws := 0, lightSamples := 0, callDepths := [] } := by
  rw [castRay_succ]
  by_cases he : scene.norm (scene.intersect ray).emit > 0
  · rw [if_pos he]
    rfl
  · rw [if_neg he, if_neg (by simp [h])]
    rfl

theorem ratNorm_zero : ratNorm ⟨0, 0, 0⟩ = 0 := by
  have h : ((0 : ℚ) * 0 + 0 * 0 + 0 * 0) = 0 * 0 := by norm_num
  simp only [ratNorm]
  rw [h, Rat.sqrt_eq]
  norm_num

theorem ratNorm_lamp : ratNorm ⟨3, 4, 0⟩ = 5 := by
  have h : ((3 : ℚ) * 3 + 4 * 4 + 0 * 0) = 5 * 5 := by norm_num
  simp only [ratNorm]
  rw [h, Rat.sqrt_eq]
  norm_num

theorem ratNorm_unit_z : ratNorm ⟨0, 0, 1⟩ = 1 := by
  have h : ((0 : ℚ) * 0 + 0 * 0 + 1 * 1) = 1 * 1 := by norm_num
  simp only [ratNorm]
  rw [h, Rat.sqrt_eq]
  norm_num

/-! ## C21: rays that hit nothing -/

/-- C21 (the code deviates): in the scene `boxScene Intersection.new 0`, whose
query reports no intersection for every ray and whose background colour is
`(47/200, 27/40, 211/250)`, `castRay` returns `(1, 1, 1)`, the value `hitcolor`
is initialised with, not the background colour. -/
theorem castRay_miss_ne_background :
    (boxScene Intersection.new 0).intersect sampleRay = Intersection.new ∧
    (boxScene Intersection.new 0).backgroundColor = ⟨47 / 200, 27 / 40, 211 / 250⟩ ∧
    castRay (boxScene Intersection.new 0) 1 sampleRay 0 0 =
      some { hitcolor := ⟨1, 1, 1⟩, draws := 0, lightSamples := 0, callDepths := [] } ∧
    (⟨1, 1, 1⟩ : Vector3f) ≠ (boxScene Intersection.new 0).backgroundColor := by
  refine ⟨rfl, rfl, castRay_miss _ 0 sampleRay 0 0 rfl, ?_⟩
  intro h
  have hx := congrArg Vector3f.x h
  simp only [boxScene] at hx
  norm_num at hx

/-! ## C22: direct hits on emissive surfaces -/

/-- C22: for every ray whose nearest intersection carries non-zero emitted
radiance (`emit.norm() > 0`), `castRay` returns the fixed constant `(1, 1, 1)`,
whatever the emitted radiance is, calls `get_random_float()` and `sampleLight`
not at all and makes no recursive call. -/
theorem castRay_emissive {Obj : Type} (scene : Scene Obj) (fuel : ℕ) (ray : Ray)
    (depth : ℤ) (i : ℕ) (h : scene.norm (scene.intersect ray).emit > 0) :
    castRay scene (fuel + 1) ray depth i =
      some { hitcolor := ⟨1, 1, 1⟩, draws := 0, lightSamples := 0, callDepths := [] } := by
  rw [castRay_succ, if_pos h]
  rfl

/-- C22 in the scene `boxScene lampHit 0`, where every ray hits a light with the
emitted radiance `(3, 4, 0)`, of norm 5. -/
theorem castRay_emissive_witness :
    castRay (boxScene lampHit 0) 1 sampleRay 0 0 =
      some { hitcolor := ⟨1, 1, 1⟩, draws := 0, lightSamples := 0, callDepths := [] } :=
  castRay_emissive (boxScene lampHit 0) 0 sampleRay 0 0
    (by
      show ratNorm ⟨3, 4, 0⟩ > 0
      rw [ratNorm_lamp]
      norm_num)

/-! ## C23: the direct term -/

/-- C23: for a hit on a surface at `p` with the normal `N`, the light sample
`inter` at `x = inter.coords` with the light normal `NN` and the density
`pdf_light`, and `ws = normalize(x - p)`: when the point that the query
reports for the ray from `p` in direction `ws` is at a distance below `0.01`
from `x`, the direct term `L_dir` of `castRay` is
`emit(x) * eval(wo, ws, N) * (ws·N) * ((-ws)·NN) / (|x - p|² * pdf_light)`;
otherwise it is zero. -/
theorem L_dir_eq {Obj : Type} (scene : Scene Obj) (intersection : Intersection Obj)
    (wo p N : Vector3f) (inter : Intersection Obj) (pdf_light : ℚ) :
    (scene.norm (Vector3f.sub
        (scene.intersect ⟨p, scene.normalize (Vector3f.sub inter.coords p)⟩).coords
        inter.coords) < 1 / 100 →
      L_dir scene intersection wo p N inter pdf_light =
        Vector3f.divide
          (Vector3f.scale
            (Vector3f.scale
              (Vector3f.mul inter.emit
                (scene.eval intersection.m wo
                  (scene.normalize (Vector3f.sub inter.coords p)) N))
              (dotProduct (scene.normalize (Vector3f.sub inter.coords p)) N))
            (dotProduct (Vector3f.neg (scene.normalize (Vector3f.sub inter.coords p)))
              (scene.normalize inter.normal)))
          ((scene.norm (Vector3f.sub inter.coords p)
              * scene.norm (Vector3f.sub inter.coords p)) * pdf_light)) ∧
    (¬ scene.norm (Vector3f.sub
        (scene.intersect ⟨p, scene.normalize (Vector3f.sub inter.coords p)⟩).coords
        inter.coords) < 1 / 100 →
      L_dir scene intersection wo p N inter pdf_light = ⟨0, 0, 0⟩) := by
  constructor
  · intro h
    simp only [L_dir]
    rw [if_pos h]
  · intro h
    simp only [L_dir]
    rw [if_neg h]
    rfl

theorem ratNormalize_unit_z : ratNormalize ⟨0, 0, 1⟩ = ⟨0, 0, 1⟩ := by
  simp only [ratNormalize, ratNorm_unit_z, Vector3f.divide]
  norm_num

/-- C23 for the wall point `p = (0, 0, 0)` with the normal `(0, 0, 1)` and the
light sample `lampHit` at `x = (0, 0, 1)` with the density `1/2`, in a scene
where the shadow ray reaches the light: the direct term is `(6, 8, 0)`. -/
theorem L_dir_eq_witness :
    L_dir (boxScene lampHit 0) wallHit ⟨0, 0, 1⟩ ⟨0, 0, 0⟩ ⟨0, 0, 1⟩ lampHit (1 / 2)
      = ⟨6, 8, 0⟩ := by
  have hsub : Vector3f.sub lampHit.coords ⟨0, 0, 0⟩ = ⟨0, 0, 1⟩ := by
    simp [Vector3f.sub, lampHit]
  have hshadow : (boxScene lampHit 0).norm (Vector3f.sub
      ((boxScene lampHit 0).intersect
        ⟨⟨0, 0, 0⟩, (boxScene lampHit 0).normalize
          (Vector3f.sub lampHit.coords ⟨0, 0, 0⟩)⟩).coords
      lampHit.coords) < 1 / 100 := by
    show ratNorm (Vector3f.sub lampHit.coords lampHit.coords) < 1 / 100
    have h0 : Vector3f.sub lampHit.coords lampHit.coords = ⟨0, 0, 0⟩ := by
      simp [Vector3f.sub, lampHit]
    rw [h0, ratNorm_zero]
    norm_num
  rw [(L_dir_eq (boxScene lampHit 0) wallHit ⟨0, 0, 1⟩ ⟨0, 0, 0⟩ ⟨0, 0, 1⟩ lampHit
    (1 / 2)).1 hshadow, hsub]
  show Vector3f.divide
      (Vector3f.scale
        (Vector3f.scale (Vector3f.mul lampHit.emit ⟨1, 1, 1⟩)
          (dotProduct (ratNormalize ⟨0, 0, 1⟩) ⟨0, 0, 1⟩))
        (dotProduct (Vector3f.neg (ratNormalize ⟨0, 0, 1⟩)) (ratNormalize lampHit.normal)))
      ((ratNorm ⟨0, 0, 1⟩ * ratNorm ⟨0, 0, 1⟩) * (1 / 2)) = ⟨6, 8, 0⟩
  have hn : ratNormalize lampHit.normal = ⟨0, 0, -1⟩ := by
    have h1 : ratNorm ⟨0, 0, -1⟩ = 1 := by
      have h : ((0 : ℚ) * 0 + 0 * 0 + (-1) * (-1)) = 1 * 1 := by norm_num
      simp only [ratNorm]
      rw [h, Rat.sqrt_eq]
      norm_num
    simp only [ratNormalize, lampHit, h1, Vector3f.divide]
    norm_num
  rw [ratNormalize_unit_z, hn, ratNorm_unit_z]
  simp only [lampHit, Vector3f.mul, Vector3f.scale, Vector3f.divide, Vector3f.neg, dotProduct]
  norm_num

/-! ## C24: the indirect term and the sum -/

/-- C24: for every hit on a non-emissive surface, with `P_RR` the
Russian-Roulette draw, `wo = normalize(-ray.direction)`, `N` the normalized
normal and `wi = sample(wo, N)`: the weight of the indirect term is
`castRay(Ray(p, wi)) * eval(wi, wo, N) * (wi·N) / (pdf(wi, wo, N) * RussianRoulette)`;
if `P_RR < RussianRoulette`, `castRay` makes the recursive call
`castRay(Ray(p, wi), ..)` and returns that indirect term plus the direct term;
if not, it makes no recursive call and returns zero plus the direct term. -/
theorem castRay_surface {Obj : Type} (scene : Scene Obj) (fuel : ℕ) (ray : Ray)
    (depth : ℤ) (i : ℕ)
    (hemit : ¬ scene.norm (scene.intersect ray).emit > 0)
    (hhit : (scene.intersect ray).happened = true) :
    (∀ intersection wo N wi incoming,
      L_indir scene intersection wo N wi incoming =
        Vector3f.divide
          (Vector3f.scale (Vector3f.mul incoming (scene.eval intersection.m wi wo N))
            (dotProduct wi N))
          (scene.pdf intersection.m wi wo N * scene.RussianRoulette)) ∧
    (scene.rand (i + 1) < scene.RussianRoulette →
      castRay scene (fuel + 1) ray depth i =
        (castRay scene fuel
          ⟨(scene.intersect ray).coords,
           scene.sample (scene.intersect ray).m
             (scene.normalize (Vector3f.neg ray.direction))
             (scene.normalize (scene.intersect ray).normal)⟩ depth (i + 2)).map
          fun r =>
            { hitcolor := Vector3f.add
                (L_indir scene (scene.intersect ray)
                  (scene.normalize (Vector3f.neg ray.direction))
                  (scene.normalize (scene.intersect ray).normal)
                  (scene.sample (scene.intersect ray).m
                    (scene.normalize (Vector3f.neg ray.direction))
                    (scene.normalize (scene.intersect ray).normal))
                  r.hitcolor)
                (L_dir scene (scene.intersect ray)
                  (scene.normalize (Vector3f.neg ray.direction))
                  (scene.intersect ray).coords
                  (scene.normalize (scene.intersect ray).normal)
                  (sampleLight scene.hasEmit scene.getArea scene.Sample scene.objects
                    (scene.rand i) Intersection.new 0).1
                  (sampleLight scene.hasEmit scene.getArea scene.Sample scene.objects
                    (scene.rand i) Intersection.new 0).2),
              draws := 2 + r.draws,
              lightSamples := 1 + r.lightSamples,
              callDepths := depth :: r.callDepths }) ∧
    (¬ scene.rand (i + 1) < scene.RussianRoulette →
      castRay scene (fuel + 1) ray depth i =
        some { hitcolor := Vector3f.add ⟨0, 0, 0⟩
                 (L_dir scene (scene.intersect ray)
                   (scene.normalize (Vector3f.neg ray.direction))
                   (scene.intersect ray).coords
                   (scene.normalize (scene.intersect ray).normal)
                   (sampleLight scene.hasEmit scene.getArea scene.Sample scene.objects
                     (scene.rand i) Intersection.new 0).1
                   (sampleLight scene.hasEmit scene.getArea scene.Sample scene.objects
                     (scene.rand i) Intersection.new 0).2),
               draws := 2, lightSamples := 1, callDepths := [] }) := by
  refine ⟨fun _ _ _ _ _ => rfl, ?_, ?_⟩
  · intro hrr
    rw [castRay_succ, if_neg hemit, if_pos hhit, if_pos hrr]
    cases castRay scene fuel
      ⟨(scene.intersect ray).coords,
       scene.sample (scene.intersect ray).m
         (scene.normalize (Vector3f.neg ray.direction))
         (scene.normalize (scene.intersect ray).normal)⟩ depth (i + 2) <;> rfl
  · intro hrr
    rw [castRay_succ, if_neg hemit, if_pos hhit, if_neg hrr]
    rfl

theorem boxScene_wall_not_emissive (bounces : ℕ) (ray : Ray) :
    ¬ (boxScene wallHit bounces).norm ((boxScene wallHit bounces).intersect ray).emit > 0 := by
  show ¬ ratNorm ⟨0, 0, 0⟩ > 0
  rw [ratNorm_zero]
  norm_num

/-- C24 in the scene `boxScene wallHit 1`, whose first Russian-Roulette draw is
0 and whose second is 1: the first call continues with one recursive call, the
call entered after two draws does not continue. -/
theorem castRay_surface_witness :
    castRay (boxScene wallHit 1) 1 sampleRay 0 2 =
      some { hitcolor := Vector3f.add ⟨0, 0, 0⟩
               (L_dir (boxScene wallHit 1) wallHit
                 (ratNormalize (Vector3f.neg sampleRay.direction)) ⟨0, 0, 0⟩
                 (ratNormalize ⟨0, 0, 1⟩) Intersection.new 0),
             draws := 2, lightSamples := 1, callDepths := [] } :=
  (castRay_surface (boxScene wallHit 1) 0 sampleRay 0 2
    (boxScene_wall_not_emissive 1 sampleRay) rfl).2.2
    (by
      show ¬ ((if 2 + 1 < 2 * 1 then (0 : ℚ) else 1) < 4 / 5)
      norm_num)

/-! ## C25: Russian Roulette is unbiased -/

/-- Each colour channel of the indirect term that `castRay` computes is the
estimator `rrIndirect` at the weighted recursive contribution
`X = incoming * eval * (wi·N) / pdf`: `X / RussianRoulette` when the draw is
below `RussianRoulette` (the value of `L_indir`), and 0 otherwise. -/
theorem L_indir_x_eq {Obj : Type} (scene : Scene Obj) (intersection : Intersection Obj)
    (wo N wi incoming : Vector3f) (P_RR : ℚ) :
    (if P_RR < scene.RussianRoulette then (L_indir scene intersection wo N wi incoming).x
      else (Vector3f.splat 0).x) =
      rrIndirect scene.RussianRoulette
        (incoming.x * (scene.eval intersection.m wi wo N).x * dotProduct wi N
          / scene.pdf intersection.m wi wo N) P_RR := by
  simp only [L_indir, Vector3f.divide, Vector3f.scale, Vector3f.mul, rrIndirect,
    Vector3f.splat]
  by_cases h : P_RR < scene.RussianRoulette
  · rw [if_pos h, if_pos h, div_div]
  · rw [if_neg h, if_neg h]

/-- C25: for every continuation probability `q` with `0 < q ≤ 1` and every
value `X` of the weighted recursive contribution, the expectation over a draw
uniform on `[0, 1]` of the indirect term (`X / q` when the draw is below `q`,
0 otherwise) is `X`, which is also the value of the term with `q = 1` for
every draw below 1. -/
theorem rrIndirect_expectation (q X : ℝ) (hq0 : 0 < q) (hq1 : q ≤ 1) :
    (∫ u in (0 : ℝ)..1, rrIndirect q X u) = X ∧
    ∀ u : ℝ, u < 1 → rrIndirect 1 X u = X := by
  constructor
  · have hne : ∀ᵐ u ∂(MeasureTheory.volume : MeasureTheory.Measure ℝ), u ≠ q := by
      simp [MeasureTheory.ae_iff, MeasureTheory.measure_singleton]
    have hlow : ∀ u : ℝ, u ≠ q → u ∈ Set.uIoc 0 q → rrIndirect q X u = X / q := by
      intro u hu hmem
      rw [Set.uIoc_of_le hq0.le] at hmem
      simp only [rrIndirect]
      rw [if_pos (lt_of_le_of_ne hmem.2 hu)]
    have hhigh : ∀ u : ℝ, u ∈ Set.uIoc q 1 → rrIndirect q X u = 0 := by
      intro u hmem
      rw [Set.uIoc_of_le hq1] at hmem
      simp only [rrIndirect]
      rw [if_neg (not_lt.mpr hmem.1.le)]
    have h1 : (∫ u in (0 : ℝ)..q, rrIndirect q X u) = ∫ _u in (0 : ℝ)..q, X / q := by
      apply intervalIntegral.integral_congr_ae
      filter_upwards [hne] with u hu hmem
      exact hlow u hu hmem
    have h2 : (∫ u in q..1, rrIndirect q X u) = ∫ _u in q..1, (0 : ℝ) := by
      apply intervalIntegral.integral_congr_ae
      exact Filter.Eventually.of_forall hhigh
    have hi1 : IntervalIntegrable (rrIndirect q X) MeasureTheory.volume 0 q := by
      refine (intervalIntegrable_const :
        IntervalIntegrable (fun _ : ℝ => X / q) MeasureTheory.volume 0 q).congr ?_
      rw [Filter.EventuallyEq, MeasureTheory.ae_restrict_iff' measurableSet_uIoc]
      filter_upwards [hne] with u hu hmem
      exact (hlow u hu hmem).symm
    have hi2 : IntervalIntegrable (rrIndirect q X) MeasureTheory.volume q 1 := by
      refine (intervalIntegrable_const :
        IntervalIntegrable (fun _ : ℝ => (0 : ℝ)) MeasureTheory.volume q 1).congr ?_
      rw [Filter.EventuallyEq, MeasureTheory.ae_restrict_iff' measurableSet_uIoc]
      exact Filter.Eventually.of_forall fun u hmem => (hhigh u hmem).symm
    rw [← intervalIntegral.integral_add_adjacent_intervals hi1 hi2, h1, h2]
    simp only [intervalIntegral.integral_const, sub_zero, smul_eq_mul, mul_zero, add_zero]
    field_simp
  · intro u hu
    simp only [rrIndirect]
    rw [if_pos hu, div_one]

/-- C25 for the continuation probability `4/5` and the contribution 1. -/
theorem rrIndirect_expectation_witness :
    (∫ u in (0 : ℝ)..1, rrIndirect (4 / 5) 1 u) = 1 ∧
    ∀ u : ℝ, u < 1 → rrIndirect 1 (1 : ℝ) u = 1 :=
  rrIndirect_expectation (4 / 5) 1 (by norm_num) (by norm_num)

/-! ## C26: the depth argument of the recursive call -/

/-- Every recursive call that `castRay(ray, depth)` makes, directly or nested,
receives the caller's `depth` unchanged. -/
theorem castRay_callDepths {Obj : Type} (scene : Scene Obj) :
    ∀ (fuel : ℕ) (ray : Ray) (depth : ℤ) (i : ℕ) (r : CastResult),
      castRay scene fuel ray depth i = some r →
      r.callDepths = List.replicate r.callDepths.length depth := by
  intro fuel
  induction fuel with
  | zero =>
    intro ray depth i r h
    simp [castRay] at h
  | succ fuel ih =>
    intro ray depth i r h
    rw [castRay_succ] at h
    split_ifs at h with h1 h2 h3
    · rw [← Option.some.inj h]
      rfl
    · cases hrec : castRay scene fuel
        ⟨(scene.intersect ray).coords,
         scene.sample (scene.intersect ray).m
           (scene.normalize (Vector3f.neg ray.direction))
           (scene.normalize (scene.intersect ray).normal)⟩ depth (i + 2) with
      | none =>
        rw [hrec] at h
        simp at h
      | some r' =>
        rw [hrec] at h
        have hr := Option.some.inj h
        rw [← hr]
        simp only [List.length_cons, List.replicate_succ]
        rw [← ih _ depth (i + 2) r' hrec]
    · rw [← Option.some.inj h]
      rfl
    · rw [← Option.some.inj h]
      rfl

/-- With a budget of `m + 1` nested calls and `m` Russian-Roulette draws below
the continuation probability still to come, `castRay` in `boxScene wallHit`
returns after exactly `m` recursive calls. -/
theorem castRay_boxScene_returns (bounces : ℕ) :
    ∀ (m i : ℕ) (ray : Ray) (depth : ℤ), i + 2 * m = 2 * bounces →
      ∃ r, castRay (boxScene wallHit bounces) (m + 1) ray depth i = some r ∧
        r.callDepths.length = m := by
  intro m
  induction m with
  | zero =>
    intro i ray depth hi
    have hrr : ¬ (boxScene wallHit bounces).rand (i + 1)
        < (boxScene wallHit bounces).RussianRoulette := by
      show ¬ ((if i + 1 < 2 * bounces then (0 : ℚ) else 1) < 4 / 5)
      rw [if_neg (by omega)]
      norm_num
    exact ⟨_, (castRay_surface (boxScene wallHit bounces) 0 ray depth i
      (boxScene_wall_not_emissive bounces ray) rfl).2.2 hrr, rfl⟩
  | succ m ih =>
    intro i ray depth hi
    have hrr : (boxScene wallHit bounces).rand (i + 1)
        < (boxScene wallHit bounces).RussianRoulette := by
      show (if i + 1 < 2 * bounces then (0 : ℚ) else 1) < 4 / 5
      rw [if_pos (by omega)]
      norm_num
    have hstep := (castRay_surface (boxScene wallHit bounces) (m + 1) ray depth i
      (boxScene_wall_not_emissive bounces ray) rfl).2.1 hrr
    obtain ⟨r', hr', hlen⟩ := ih (i + 2)
      ⟨((boxScene wallHit bounces).intersect ray).coords,
       (boxScene wallHit bounces).sample ((boxScene wallHit bounces).intersect ray).m
         ((boxScene wallHit bounces).normalize (Vector3f.neg ray.direction))
         ((boxScene wallHit bounces).normalize
           ((boxScene wallHit bounces).intersect ray).normal)⟩ depth (by omega)
    rw [hr'] at hstep
    exact ⟨_, hstep, by simp [hlen]⟩

/-- With a budget of at most as many nested calls as there are Russian-Roulette
draws below the continuation probability still to come, `castRay` in
`boxScene wallHit` does not return. -/
theorem castRay_boxScene_none (bounces : ℕ) :
    ∀ (fuel i : ℕ) (ray : Ray) (depth : ℤ), i + 2 * fuel ≤ 2 * bounces →
      castRay (boxScene wallHit bounces) fuel ray depth i = none := by
  intro fuel
  induction fuel with
  | zero =>
    intro i ray depth _
    rfl
  | succ fuel ih =>
    intro i ray depth hi
    have hrr : (boxScene wallHit bounces).rand (i + 1)
        < (boxScene wallHit bounces).RussianRoulette := by
      show (if i + 1 < 2 * bounces then (0 : ℚ) else 1) < 4 / 5
      rw [if_pos (by omega)]
      norm_num
    rw [(castRay_surface (boxScene wallHit bounces) fuel ray depth i
      (boxScene_wall_not_emissive bounces ray) rfl).2.1 hrr, ih (i + 2) _ depth (by omega)]
    rfl

/-- C26 (the code deviates): in the scene `boxScene wallHit 1`, whose first
Russian-Roulette draw is below the continuation probability and whose second
is not, `castRay(ray, 0)` makes exactly one recursive call and that call
receives the depth 0, not 1; and `castRay(ray, 7)` passes on 7, not 8. -/
theorem castRay_passes_depth_unchanged :
    (∃ r, castRay (boxScene wallHit 1) 2 sampleRay 0 0 = some r ∧ r.callDepths = [0]) ∧
    (∃ r, castRay (boxScene wallHit 1) 2 sampleRay 7 0 = some r ∧ r.callDepths = [7]) := by
  constructor
  · obtain ⟨r, hr, hlen⟩ := castRay_boxScene_returns 1 1 0 sampleRay 0 (by norm_num)
    have hd := castRay_callDepths _ _ _ _ _ _ hr
    rw [hlen] at hd
    exact ⟨r, hr, hd⟩
  · obtain ⟨r, hr, hlen⟩ := castRay_boxScene_returns 1 1 0 sampleRay 7 (by norm_num)
    have hd := castRay_callDepths _ _ _ _ _ _ hr
    rw [hlen] at hd
    exact ⟨r, hr, hd⟩

/-! ## C30: no cap on the recursion -/

/-- The colour, the draws, the light samples and the number of recursive calls
of `castRay` do not depend on the `depth` argument. -/
theorem castRay_depth_irrelevant {Obj : Type} (scene : Scene Obj) :
    ∀ (fuel : ℕ) (ray : Ray) (depth depth' : ℤ) (i : ℕ),
      (castRay scene fuel ray depth i).map
          (fun r => (r.hitcolor, r.draws, r.lightSamples, r.callDepths.length)) =
        (castRay scene fuel ray depth' i).map
          (fun r => (r.hitcolor, r.draws, r.lightSamples, r.callDepths.length)) := by
  intro fuel
  induction fuel with
  | zero =>
    intro ray depth depth' i
    rfl
  | succ fuel ih =>
    intro ray depth depth' i
    rw [castRay_succ, castRay_succ]
    split_ifs with h1 h2 h3
    · rfl
    · have hrec := ih
        ⟨(scene.intersect ray).coords,
         scene.sample (scene.intersect ray).m
           (scene.normalize (Vector3f.neg ray.direction))
           (scene.normalize (scene.intersect ray).normal)⟩ depth depth' (i + 2)
      cases h : castRay scene fuel
        ⟨(scene.intersect ray).coords,
         scene.sample (scene.intersect ray).m
           (scene.normalize (Vector3f.neg ray.direction))
           (scene.normalize (scene.intersect ray).normal)⟩ depth (i + 2) with
      | none =>
        rw [h] at hrec
        cases h' : castRay scene fuel
          ⟨(scene.intersect ray).coords,
           scene.sample (scene.intersect ray).m
             (scene.normalize (Vector3f.neg ray.direction))
             (scene.normalize (scene.intersect ray).normal)⟩ depth' (i + 2) with
        | none => rfl
        | some r' =>
          rw [h'] at hrec
          simp at hrec
      | some r =>
        rw [h] at hrec
        cases h' : castRay scene fuel
          ⟨(scene.intersect ray).coords,
           scene.sample (scene.intersect ray).m
             (scene.normalize (Vector3f.neg ray.direction))
             (scene.normalize (scene.intersect ray).normal)⟩ depth' (i + 2) with
        | none =>
          rw [h'] at hrec
          simp at hrec
        | some r' =>
          rw [h'] at hrec
          simp only [Option.map_some', Option.some.injEq, Prod.mk.injEq] at hrec
          obtain ⟨e1, e2, e3, e4⟩ := hrec
          simp only [Option.map_some', List.length_cons, e1, e2, e3, e4]
    · rfl
    · rfl

/-- C30: `castRay` has no hard recursion cap.  Its colour, its draws and the
number of its recursive calls are the same for every `depth` argument; and for
every `n` there is a scene, `boxScene wallHit (n + 1)`, in which every ray
hits a non-emissive surface and the first `n + 1` Russian-Roulette draws are
below the continuation probability, such that `castRay` makes `n + 1` nested
recursive calls before it returns, and does not return within a budget of
`n + 1` nested calls. -/
theorem castRay_no_recursion_cap (n : ℕ) (ray : Ray) (depth depth' : ℤ) :
    (∀ {Obj : Type} (scene : Scene Obj) (fuel i : ℕ),
      (castRay scene fuel ray depth i).map
          (fun r => (r.hitcolor, r.draws, r.lightSamples, r.callDepths.length)) =
        (castRay scene fuel ray depth' i).map
          (fun r => (r.hitcolor, r.draws, r.lightSamples, r.callDepths.length))) ∧
    (∀ r : Ray, ((boxScene wallHit (n + 1)).intersect r).happened = true ∧
      ¬ (boxScene wallHit (n + 1)).norm ((boxScene wallHit (n + 1)).intersect r).emit > 0) ∧
    (∀ k < n + 1, (boxScene wallHit (n + 1)).rand (2 * k + 1)
      < (boxScene wallHit (n + 1)).RussianRoulette) ∧
    (∃ r, castRay (boxScene wallHit (n + 1)) (n + 2) ray depth 0 = some r ∧
      r.callDepths.length = n + 1) ∧
    castRay (boxScene wallHit (n + 1)) (n + 1) ray depth 0 = none := by
  refine ⟨fun scene fuel i => castRay_depth_irrelevant scene fuel ray depth depth' i,
    fun r => ⟨rfl, boxScene_wall_not_emissive (n + 1) r⟩, ?_,
    castRay_boxScene_returns (n + 1) (n + 1) 0 ray depth (by omega),
    castRay_boxScene_none (n + 1) (n + 1) 0 ray depth (by omega)⟩
  intro k hk
  show (if 2 * k + 1 < 2 * (n + 1) then (0 : ℚ) else 1) < 4 / 5
  rw [if_pos (by omega)]
  norm_num

/-- C30 for `n = 2`: in `boxScene wallHit 3` the call returns after three nested
recursive calls. -/
theorem castRay_no_recursion_cap_witness :
    ∃ r, castRay (boxScene wallHit 3) 4 sampleRay 0 0 = some r ∧ r.callDepths.length = 3 :=
  (castRay_no_recursion_cap 2 sampleRay 0 5).2.2.2.1

/-! ## C28: what the traversal returns -/

theorem minDistance_append (l1 l2 : List (WithTop ℚ)) :
    minDistance (l1 ++ l2) = min (minDistance l1) (minDistance l2) := by
  induction l1 with
  | nil => simp [minDistance]
  | cons d ds ih =>
    simp only [minDistance, List.cons_append, List.foldr_cons] at ih ⊢
    rw [ih, min_assoc]

theorem reachedLeaves_mk {Obj : Type} (bounds : Bounds3) (left right : BVHBuildNode Obj)
    (object : Option Obj) (ray : Ray) :
    reachedLeaves (BVHBuildNode.mk bounds left right object) ray =
      if bounds.IntersectP ray (invDirOf ray) (dirIsNegOf ray) = false then []
      else if left.isNull && right.isNull then object.toList
      else reachedLeaves left ray ++ reachedLeaves right ray := rfl

/-- The leaves that the traversal reaches are leaves of the tree. -/
theorem reachedLeaves_subset {Obj : Type} (ray : Ray) (t : BVHBuildNode Obj) :
    ∀ o ∈ reachedLeaves t ray, o ∈ t.leaves := by
  induction t with
  | null => intro o ho; simp [reachedLeaves] at ho
  | mk b l r obj ihl ihr =>
    intro o ho
    rw [reachedLeaves_mk] at ho
    by_cases hbox : b.IntersectP ray (invDirOf ray) (dirIsNegOf ray) = false
    · rw [if_pos hbox] at ho
      simp at ho
    · rw [if_neg hbox] at ho
      by_cases hleaf : (l.isNull && r.isNull) = true
      · rw [if_pos hleaf] at ho
        simp only [BVHBuildNode.leaves, hleaf, if_true]
        exact ho
      · rw [if_neg hleaf] at ho
        simp only [BVHBuildNode.leaves, hleaf, if_false, Bool.false_eq_true]
        rcases List.mem_append.mp ho with h | h
        · exact List.mem_append_left _ (ihl o h)
        · exact List.mem_append_right _ (ihr o h)

/-- On a well-formed tree `getIntersection` returns the sentinel or the result of
a reached primitive, at the least distance among the reached primitives. -/
theorem getIntersection_nearest {Obj : Type}
    (objIntersection : Obj → Ray → Intersection Obj) (ray : Ray)
    {t : BVHBuildNode Obj} (w : t.WellFormed) :
    ∃ hit, getIntersection objIntersection t ray = some hit ∧
      (hit = Intersection.new ∨ ∃ o ∈ reachedLeaves t ray, hit = objIntersection o ray) ∧
      hit.distance =
        minDistance ((reachedLeaves t ray).map fun o => (objIntersection o ray).distance) := by
  induction t with
  | null => exact absurd w (by simp [BVHBuildNode.WellFormed])
  | mk b l r o ihl ihr =>
    rw [getIntersection_mk, reachedLeaves_mk]
    by_cases hbox : b.IntersectP ray (invDirOf ray) (dirIsNegOf ray) = false
    · rw [if_pos hbox, if_pos hbox]
      exact ⟨_, rfl, Or.inl rfl, rfl⟩
    · rw [if_neg hbox, if_neg hbox]
      rcases w with ⟨hl, hr, ho⟩ | ⟨hl, _, _, wl, wr⟩
      · obtain ⟨p, rfl⟩ := Option.isSome_iff_exists.mp ho
        rw [hl, hr]
        refine ⟨objIntersection p ray, rfl, Or.inr ⟨p, by simp, rfl⟩, ?_⟩
        simp [minDistance]
      · obtain ⟨h1, e1, s1, d1⟩ := ihl wl
        obtain ⟨h2, e2, s2, d2⟩ := ihr wr
        rw [hl, e1, e2]
        simp only [Bool.false_and, Bool.false_eq_true, if_false, Option.some_bind,
          List.map_append, minDistance_append]
        refine ⟨_, rfl, ?_, ?_⟩
        · by_cases hlt : h1.distance < h2.distance
          · rw [if_pos hlt]
            rcases s1 with s1 | ⟨p, hp, s1⟩
            · exact Or.inl s1
            · exact Or.inr ⟨p, List.mem_append_left _ hp, s1⟩
          · rw [if_neg hlt]
            rcases s2 with s2 | ⟨p, hp, s2⟩
            · exact Or.inl s2
            · exact Or.inr ⟨p, List.mem_append_right _ hp, s2⟩
        · rw [← d1, ← d2]
          by_cases hlt : h1.distance < h2.distance
          · rw [if_pos hlt, min_eq_left hlt.le]
          · rw [if_neg hlt, min_eq_right (not_lt.mp hlt)]

/-- C28: for the tree that `recursiveBuild` builds from a non-empty list and for
every ray, `getIntersection` on the root returns an `Intersection` that is
either the sentinel or exactly the `getIntersection` result of one primitive
stored in the tree, and its distance is the minimum, over the leaves whose own
bounds and all of whose ancestors' bounds pass the slab test, of the leaf
primitive's hit distance (`+∞` when there is no such leaf). -/
theorem getIntersection_built {Obj : Type} (getBounds : Obj → Bounds3)
    (sort : (Obj → Obj → Bool) → List Obj → List Obj) (hperm : SortPermutes sort)
    (objIntersection : Obj → Ray → Intersection Obj)
    (objs : List Obj) (hne : objs ≠ []) (fuel : ℕ) (hfuel : objs.length ≤ fuel)
    (ray : Ray) :
    ∃ t hit, recursiveBuild getBounds sort fuel objs = some t ∧
      getIntersection objIntersection t ray = some hit ∧
      (hit = Intersection.new ∨
        ∃ o, o ∈ t.leaves ∧ o ∈ objs ∧ o ∈ reachedLeaves t ray ∧
          hit = objIntersection o ray) ∧
      hit.distance =
        minDistance ((reachedLeaves t ray).map fun o => (objIntersection o ray).distance) := by
  obtain ⟨t, e, w, _, pm⟩ := recursiveBuild_inv getBounds sort hperm fuel objs hne hfuel
  obtain ⟨hit, eh, hs, hd⟩ := getIntersection_nearest objIntersection ray w
  refine ⟨t, hit, e, eh, ?_, hd⟩
  rcases hs with hs | ⟨o, ho, hs⟩
  · exact Or.inl hs
  · have hleaf := reachedLeaves_subset ray t o ho
    exact Or.inr ⟨o, hleaf, pm.subset hleaf, ho, hs⟩

/-- C28 for the primitives `2, 0, 1` with the bounds `boxAt` and the hits of
`sampleHit`, for `sampleRay`. -/
theorem getIntersection_built_witness :
    ∃ t hit, recursiveBuild boxAt insertionSort 3 [2, 0, 1] = some t ∧
      getIntersection sampleHit t sampleRay = some hit ∧
      (hit = Intersection.new ∨
        ∃ o, o ∈ t.leaves ∧ o ∈ [2, 0, 1] ∧ o ∈ reachedLeaves t sampleRay ∧
          hit = sampleHit o sampleRay) ∧
      hit.distance =
        minDistance ((reachedLeaves t sampleRay).map fun o => (sampleHit o sampleRay).distance) :=
  getIntersection_built boxAt insertionSort insertionSort_permutes sampleHit [2, 0, 1]
    (by simp) 3 (by simp) sampleRay

/-! ## C29: termination of the construction -/

/-- On the empty list `recursiveBuild` does not return, whatever the budget. -/
theorem recursiveBuild_nil {Obj : Type} (getBounds : Obj → Bounds3)
    (sort : (Obj → Obj → Bool) → List Obj → List Obj) (hperm : SortPermutes sort) :
    ∀ fuel : ℕ, recursiveBuild getBounds sort fuel [] = none := by
  intro fuel
  induction fuel with
  | zero => rfl
  | succ fuel ih =>
    have hs : sortByDim getBounds sort (centroidBoundsOf getBounds []).maxExtent []
        = ([] : List Obj) :=
      List.Perm.eq_nil (sortByDim_perm getBounds sort hperm _ [])
    rw [recursiveBuild_many getBounds sort fuel [] (by simp) (by simp), hs]
    simp only [List.take_nil, ih]
    rfl

/-- The recursive calls of the body, for a list of two or more primitives. -/
theorem recursiveBuild_calls {Obj : Type} (getBounds : Obj → Bounds3)
    (sort : (Obj → Obj → Bool) → List Obj → List Obj) (fuel : ℕ) (objs : List Obj)
    (h1 : objs.length ≠ 1) :
    ∃ L R, recursiveCallArgs getBounds sort objs = [L, R] ∧
      recursiveBuild getBounds sort (fuel + 1) objs =
        (recursiveBuild getBounds sort fuel L).bind fun left =>
        (recursiveBuild getBounds sort fuel R).bind fun right =>
        left.bounds?.bind fun lb =>
        right.bounds?.bind fun rb =>
        some (BVHBuildNode.mk (Union lb rb) left right none) := by
  by_cases h2 : objs.length = 2
  · obtain ⟨o0, o1, rfl⟩ := List.length_eq_two.mp h2
    exact ⟨[o0], [o1], rfl, rfl⟩
  · refine ⟨_, _, ?_, recursiveBuild_many getBounds sort fuel objs h1 h2⟩
    match objs, h1, h2 with
    | [], _, _ => rfl
    | [_], h1, _ => exact absurd rfl h1
    | [_, _], _, h2 => exact absurd rfl h2
    | _ :: _ :: _ :: _, _, _ => rfl

/-- C29: for every non-empty primitive list `recursiveBuild` terminates: every
recursive call of the body receives a non-empty list strictly shorter than the
caller's, and with a budget of at least the length of the list the call
returns a tree, as does the constructor; on the empty list, which the
constructor does not pass on, `recursiveBuild` returns for no budget. -/
theorem recursiveBuild_terminates {Obj : Type} (getBounds : Obj → Bounds3)
    (sort : (Obj → Obj → Bool) → List Obj → List Obj) (hperm : SortPermutes sort)
    (objs : List Obj) (hne : objs ≠ []) (maxPrimsInNode : ℤ) (splitMethod : SplitMethod)
    (root0 : BVHBuildNode Obj) :
    (∀ L ∈ recursiveCallArgs getBounds sort objs, L ≠ [] ∧ L.length < objs.length) ∧
    (∀ fuel, objs.length ≤ fuel → ∃ t, recursiveBuild getBounds sort fuel objs = some t) ∧
    (∀ fuel, objs.length ≤ fuel →
      ∃ accel, BVHAccel.new getBounds sort fuel objs maxPrimsInNode splitMethod root0
        = some accel ∧ accel.root.isNull = false) ∧
    (∀ fuel, recursiveBuild getBounds sort fuel [] = none) ∧
    (∃ accel, BVHAccel.new getBounds sort 0 [] maxPrimsInNode splitMethod root0
      = some accel) := by
  refine ⟨?_, ?_, ?_, recursiveBuild_nil getBounds sort hperm, ⟨_, rfl⟩⟩
  · intro L hL
    have hpos : 0 < objs.length := List.length_pos.mpr hne
    by_cases h1 : objs.length = 1
    · obtain ⟨o, rfl⟩ := List.length_eq_one.mp h1
      simp [recursiveCallArgs] at hL
    · by_cases h2 : objs.length = 2
      · obtain ⟨o0, o1, rfl⟩ := List.length_eq_two.mp h2
        simp only [recursiveCallArgs, List.mem_cons, List.mem_singleton, List.not_mem_nil,
          or_false] at hL
        rcases hL with rfl | rfl <;> simp
      · have hp := sortByDim_perm getBounds sort hperm
          (centroidBoundsOf getBounds objs).maxExtent objs
        have hlen' := hp.length_eq
        have hargs : recursiveCallArgs getBounds sort objs =
            [(sortByDim getBounds sort (centroidBoundsOf getBounds objs).maxExtent objs).take
              ((sortByDim getBounds sort (centroidBoundsOf getBounds objs).maxExtent
                objs).length / 2),
             (sortByDim getBounds sort (centroidBoundsOf getBounds objs).maxExtent objs).drop
              ((sortByDim getBounds sort (centroidBoundsOf getBounds objs).maxExtent
                objs).length / 2)] := by
          match objs, h1, h2 with
          | [], _, _ => rfl
          | [_], h1, _ => exact absurd rfl h1
          | [_, _], _, h2 => exact absurd rfl h2
          | _ :: _ :: _ :: _, _, _ => rfl
        rw [hargs] at hL
        simp only [List.mem_cons, List.mem_singleton, List.not_mem_nil, or_false] at hL
        rcases hL with rfl | rfl
        · exact ⟨List.ne_nil_of_length_pos (by rw [List.length_take]; omega),
            by rw [List.length_take]; omega⟩
        · exact ⟨List.ne_nil_of_length_pos (by rw [List.length_drop]; omega),
            by rw [List.length_drop]; omega⟩
  · intro fuel hfuel
    obtain ⟨t, e, _⟩ := recursiveBuild_inv getBounds sort hperm fuel objs hne hfuel
    exact ⟨t, e⟩
  · intro fuel hfuel
    obtain ⟨t, e, w, _⟩ := recursiveBuild_inv getBounds sort hperm fuel objs hne hfuel
    have hempty : objs.isEmpty = false := by
      cases objs with
      | nil => exact absurd rfl hne
      | cons _ _ => rfl
    exact ⟨_, by simp only [BVHAccel.new, hempty, e]; rfl, WellFormed_isNull w⟩

/-- C29 for the primitives `2, 0, 1` with the bounds `boxAt`, sorted by
insertion. -/
theorem recursiveBuild_terminates_witness :
    (∀ L ∈ recursiveCallArgs boxAt insertionSort [2, 0, 1],
      L ≠ [] ∧ L.length < [2, 0, 1].length) ∧
    (∃ t, recursiveBuild boxAt insertionSort 3 [2, 0, 1] = some t) :=
  have h := recursiveBuild_terminates boxAt insertionSort insertionSort_permutes [2, 0, 1]
    (by simp) 1 SplitMethod.NAIVE BVHBuildNode.null
  ⟨h.1, h.2.1 3 (by simp)⟩

/-! ## Sorts that do not keep the order of equal keys -/

theorem reverseSort_permutes {Obj : Type} :
    SortPermutes (reverseSort : (Obj → Obj → Bool) → List Obj → List Obj) :=
  fun comp l => (insertionSort_permutes comp l.reverse).trans (List.reverse_perm l)

theorem reverseSort_orders {Obj : Type} :
    SortOrders (reverseSort : (Obj → Obj → Bool) → List Obj → List Obj) :=
  fun key l => insertionSort_orders key l.reverse

/-- The three unit spheres at the origin have the centroid box `{(0, 0, 0)}`,
whose `maxExtent` is 2. -/
theorem sphereBounds_maxExtent :
    (centroidBoundsOf sphereBounds [0, 1, 2]).maxExtent = 2 := by
  have hcb : centroidBoundsOf sphereBounds [0, 1, 2] = ⟨⟨0, 0, 0⟩, ⟨0, 0, 0⟩⟩ := by
    norm_num [centroidBoundsOf, UnionPoint, Vector3f.Min, Vector3f.Max, Bounds3.empty,
      maxNum, minNum, sphereBounds, unitBox, Bounds3.Centroid, Vector3f.add, Vector3f.smul]
  rw [hcb]
  norm_num [Bounds3.maxExtent, Bounds3.Diagonal, Vector3f.sub]

/-- What the standard promises of `std::sort` does not include stability:
`reverseSort` gives a permutation ordered by the comparison and is not stable;
for the three primitives `0, 1, 2` with equal centroids the tree built with
the insertion sort holds them in the order `0, 1, 2` and the tree built with
`reverseSort` in the order `2, 1, 0`. -/
theorem recursiveBuild_depends_on_sort :
    SortPermutes (reverseSort : (ℕ → ℕ → Bool) → List ℕ → List ℕ) ∧
    SortOrders (reverseSort : (ℕ → ℕ → Bool) → List ℕ → List ℕ) ∧
    ¬ SortStable (reverseSort : (ℕ → ℕ → Bool) → List ℕ → List ℕ) ∧
    (∃ t, recursiveBuild sphereBounds insertionSort 3 [0, 1, 2] = some t ∧
      t.leaves = [0, 1, 2]) ∧
    (∃ t, recursiveBuild sphereBounds reverseSort 3 [0, 1, 2] = some t ∧
      t.leaves = [2, 1, 0]) := by
  refine ⟨reverseSort_permutes, reverseSort_orders, ?_, ?_, ?_⟩
  · intro h
    have := h (fun _ => 0) [0, 1] 0
    simp [reverseSort, insertionSort, List.insertionSort, List.orderedInsert] at this
  · have hs : sortByDim sphereBounds insertionSort 2 [0, 1, 2] = [0, 1, 2] := by
      simp [sortByDim, insertionSort, List.insertionSort, List.orderedInsert, sphereBounds]
    rw [recursiveBuild_many sphereBounds insertionSort 2 [0, 1, 2] (by simp) (by simp),
      sphereBounds_maxExtent, hs]
    exact ⟨_, rfl, rfl⟩
  · have hs : sortByDim sphereBounds reverseSort 2 [0, 1, 2] = [2, 1, 0] := by
      simp [sortByDim, reverseSort, insertionSort, List.insertionSort, List.orderedInsert,
        sphereBounds]
    rw [recursiveBuild_many sphereBounds reverseSort 2 [0, 1, 2] (by simp) (by simp),
      sphereBounds_maxExtent, hs]
    exact ⟨_, rfl, rfl⟩

/-- Two sorts that both permute and order their input agree on a list whose keys
are pairwise distinct. -/
theorem sort_eq_of_nodup {Obj : Type} (s1 s2 : (Obj → Obj → Bool) → List Obj → List Obj)
    (h1p : SortPermutes s1) (h1o : SortOrders s1) (h2p : SortPermutes s2)
    (h2o : SortOrders s2) (key : Obj → ℚ) (l : List Obj) (hnd : (l.map key).Nodup) :
    s1 (fun a b => decide (key a < key b)) l = s2 (fun a b => decide (key a < key b)) l := by
  haveI : IsAntisymm Obj (fun a b => key a < key b) :=
    ⟨fun _ _ hab hba => absurd hab (lt_asymm hba)⟩
  have strict : ∀ (s : (Obj → Obj → Bool) → List Obj → List Obj), SortPermutes s →
      SortOrders s →
      List.Pairwise (fun a b => key a < key b) (s (fun a b => decide (key a < key b)) l) := by
    intro s hp ho
    have hnd' : ((s (fun a b => decide (key a < key b)) l).map key).Nodup :=
      ((hp _ l).map key).nodup_iff.mpr hnd
    have hne : List.Pairwise (fun a b => key a ≠ key b)
        (s (fun a b => decide (key a < key b)) l) := List.pairwise_map.mp hnd'
    exact ((ho key l).and hne).imp fun h => lt_of_le_of_ne h.1 h.2
  exact List.eq_of_perm_of_sorted ((h1p _ l).trans (h2p _ l).symm)
    (strict s1 h1p h1o) (strict s2 h2p h2o)

/-! ## C32: the walk of `sampleLight` selects a light -/

/-- When the second loop ends without a call of `Sample`, either no object of
the list emits or the running total stayed below `p` to the end. -/
theorem sampleLoop_eq_none {Obj : Type} (hasEmit : Obj → Bool) (getArea : Obj → ℚ)
    (p : ℚ) : ∀ (os : List Obj) (s : ℚ) (k : ℕ),
    sampleLoop hasEmit getArea p os s k = none →
      (∀ x ∈ os, hasEmit x = false) ∨ s + emissiveArea hasEmit getArea os < p := by
  intro os
  induction os with
  | nil =>
    intro s k _
    exact Or.inl (fun x hx => absurd hx (List.not_mem_nil x))
  | cons x xs ih =>
    intro s k h
    by_cases hx : hasEmit x = true
    · by_cases hp : p ≤ s + getArea x
      · simp [sampleLoop, hx, hp] at h
      · have hloop : sampleLoop hasEmit getArea p (x :: xs) s k
            = sampleLoop hasEmit getArea p xs (s + getArea x) (k + 1) := by
          simp [sampleLoop, hx, hp]
        rw [hloop] at h
        right
        rw [emissiveArea_cons, if_pos hx]
        rcases ih _ _ h with hno | hlt
        · rw [emissiveArea_eq_zero hasEmit getArea xs
            (fun y hy he => by rw [hno y hy] at he; exact absurd he (by simp))]
          linarith [not_le.mp hp]
        · linarith
    · have hloop : sampleLoop hasEmit getArea p (x :: xs) s k
          = sampleLoop hasEmit getArea p xs s (k + 1) := by
        simp [sampleLoop, hx]
      rw [hloop] at h
      rw [emissiveArea_cons, if_neg hx]
      rcases ih _ _ h with hno | hlt
      · left
        intro y hy
        rcases List.mem_cons.mp hy with rfl | hy
        · simpa using hx
        · exact hno y hy
      · exact Or.inr hlt

/-- C32: for every object list that contains an emissive object and whose
emissive objects have non-negative areas, and every draw `u` in `[0, 1]`,
`sampleLight` calls `Sample` on one object, at one index of the list, and that
object is emissive; the result of `sampleLight` is the result of that one
call. -/
theorem sampleLight_selects {Obj : Type} (hasEmit : Obj → Bool) (getArea : Obj → ℚ)
    (Sample : Obj → Intersection Obj × ℚ → Intersection Obj × ℚ)
    (objects : List Obj) (u : ℚ) (pos : Intersection Obj) (pdf : ℚ)
    (hlight : ∃ o ∈ objects, hasEmit o = true)
    (harea : ∀ o ∈ objects, hasEmit o = true → 0 ≤ getArea o)
    (_hu0 : 0 ≤ u) (hu1 : u ≤ 1) :
    ∃ k o, sampledLight hasEmit getArea objects u = some (k, o) ∧
      objects[k]? = some o ∧ hasEmit o = true ∧
      sampleLight hasEmit getArea Sample objects u pos pdf = Sample o (pos, pdf) := by
  cases h : sampledLight hasEmit getArea objects u with
  | none =>
    exfalso
    have hT := emissiveArea_nonneg hasEmit getArea objects harea
    rcases sampleLoop_eq_none hasEmit getArea _ objects 0 0 h with hno | hlt
    · obtain ⟨o, ho, he⟩ := hlight
      rw [hno o ho] at he
      exact absurd he (by simp)
    · rw [emitAreaSum_eq_emissiveArea, zero_add] at hlt
      nlinarith
  | some ko =>
    obtain ⟨k, o⟩ := ko
    obtain ⟨hget, he, _, _⟩ := (sampledLight_eq_some_iff _ _ _ _ _ _).mp h
    exact ⟨k, o, rfl, hget, he, by rw [sampleLight_eq, h]⟩

/-- C32 for the objects `1, 2, 3` (1 and 3 emit, areas 1 and 3) and the largest
draw `u = 1`: `Sample` is called on object 3. -/
theorem sampleLight_selects_witness :
    ∃ k o, sampledLight oddEmits areaOf [1, 2, 3] 1 = some (k, o) ∧
      [1, 2, 3][k]? = some o ∧ oddEmits o = true ∧
      sampleLight oddEmits areaOf markSample [1, 2, 3] 1 Intersection.new 0
        = markSample o (Intersection.new, 0) :=
  sampleLight_selects oddEmits areaOf markSample [1, 2, 3] 1 Intersection.new 0
    ⟨1, by simp, rfl⟩ (fun o _ _ => by simp [areaOf]) (by norm_num) (by norm_num)

/-! ## C33: the intersection of two boxes -/

/-- For two boxes that overlap on every axis, a point is inside
`a.Intersect(b)` exactly when it is inside both. -/
theorem Inside_Intersect_of_overlap (a b : Bounds3) (p : Vector3f)
    (hx : max a.pMin.x b.pMin.x ≤ min a.pMax.x b.pMax.x)
    (hy : max a.pMin.y b.pMin.y ≤ min a.pMax.y b.pMax.y)
    (hz : max a.pMin.z b.pMin.z ≤ min a.pMax.z b.pMax.z) :
    Bounds3.Inside p (a.Intersect b) = true ↔
      (Bounds3.Inside p a = true ∧ Bounds3.Inside p b = true) := by
  simp only [Bounds3.Inside, Bounds3.Intersect, Bounds3.ofPoints, decide_eq_true_eq,
    ge_iff_le, min_eq_left hx, max_eq_right hx, min_eq_left hy, max_eq_right hy,
    min_eq_left hz, max_eq_right hz, max_le_iff, le_min_iff]
  tauto

/-- C33 (the code deviates): `cube01` and `cube23` are valid boxes without a
common point, the point `(3/2, 1/2, 1/2)` lies in neither of them, and
`Inside` reports it inside `cube01.Intersect(cube23)`: the two-point
constructor exchanges the corners `2 > 1` on the x axis, so the result is the
box `[1, 2] × [0, 1] × [0, 1]` between the two. -/
theorem Inside_Intersect_disjoint :
    cube01.Valid ∧ cube23.Valid ∧
    cube01.Intersect cube23 = ⟨⟨1, 0, 0⟩, ⟨2, 1, 1⟩⟩ ∧
    Bounds3.Inside ⟨3 / 2, 1 / 2, 1 / 2⟩ (cube01.Intersect cube23) = true ∧
    Bounds3.Inside ⟨3 / 2, 1 / 2, 1 / 2⟩ cube01 = false ∧
    Bounds3.Inside ⟨3 / 2, 1 / 2, 1 / 2⟩ cube23 = false ∧
    (∀ q : Vector3f, ¬ (Bounds3.Inside q cube01 = true ∧ Bounds3.Inside q cube23 = true)) := by
  have hI : cube01.Intersect cube23 = ⟨⟨1, 0, 0⟩, ⟨2, 1, 1⟩⟩ := by
    norm_num [Bounds3.Intersect, Bounds3.ofPoints, cube01, cube23]
  refine ⟨by norm_num [Bounds3.Valid, cube01], by norm_num [Bounds3.Valid, cube23], hI,
    ?_, ?_, ?_, ?_⟩
  · rw [hI]
    norm_num [Bounds3.Inside]
  · norm_num [Bounds3.Inside, cube01]
  · norm_num [Bounds3.Inside, cube23]
  · intro q
    simp only [Bounds3.Inside, decide_eq_true_eq, cube01, cube23, ge_iff_le]
    intro h
    linarith [h.1.2.1, h.2.1]

/-! ## C34: the brute-force `trace` -/

/-- The state of the shared loop after a list of objects, from the bound `t0`
and no kept object: either nothing is kept, the bound is unchanged and no
object succeeds below `t0`; or the kept object is the first nearest one, below
`t0`, and the bound is its distance. -/
theorem nearestStep_foldl {Obj : Type} (ok : Obj → Bool) (dist : Obj → WithTop ℚ)
    (t0 : WithTop ℚ) (objects : List Obj) :
    let s := objects.foldl (nearestStep ok dist) (t0, none)
    (s.2 = none ∧ s.1 = t0 ∧ ∀ x ∈ objects, ok x = true → ¬ dist x < t0) ∨
    (∃ o, s.2 = some o ∧ s.1 = dist o ∧ dist o < t0 ∧ IsFirstNearest ok dist objects o) := by
  induction objects using List.reverseRecOn with
  | nil =>
    left
    exact ⟨rfl, rfl, fun x hx => absurd hx (List.not_mem_nil x)⟩
  | append_singleton done x ih =>
    simp only [List.foldl_append, List.foldl_cons, List.foldl_nil]
    simp only at ih
    generalize List.foldl (nearestStep ok dist) (t0, none) done = s at ih ⊢
    rcases ih with ⟨h2, h1, hno⟩ | ⟨o, h2, h1, hlt, hok, k, hk, hmin, hfirst⟩
    · by_cases hx : ok x = true ∧ dist x < t0
      · right
        have hstep : nearestStep ok dist s x = (dist x, some x) := by
          simp [nearestStep, hx.1, h1, hx.2]
        rw [hstep]
        refine ⟨x, rfl, rfl, hx.2, hx.1, done.length, ?_, ?_, ?_⟩
        · simp
        · intro y hy hoy
          rcases List.mem_append.mp hy with hy | hy
          · exact le_trans (le_of_lt hx.2) (not_lt.mp (hno y hy hoy))
          · rw [List.mem_singleton.mp hy]
        · intro j hj y hy hoy
          rw [List.getElem?_append_left hj] at hy
          exact lt_of_lt_of_le hx.2 (not_lt.mp (hno y (List.getElem?_mem hy) hoy))
      · left
        have hstep : nearestStep ok dist s x = s := by
          unfold nearestStep
          rw [if_neg]
          rw [h1]
          simpa using hx
        rw [hstep]
        refine ⟨h2, h1, ?_⟩
        intro y hy hoy
        rcases List.mem_append.mp hy with hy | hy
        · exact hno y hy hoy
        · rw [List.mem_singleton.mp hy] at hoy ⊢
          exact fun h => hx ⟨hoy, h⟩
    · right
      have hkl : k < done.length := by
        by_contra hcon
        rw [List.getElem?_eq_none (not_lt.mp hcon)] at hk
        exact absurd hk (by simp)
      by_cases hx : ok x = true ∧ dist x < dist o
      · have hstep : nearestStep ok dist s x = (dist x, some x) := by
          simp [nearestStep, hx.1, h1, hx.2]
        rw [hstep]
        refine ⟨x, rfl, rfl, lt_trans hx.2 hlt, hx.1, done.length, ?_, ?_, ?_⟩
        · simp
        · intro y hy hoy
          rcases List.mem_append.mp hy with hy | hy
          · exact le_trans (le_of_lt hx.2) (hmin y hy hoy)
          · rw [List.mem_singleton.mp hy]
        · intro j hj y hy hoy
          rw [List.getElem?_append_left hj] at hy
          exact lt_of_lt_of_le hx.2 (hmin y (List.getElem?_mem hy) hoy)
      · have hstep : nearestStep ok dist s x = s := by
          unfold nearestStep
          rw [if_neg]
          rw [h1]
          simpa using hx
        rw [hstep]
        refine ⟨o, h2, h1, hlt, hok, k, ?_, ?_, ?_⟩
        · rw [List.getElem?_append_left hkl]
          exact hk
        · intro y hy hoy
          rcases List.mem_append.mp hy with hy | hy
          · exact hmin y hy hoy
          · rw [List.mem_singleton.mp hy] at hoy ⊢
            exact not_lt.mp (fun h => hx ⟨hoy, h⟩)
        · intro j hj y hy hoy
          rw [List.getElem?_append_left (lt_trans hj hkl)] at hy
          exact hfirst j hj y hy hoy

/-- The loop of `trace` (`Renderer.cpp`) is the shared loop: its payload is
built from the kept object. -/
theorem traceStep_foldl {Obj : Type} (intersect : Obj → Vector3f → Vector3f → IntersectOut)
    (orig dir : Vector3f) (objects : List Obj) :
    ∀ (t : WithTop ℚ) (kept : Option Obj),
    objects.foldl (traceStep intersect orig dir)
        (t, kept.map (fun o => { hit_obj := o, tNear := (intersect o orig dir).tNearK,
                                 index := (intersect o orig dir).indexK,
                                 uv := (intersect o orig dir).uvK }))
      = ((objects.foldl (nearestStep (fun o => (intersect o orig dir).hit)
            (fun o => (intersect o orig dir).tNearK)) (t, kept)).1,
         (objects.foldl (nearestStep (fun o => (intersect o orig dir).hit)
            (fun o => (intersect o orig dir).tNearK)) (t, kept)).2.map
           (fun o => { hit_obj := o, tNear := (intersect o orig dir).tNearK,
                       index := (intersect o orig dir).indexK,
                       uv := (intersect o orig dir).uvK })) := by
  induction objects with
  | nil => intro t kept; rfl
  | cons x xs ih =>
    intro t kept
    simp only [List.foldl_cons]
    by_cases hx : ((intersect x orig dir).hit && decide ((intersect x orig dir).tNearK < t)) = true
    · have h1 : traceStep intersect orig dir
          (t, kept.map (fun o => { hit_obj := o, tNear := (intersect o orig dir).tNearK,
                                   index := (intersect o orig dir).indexK,
                                   uv := (intersect o orig dir).uvK })) x
          = ((intersect x orig dir).tNearK,
             (some x).map (fun o => { hit_obj := o, tNear := (intersect o orig dir).tNearK,
                                      index := (intersect o orig dir).indexK,
                                      uv := (intersect o orig dir).uvK })) := by
        simp only [traceStep, hx, if_true, Option.map_some']
      have h2 : nearestStep (fun o => (intersect o orig dir).hit)
          (fun o => (intersect o orig dir).tNearK) (t, kept) x
          = ((intersect x orig dir).tNearK, some x) := by
        simp only [nearestStep, hx, if_true]
      rw [h1, h2, ih]
    · have h1 : traceStep intersect orig dir
          (t, kept.map (fun o => { hit_obj := o, tNear := (intersect o orig dir).tNearK,
                                   index := (intersect o orig dir).indexK,
                                   uv := (intersect o orig dir).uvK })) x
          = (t, kept.map (fun o => { hit_obj := o, tNear := (intersect o orig dir).tNearK,
                                     index := (intersect o orig dir).indexK,
                                     uv := (intersect o orig dir).uvK })) := by
        simp only [traceStep, hx, Bool.false_eq_true, if_false]
      have h2 : nearestStep (fun o => (intersect o orig dir).hit)
          (fun o => (intersect o orig dir).tNearK) (t, kept) x = (t, kept) := by
        simp only [nearestStep, hx, Bool.false_eq_true, if_false]
      rw [h1, h2, ih]

/-- The loop of `Scene::trace` is the shared loop: `index` is the `indexK` of
the kept object, or the caller's value when nothing is kept. -/
theorem Scene_traceStep_foldl {Obj : Type} (intersect : Obj → Ray → IntersectOut)
    (ray : Ray) (index : ℕ) (objects : List Obj) :
    ∀ (t : WithTop ℚ) (kept : Option Obj),
    objects.foldl (Scene.traceStep intersect ray)
        (t, (kept.map (fun o => (intersect o ray).indexK)).getD index, kept)
      = ((objects.foldl (nearestStep (fun o => (intersect o ray).hit)
            (fun o => (intersect o ray).tNearK)) (t, kept)).1,
         ((objects.foldl (nearestStep (fun o => (intersect o ray).hit)
            (fun o => (intersect o ray).tNearK)) (t, kept)).2.map
              (fun o => (intersect o ray).indexK)).getD index,
         (objects.foldl (nearestStep (fun o => (intersect o ray).hit)
            (fun o => (intersect o ray).tNearK)) (t, kept)).2) := by
  induction objects with
  | nil => intro t kept; rfl
  | cons x xs ih =>
    intro t kept
    simp only [List.foldl_cons]
    by_cases hx : ((intersect x ray).hit && decide ((intersect x ray).tNearK < t)) = true
    · have h1 : Scene.traceStep intersect ray
          (t, (kept.map (fun o => (intersect o ray).indexK)).getD index, kept) x
          = ((intersect x ray).tNearK,
             (((some x).map (fun o => (intersect o ray).indexK)).getD index), some x) := by
        simp only [Scene.traceStep, hx, if_true, Option.map_some', Option.getD_some]
      have h2 : nearestStep (fun o => (intersect o ray).hit)
          (fun o => (intersect o ray).tNearK) (t, kept) x
          = ((intersect x ray).tNearK, some x) := by
        simp only [nearestStep, hx, if_true]
      rw [h1, h2, ih]
    · have h1 : Scene.traceStep intersect ray
          (t, (kept.map (fun o => (intersect o ray).indexK)).getD index, kept) x
          = (t, (kept.map (fun o => (intersect o ray).indexK)).getD index, kept) := by
        simp only [Scene.traceStep, hx, Bool.false_eq_true, if_false]
      have h2 : nearestStep (fun o => (intersect o ray).hit)
          (fun o => (intersect o ray).tNearK) (t, kept) x = (t, kept) := by
        simp only [nearestStep, hx, Bool.false_eq_true, if_false]
      rw [h1, h2, ih]

/-- `trace` of `Renderer.cpp` in terms of the shared loop. -/
theorem trace_eq {Obj : Type} (intersect : Obj → Vector3f → Vector3f → IntersectOut)
    (orig dir : Vector3f) (objects : List Obj) :
    trace intersect orig dir objects
      = (objects.foldl (nearestStep (fun o => (intersect o orig dir).hit)
            (fun o => (intersect o orig dir).tNearK)) (⊤, none)).2.map
           (fun o => { hit_obj := o, tNear := (intersect o orig dir).tNearK,
                       index := (intersect o orig dir).indexK,
                       uv := (intersect o orig dir).uvK }) := by
  have h := traceStep_foldl intersect orig dir objects ⊤ none
  simp only [Option.map_none'] at h
  unfold trace
  rw [h]

/-- `Scene::trace` in terms of the shared loop. -/
theorem Scene_trace_eq {Obj : Type} (intersect : Obj → Ray → IntersectOut) (ray : Ray)
    (objects : List Obj) (tNear : WithTop ℚ) (index : ℕ) :
    Scene.trace intersect ray objects tNear index
      = ((objects.foldl (nearestStep (fun o => (intersect o ray).hit)
            (fun o => (intersect o ray).tNearK)) (tNear, none)).2.isSome,
         (objects.foldl (nearestStep (fun o => (intersect o ray).hit)
            (fun o => (intersect o ray).tNearK)) (tNear, none)).1,
         ((objects.foldl (nearestStep (fun o => (intersect o ray).hit)
            (fun o => (intersect o ray).tNearK)) (tNear, none)).2.map
              (fun o => (intersect o ray).indexK)).getD index,
         (objects.foldl (nearestStep (fun o => (intersect o ray).hit)
            (fun o => (intersect o ray).tNearK)) (tNear, none)).2) := by
  have h := Scene_traceStep_foldl intersect ray index objects tNear none
  simp only [Option.map_none', Option.getD_none] at h
  unfold Scene.trace
  simp only [h]

/-- C34: the brute-force `trace` of `Renderer.cpp` returns a payload exactly
when some object's `intersect` succeeds with a distance below `kInfinity`; the
payload then names the first object of the list, in list order, that attains
the least distance among the objects whose `intersect` succeeds, and carries
that distance and the outputs of that object's `intersect`.  `Scene::trace`
returns `true` exactly when some object's `intersect` succeeds with a distance
below the caller's `tNear`; `*hitObject` is then the first nearest object and
`tNear`, `index` are its distance and index; when it returns `false`,
`tNear` and `index` are unchanged and `*hitObject` is `nullptr`. -/
theorem trace_nearest {Obj : Type} (intersect5 : Obj → Vector3f → Vector3f → IntersectOut)
    (orig dir : Vector3f) (intersect7 : Obj → Ray → IntersectOut) (ray : Ray)
    (objects : List Obj) (tNear : WithTop ℚ) (index : ℕ) :
    ((trace intersect5 orig dir objects).isSome = true ↔
      ∃ o ∈ objects, (intersect5 o orig dir).hit = true ∧ (intersect5 o orig dir).tNearK < ⊤) ∧
    (∀ payload, trace intersect5 orig dir objects = some payload →
      IsFirstNearest (fun o => (intersect5 o orig dir).hit)
        (fun o => (intersect5 o orig dir).tNearK) objects payload.hit_obj ∧
      payload.tNear = (intersect5 payload.hit_obj orig dir).tNearK ∧
      payload.index = (intersect5 payload.hit_obj orig dir).indexK ∧
      payload.uv = (intersect5 payload.hit_obj orig dir).uvK) ∧
    ((Scene.trace intersect7 ray objects tNear index).1 = true ↔
      ∃ o ∈ objects, (intersect7 o ray).hit = true ∧ (intersect7 o ray).tNearK < tNear) ∧
    ((Scene.trace intersect7 ray objects tNear index).1 = true →
      ∃ o, (Scene.trace intersect7 ray objects tNear index).2.2.2 = some o ∧
        IsFirstNearest (fun o => (intersect7 o ray).hit)
          (fun o => (intersect7 o ray).tNearK) objects o ∧
        (Scene.trace intersect7 ray objects tNear index).2.1 = (intersect7 o ray).tNearK ∧
        (Scene.trace intersect7 ray objects tNear index).2.2.1 = (intersect7 o ray).indexK) ∧
    ((Scene.trace intersect7 ray objects tNear index).1 = false →
      (Scene.trace intersect7 ray objects tNear index).2 = (tNear, index, none)) := by
  have h5 := nearestStep_foldl (fun o => (intersect5 o orig dir).hit)
    (fun o => (intersect5 o orig dir).tNearK) ⊤ objects
  have h7 := nearestStep_foldl (fun o => (intersect7 o ray).hit)
    (fun o => (intersect7 o ray).tNearK) tNear objects
  rw [trace_eq, Scene_trace_eq]
  simp only at h5 h7
  generalize List.foldl (nearestStep (fun o => (intersect5 o orig dir).hit)
    (fun o => (intersect5 o orig dir).tNearK)) (⊤, none) objects = s5 at h5 ⊢
  generalize List.foldl (nearestStep (fun o => (intersect7 o ray).hit)
    (fun o => (intersect7 o ray).tNearK)) (tNear, none) objects = s7 at h7 ⊢
  refine ⟨?_, ?_, ?_, ?_, ?_⟩
  · rcases h5 with ⟨h2, _, hno⟩ | ⟨o, h2, _, hlt, hfirst⟩
    · rw [h2]
      simp only [Option.map_none', Option.isSome_none, Bool.false_eq_true, false_iff]
      rintro ⟨o, ho, hhit, hlt⟩
      exact hno o ho hhit hlt
    · rw [h2]
      simp only [Option.map_some', Option.isSome_some, true_iff]
      obtain ⟨hok, k, hk, _, _⟩ := hfirst
      exact ⟨o, List.getElem?_mem hk, hok, hlt⟩
  · intro payload hp
    rcases h5 with ⟨h2, _, _⟩ | ⟨o, h2, _, _, hfirst⟩
    · rw [h2] at hp
      exact absurd hp (by simp)
    · rw [h2] at hp
      simp only [Option.map_some', Option.some.injEq] at hp
      subst hp
      exact ⟨hfirst, rfl, rfl, rfl⟩
  · rcases h7 with ⟨h2, _, hno⟩ | ⟨o, h2, _, hlt, hfirst⟩
    · rw [h2]
      simp only [Option.isSome_none, Bool.false_eq_true, false_iff]
      rintro ⟨o, ho, hhit, hlt⟩
      exact hno o ho hhit hlt
    · rw [h2]
      simp only [Option.isSome_some, true_iff]
      obtain ⟨hok, k, hk, _, _⟩ := hfirst
      exact ⟨o, List.getElem?_mem hk, hok, hlt⟩
  · intro hflag
    rcases h7 with ⟨h2, _, _⟩ | ⟨o, h2, h1, _, hfirst⟩
    · rw [h2] at hflag
      exact absurd hflag (by simp)
    · refine ⟨o, h2, hfirst, h1, ?_⟩
      simp only [h2, Option.map_some', Option.getD_some]
  · intro hflag
    rcases h7 with ⟨h2, h1, _⟩ | ⟨o, h2, _, _, _⟩
    · simp only [h2, h1, Option.map_none', Option.getD_none]
    · rw [h2] at hflag
      exact absurd hflag (by simp)

/-- The two `trace` functions on the sample objects `0, 1, 2, 3`: both report
object 1, the first of the two objects at the least distance 2. -/
theorem trace_sample :
    (trace (fun o _ _ => sampleIntersect o) ⟨0, 0, 0⟩ ⟨0, 0, 1⟩ [0, 2, 1, 3]).map
        (fun p => (p.hit_obj, p.tNear, p.index)) = some (1, ((2 : ℚ) : WithTop ℚ), 10) ∧
    Scene.trace (fun o _ => sampleIntersect o) sampleRay [0, 2, 1, 3] ⊤ 7
      = (true, ((2 : ℚ) : WithTop ℚ), 10, some 1) ∧
    Scene.trace (fun o _ => sampleIntersect o) sampleRay [0, 2, 1, 3] ((2 : ℚ) : WithTop ℚ) 7
      = (false, ((2 : ℚ) : WithTop ℚ), 7, none) := by
  have h52 : (((5 : ℚ) : WithTop ℚ) < ((2 : ℚ) : WithTop ℚ)) = False := by
    simp only [WithTop.coe_lt_coe, eq_iff_iff, iff_false, not_lt]; norm_num
  have h25 : (((2 : ℚ) : WithTop ℚ) < ((5 : ℚ) : WithTop ℚ)) = True := by
    simp only [WithTop.coe_lt_coe, eq_iff_iff, iff_true]; norm_num
  have h22 : (((2 : ℚ) : WithTop ℚ) < ((2 : ℚ) : WithTop ℚ)) = False := by
    simp only [lt_self_iff_false]
  have h5t : (((5 : ℚ) : WithTop ℚ) < ⊤) = True := by
    simp only [WithTop.coe_lt_top]
  have h2t : (((2 : ℚ) : WithTop ℚ) < ⊤) = True := by
    simp only [WithTop.coe_lt_top]
  refine ⟨?_, ?_, ?_⟩
  · simp [trace, traceStep, sampleIntersect, h52, h25, h22, h5t, h2t, -WithTop.coe_ofNat]
  · simp [Scene.trace, Scene.traceStep, sampleIntersect, h52, h25, h22, h5t, h2t,
      -WithTop.coe_ofNat]
  · simp [Scene.trace, Scene.traceStep, sampleIntersect, h52, h25, h22, h5t, h2t,
      -WithTop.coe_ofNat]

/-! ## C35: `rayTriangleIntersect` -/

/-- C35: when `(dir × (v2 − v0)) · (v1 − v0) ≠ 0`, the values `tnear`, `u`, `v`
computed by `rayTriangleIntersect` satisfy
`orig + tnear·dir = (1 − u − v)·v0 + u·v1 + v·v2`, and the function returns
`true` exactly when `tnear > 0`, `u > 0`, `v > 0` and `1 − u − v > 0`. -/
theorem rayTriangleIntersect_point (v0 v1 v2 orig dir : Vector3f)
    (hdet : dotProduct (crossProduct dir (v2.sub v0)) (v1.sub v0) ≠ 0) :
    let r := rayTriangleIntersect v0 v1 v2 orig dir
    orig.add (Vector3f.smul r.2.1 dir)
        = ((Vector3f.smul (1 - r.2.2.1 - r.2.2.2) v0).add (Vector3f.smul r.2.2.1 v1)).add
            (Vector3f.smul r.2.2.2 v2) ∧
    (r.1 = true ↔ (r.2.1 > 0 ∧ r.2.2.1 > 0 ∧ r.2.2.2 > 0 ∧ 1 - r.2.2.1 - r.2.2.2 > 0)) := by
  obtain ⟨ax, ay, az⟩ := v0
  obtain ⟨bx, byy, bz⟩ := v1
  obtain ⟨cx, cy, cz⟩ := v2
  obtain ⟨ox, oy, oz⟩ := orig
  obtain ⟨dx, dy, dz⟩ := dir
  simp only [dotProduct, crossProduct, Vector3f.sub] at hdet
  refine ⟨?_, ?_⟩
  · simp only [rayTriangleIntersect, dotProduct, crossProduct, Vector3f.sub, Vector3f.add,
      Vector3f.smul, Vector3f.mk.injEq]
    refine ⟨?_, ?_, ?_⟩ <;> field_simp <;> ring
  · simp only [rayTriangleIntersect, decide_eq_true_eq]

/-- C35 on the triangle `(0,0,0), (1,0,0), (0,1,0)` and the ray from
`(1/4, 1/4, 1)` in direction `(0, 0, -1)`. -/
theorem rayTriangleIntersect_point_witness :
    dotProduct (crossProduct ⟨0, 0, -1⟩ ((⟨0, 1, 0⟩ : Vector3f).sub ⟨0, 0, 0⟩))
        ((⟨1, 0, 0⟩ : Vector3f).sub ⟨0, 0, 0⟩) ≠ 0 ∧
    (let r := rayTriangleIntersect ⟨0, 0, 0⟩ ⟨1, 0, 0⟩ ⟨0, 1, 0⟩ ⟨1 / 4, 1 / 4, 1⟩ ⟨0, 0, -1⟩
     (⟨1 / 4, 1 / 4, 1⟩ : Vector3f).add (Vector3f.smul r.2.1 ⟨0, 0, -1⟩)
        = ((Vector3f.smul (1 - r.2.2.1 - r.2.2.2) ⟨0, 0, 0⟩).add
            (Vector3f.smul r.2.2.1 ⟨1, 0, 0⟩)).add (Vector3f.smul r.2.2.2 ⟨0, 1, 0⟩) ∧
     (r.1 = true ↔ (r.2.1 > 0 ∧ r.2.2.1 > 0 ∧ r.2.2.2 > 0 ∧ 1 - r.2.2.1 - r.2.2.2 > 0))) :=
  ⟨by norm_num [dotProduct, crossProduct, Vector3f.sub],
   rayTriangleIntersect_point ⟨0, 0, 0⟩ ⟨1, 0, 0⟩ ⟨0, 1, 0⟩ ⟨1 / 4, 1 / 4, 1⟩ ⟨0, 0, -1⟩
     (by norm_num [dotProduct, crossProduct, Vector3f.sub])⟩

/-- The sample ray meets the sample triangle at distance 1 with `u = v = 1/4`,
and `rayTriangleIntersect` returns `true`. -/
theorem rayTriangleIntersect_sample :
    rayTriangleIntersect ⟨0, 0, 0⟩ ⟨1, 0, 0⟩ ⟨0, 1, 0⟩ ⟨1 / 4, 1 / 4, 1⟩ ⟨0, 0, -1⟩
      = (true, 1, 1 / 4, 1 / 4) := by
  norm_num [rayTriangleIntersect, dotProduct, crossProduct, Vector3f.sub]

/-! ## C36: `recursive_bezier` -/

/-- The empty vector: the fault. -/
theorem recursive_bezier_nil (t : ℚ) : recursive_bezier [] t = none := by
  rw [recursive_bezier]; simp

/-- One control point: the point itself. -/
theorem recursive_bezier_single (p : Point2f) (t : ℚ) : recursive_bezier [p] t = some p := by
  rw [recursive_bezier]; simp

/-- Two or more control points: the interpolation of the two recursive results. -/
theorem recursive_bezier_cons_cons (p q : Point2f) (rest : List Point2f) (t : ℚ) :
    recursive_bezier (p :: q :: rest) t
      = match recursive_bezier (p :: q :: rest).dropLast t, recursive_bezier (q :: rest) t with
        | some left_bezier, some right_bezier =>
          some ((left_bezier.scale (1 - t)).add (right_bezier.scale t))
        | _, _ => none := by
  rw [recursive_bezier]
  simp

/-- The Bernstein sum of degree `n` reads `f` at `0..n` only. -/
theorem bernstein_congr (f g : ℕ → ℚ) (t : ℚ) (n : ℕ) (h : ∀ i, i ≤ n → f i = g i) :
    bernstein f t n = bernstein g t n := by
  unfold bernstein
  apply Finset.sum_congr rfl
  intro i hi
  rw [h i (Nat.lt_succ_iff.mp (Finset.mem_range.mp hi))]

/-- The recurrence of the Bernstein sums (Pascal's rule): degree `n + 1` from
degree `n` on the first and on the last `n + 1` values. -/
theorem bernstein_succ (f : ℕ → ℚ) (t : ℚ) (n : ℕ) :
    bernstein f t (n + 1)
      = bernstein f t n * (1 - t) + bernstein (fun i => f (i + 1)) t n * t := by
  unfold bernstein
  rw [Finset.sum_range_succ' _ (n + 1)]
  have h1 : ∀ i ∈ Finset.range (n + 1),
      ((n + 1).choose (i + 1) : ℚ) * t ^ (i + 1) * (1 - t) ^ (n + 1 - (i + 1)) * f (i + 1)
        = ((n.choose i : ℚ) * t ^ i * (1 - t) ^ (n - i) * f (i + 1)) * t
          + (n.choose (i + 1) : ℚ) * t ^ (i + 1) * (1 - t) ^ (n - i) * f (i + 1) := by
    intro i _
    rw [Nat.choose_succ_succ, Nat.add_sub_add_right]
    push_cast
    ring
  rw [Finset.sum_congr rfl h1, Finset.sum_add_distrib, ← Finset.sum_mul]
  have h2 : ∑ i in Finset.range (n + 1),
        (n.choose (i + 1) : ℚ) * t ^ (i + 1) * (1 - t) ^ (n - i) * f (i + 1)
      + ((n + 1).choose 0 : ℚ) * t ^ 0 * (1 - t) ^ (n + 1 - 0) * f 0
      = (∑ i in Finset.range (n + 1), (n.choose i : ℚ) * t ^ i * (1 - t) ^ (n - i) * f i)
          * (1 - t) := by
    rw [Finset.sum_range_succ _ n, Finset.sum_range_succ' _ n, add_mul, Finset.sum_mul,
      Nat.choose_succ_self]
    have h3 : ∀ i ∈ Finset.range n,
        (n.choose (i + 1) : ℚ) * t ^ (i + 1) * (1 - t) ^ (n - i) * f (i + 1)
          = (n.choose (i + 1) : ℚ) * t ^ (i + 1) * (1 - t) ^ (n - (i + 1)) * f (i + 1)
              * (1 - t) := by
      intro i hi
      have hi2 : n - i = (n - (i + 1)) + 1 := by
        have := Finset.mem_range.mp hi
        omega
      rw [hi2, pow_succ]
      ring
    rw [Finset.sum_congr rfl h3]
    simp only [Nat.choose_zero_right, Nat.cast_one, Nat.cast_zero, pow_zero, Nat.sub_zero]
    ring
  rw [add_assoc, h2]
  ring

/-- Dropping the last element leaves the earlier entries. -/
theorem getD_dropLast (P : List Point2f) (d : Point2f) (i : ℕ) (hi : i < P.length - 1) :
    P.dropLast.getD i d = P.getD i d := by
  rw [List.getD_eq_getElem?_getD, List.getD_eq_getElem?_getD, List.dropLast_eq_take,
    List.getElem?_take_of_lt hi]

/-- On `n + 1` control points `recursive_bezier` returns the Bernstein sum of
degree `n`. -/
theorem recursive_bezier_eq_bernstein (t : ℚ) : ∀ (n : ℕ) (P : List Point2f),
    P.length = n + 1 → recursive_bezier P t = some (bernsteinPoint P t) := by
  intro n
  induction n with
  | zero =>
    intro P hP
    match P, hP with
    | [p], _ =>
      rw [recursive_bezier_single]
      simp [bernsteinPoint, bernstein]
  | succ n ih =>
    intro P hP
    match P, hP with
    | p :: q :: rest, hP =>
      have hl : (p :: q :: rest).dropLast.length = n + 1 := by
        rw [List.length_dropLast, hP]; rfl
      have hr : (q :: rest).length = n + 1 := by
        simpa using hP
      rw [recursive_bezier_cons_cons, ih _ hl, ih _ hr]
      simp only [bernsteinPoint, Point2f.scale, Point2f.add, hl, hr, hP, Nat.add_sub_cancel,
        Option.some.injEq, Point2f.mk.injEq]
      refine ⟨?_, ?_⟩
      · rw [bernstein_succ]
        congr 2
        apply bernstein_congr
        intro i hi
        rw [getD_dropLast _ _ _ (by rw [hP]; omega)]
      · rw [bernstein_succ]
        congr 2
        apply bernstein_congr
        intro i hi
        rw [getD_dropLast _ _ _ (by rw [hP]; omega)]

/-- At `t = 0` the Bernstein sum is the first value. -/
theorem bernstein_zero (f : ℕ → ℚ) (n : ℕ) : bernstein f 0 n = f 0 := by
  unfold bernstein
  rw [Finset.sum_eq_single 0]
  · simp
  · intro i _ hi
    simp [zero_pow hi]
  · intro h
    exact absurd (Finset.mem_range.mpr (Nat.succ_pos n)) h

/-- At `t = 1` the Bernstein sum is the last value. -/
theorem bernstein_one (f : ℕ → ℚ) (n : ℕ) : bernstein f 1 n = f n := by
  unfold bernstein
  rw [Finset.sum_eq_single n]
  · simp
  · intro i hi hne
    have : n - i ≠ 0 := by
      have := Finset.mem_range.mp hi
      omega
    simp [zero_pow this]
  · intro h
    exact absurd (Finset.mem_range.mpr (Nat.lt_succ_self n)) h

/-- On four control points `recursive_bezier` is the cubic formula of
`naive_bezier`. -/
theorem recursive_bezier_four (p0 p1 p2 p3 : Point2f) (t : ℚ) :
    recursive_bezier [p0, p1, p2, p3] t = naive_bezier [p0, p1, p2, p3] t := by
  simp only [recursive_bezier_cons_cons, recursive_bezier_single, List.dropLast, naive_bezier,
    List.getElem?_cons_zero, List.getElem?_cons_succ, Point2f.scale, Point2f.add, Point2f.smul,
    Option.some.injEq, Point2f.mk.injEq]
  constructor <;> ring

/-- C36: for every non-empty list of control points `P_0..P_n` and every `t`,
`recursive_bezier` returns the Bezier curve point
`Σ_i C(n, i)·t^i·(1 − t)^(n − i)·P_i`; it returns `P_0` at `t = 0` and `P_n` at
`t = 1`; and for four control points it equals the cubic formula evaluated by
`naive_bezier`. -/
theorem recursive_bezier_bernstein (control_points : List Point2f) (t : ℚ)
    (hne : control_points ≠ []) :
    recursive_bezier control_points t = some (bernsteinPoint control_points t) ∧
    recursive_bezier control_points 0 = some (control_points.head hne) ∧
    recursive_bezier control_points 1 = some (control_points.getLast hne) ∧
    (control_points.length = 4 →
      recursive_bezier control_points t = naive_bezier control_points t) := by
  obtain ⟨n, hn⟩ : ∃ n, control_points.length = n + 1 :=
    ⟨control_points.length - 1, by
      have := List.length_pos.mpr hne
      omega⟩
  refine ⟨recursive_bezier_eq_bernstein t n _ hn, ?_, ?_, ?_⟩
  · rw [recursive_bezier_eq_bernstein 0 n _ hn]
    simp only [bernsteinPoint, bernstein_zero]
    match control_points, hne with
    | p :: rest, _ => rfl
  · rw [recursive_bezier_eq_bernstein 1 n _ hn]
    simp only [bernsteinPoint, bernstein_one, hn, Nat.add_sub_cancel]
    have hlast : control_points.getD n ⟨0, 0⟩ = control_points.getLast hne := by
      rw [List.getD_eq_getElem?_getD, List.getLast_eq_getElem,
        List.getElem?_eq_getElem (by omega)]
      simp [hn]
    rw [← hlast]
  · intro h4
    match control_points, h4 with
    | [p0, p1, p2, p3], _ => exact recursive_bezier_four p0 p1 p2 p3 t

/-- C36 on the control points `(0,0), (1,2), (3,1), (4,0)` at `t = 1/3`. -/
theorem recursive_bezier_bernstein_witness :
    recursive_bezier [⟨0, 0⟩, ⟨1, 2⟩, ⟨3, 1⟩, ⟨4, 0⟩] (1 / 3)
      = some (bernsteinPoint [⟨0, 0⟩, ⟨1, 2⟩, ⟨3, 1⟩, ⟨4, 0⟩] (1 / 3)) ∧
    recursive_bezier [⟨0, 0⟩, ⟨1, 2⟩, ⟨3, 1⟩, ⟨4, 0⟩] 0
      = some (([⟨0, 0⟩, ⟨1, 2⟩, ⟨3, 1⟩, ⟨4, 0⟩] : List Point2f).head (List.cons_ne_nil _ _)) ∧
    recursive_bezier [⟨0, 0⟩, ⟨1, 2⟩, ⟨3, 1⟩, ⟨4, 0⟩] 1
      = some (([⟨0, 0⟩, ⟨1, 2⟩, ⟨3, 1⟩, ⟨4, 0⟩] : List Point2f).getLast (List.cons_ne_nil _ _)) ∧
    (([⟨0, 0⟩, ⟨1, 2⟩, ⟨3, 1⟩, ⟨4, 0⟩] : List Point2f).length = 4 →
      recursive_bezier [⟨0, 0⟩, ⟨1, 2⟩, ⟨3, 1⟩, ⟨4, 0⟩] (1 / 3)
        = naive_bezier [⟨0, 0⟩, ⟨1, 2⟩, ⟨3, 1⟩, ⟨4, 0⟩] (1 / 3)) :=
  recursive_bezier_bernstein [⟨0, 0⟩, ⟨1, 2⟩, ⟨3, 1⟩, ⟨4, 0⟩] (1 / 3) (List.cons_ne_nil _ _)

/-- The three evaluations agree on the sample control points at `t = 1/3`: the
point `(34/27, 10/9)`; on the empty vector `recursive_bezier` faults. -/
theorem recursive_bezier_sample :
    recursive_bezier [⟨0, 0⟩, ⟨1, 2⟩, ⟨3, 1⟩, ⟨4, 0⟩] (1 / 3) = some ⟨34 / 27, 10 / 9⟩ ∧
    bernsteinPoint [⟨0, 0⟩, ⟨1, 2⟩, ⟨3, 1⟩, ⟨4, 0⟩] (1 / 3) = ⟨34 / 27, 10 / 9⟩ ∧
    naive_bezier [⟨0, 0⟩, ⟨1, 2⟩, ⟨3, 1⟩, ⟨4, 0⟩] (1 / 3) = some ⟨34 / 27, 10 / 9⟩ ∧
    recursive_bezier [] (1 / 3) = none := by
  refine ⟨?_, ?_, ?_, recursive_bezier_nil _⟩
  · rw [recursive_bezier_four]
    norm_num [naive_bezier, Point2f.smul, Point2f.add]
  · norm_num [bernsteinPoint, bernstein, Finset.sum_range_succ, Nat.choose]
  · norm_num [naive_bezier, Point2f.smul, Point2f.add]

/-! ## C37: `computeBarycentric2D` -/

/-- C37: for a triangle of non-zero signed area and every point `(x, y)`, the
three weights returned by `computeBarycentric2D` sum to 1 and reproduce the
point: `c1·v0.x + c2·v1.x + c3·v2.x = x` and `c1·v0.y + c2·v1.y + c3·v2.y = y`. -/
theorem computeBarycentric2D_weights (x y : ℚ) (v : Vector3f × Vector3f × Vector3f)
    (harea : signedArea2 v ≠ 0) :
    let c := computeBarycentric2D x y v
    c.1 + c.2.1 + c.2.2 = 1 ∧
    c.1 * v.1.x + c.2.1 * v.2.1.x + c.2.2 * v.2.2.x = x ∧
    c.1 * v.1.y + c.2.1 * v.2.1.y + c.2.2 * v.2.2.y = y := by
  obtain ⟨⟨ax, ay, az⟩, ⟨bx, byy, bz⟩, ⟨cx, cy, cz⟩⟩ := v
  simp only [signedArea2] at harea
  have h1 : ax * (byy - cy) + (cx - bx) * ay + bx * cy - cx * byy ≠ 0 := by
    intro h; apply harea; linear_combination h
  have h2 : bx * (cy - ay) + (ax - cx) * byy + cx * ay - ax * cy ≠ 0 := by
    intro h; apply harea; linear_combination h
  have h3 : cx * (ay - byy) + (bx - ax) * cy + ax * byy - bx * ay ≠ 0 := by
    intro h; apply harea; linear_combination h
  simp only [computeBarycentric2D]
  refine ⟨?_, ?_, ?_⟩ <;> field_simp <;> ring

/-- C37 on the triangle `(1/4, 1/4), (1, 1/4), (1/4, 1)` and the point
`(1/2, 1/2)`. -/
theorem computeBarycentric2D_weights_witness :
    signedArea2 cornerTriangle ≠ 0 ∧
    (let c := computeBarycentric2D (1 / 2) (1 / 2) cornerTriangle
     c.1 + c.2.1 + c.2.2 = 1 ∧
     c.1 * cornerTriangle.1.x + c.2.1 * cornerTriangle.2.1.x + c.2.2 * cornerTriangle.2.2.x
       = 1 / 2 ∧
     c.1 * cornerTriangle.1.y + c.2.1 * cornerTriangle.2.1.y + c.2.2 * cornerTriangle.2.2.y
       = 1 / 2) :=
  ⟨by norm_num [signedArea2, cornerTriangle],
   computeBarycentric2D_weights (1 / 2) (1 / 2) cornerTriangle
     (by norm_num [signedArea2, cornerTriangle])⟩

/-- The weights of the point `(1/2, 1/2)` in the sample triangle. -/
theorem computeBarycentric2D_sample :
    computeBarycentric2D (1 / 2) (1 / 2) cornerTriangle = (1 / 3, 1 / 3, 1 / 3) := by
  norm_num [computeBarycentric2D, cornerTriangle]

/-! ## C38: the coverage test of `rasterize_triangle` -/

/-- A pixel coordinate `x ≥ 0` plus one half converts back to `x`. -/
theorem toInt_add_half (x : ℤ) (hx : 0 ≤ x) : toInt ((x : ℚ) + 1 / 2) = x := by
  have hq : (0 : ℚ) ≤ (x : ℚ) := by exact_mod_cast hx
  unfold toInt
  rw [if_pos (by linarith), Int.floor_eq_iff]
  constructor <;> linarith

/-- The function `insideTriangle` itself returns `true` exactly when the point
with the integer coordinates it is given lies on the same side of, or on, all
three edges. -/
theorem insideTriangle_iff (x y : ℤ) (v : Vector3f × Vector3f × Vector3f) :
    insideTriangle x y v = true ↔ OnSameSide (x : ℚ) (y : ℚ) v := by
  simp only [insideTriangle, OnSameSide, edgeFunctions, Vector3f.sub, decide_eq_true_eq,
    ge_iff_le]

/-- For a pixel of the screen (`x, y ≥ 0`) the coverage test of
`rasterize_triangle` is the same-side test at the pixel corner `(x, y)`. -/
theorem rasterize_triangle_covered_iff (v : Vector3f × Vector3f × Vector3f) (x y : ℤ)
    (hx : 0 ≤ x) (hy : 0 ≤ y) :
    rasterize_triangle_covered v x y = true ↔ OnSameSide (x : ℚ) (y : ℚ) v := by
  unfold rasterize_triangle_covered
  rw [toInt_add_half x hx, toInt_add_half y hy, insideTriangle_iff]

/-- C38 (the code deviates): for the triangle `(1/4, 1/4), (1, 1/4), (1/4, 1)`
and the pixel `(0, 0)`, the pixel centre `(1/2, 1/2)` lies on the same side of
all three edges and is where `computeBarycentric2D` is evaluated, but the
coverage test of `rasterize_triangle` is `insideTriangle(0, 0, ...)`, the test
at the pixel corner, and reports the pixel as not covered. -/
theorem rasterize_triangle_tests_corner :
    OnSameSide (1 / 2) (1 / 2) cornerTriangle ∧
    rasterize_triangle_barycentric cornerTriangle 0 0
      = computeBarycentric2D (1 / 2) (1 / 2) cornerTriangle ∧
    rasterize_triangle_covered cornerTriangle 0 0 = insideTriangle 0 0 cornerTriangle ∧
    rasterize_triangle_covered cornerTriangle 0 0 = false := by
  have hcov : rasterize_triangle_covered cornerTriangle 0 0
      = insideTriangle 0 0 cornerTriangle := by
    unfold rasterize_triangle_covered
    rw [toInt_add_half 0 (le_refl 0)]
  refine ⟨?_, ?_, hcov, ?_⟩
  · norm_num [OnSameSide, edgeFunctions, cornerTriangle]
  · norm_num [rasterize_triangle_barycentric]
  · rw [hcov]
    norm_num [insideTriangle, cornerTriangle, Vector3f.sub]

/-! ## C31: a zero direction component -/

theorem Ext.max_ninf_left (m : Ext) (hm : m ≠ Ext.nan) : Ext.max Ext.ninf m = m := by
  cases m <;> simp [Ext.max, Ext.lt] at hm ⊢

theorem Ext.max_ninf_right (m : Ext) : Ext.max m Ext.ninf = m := by
  cases m <;> simp [Ext.max, Ext.lt]

theorem Ext.min_pinf_left (m : Ext) (hm : m ≠ Ext.nan) : Ext.min Ext.pinf m = m := by
  cases m <;> simp [Ext.min, Ext.lt] at hm ⊢

theorem Ext.min_pinf_right (m : Ext) : Ext.min m Ext.pinf = m := by
  cases m <;> simp [Ext.min, Ext.lt]

theorem Ext.max_pinf_left (m : Ext) : Ext.max Ext.pinf m = Ext.pinf := by
  cases m <;> simp [Ext.max, Ext.lt]

theorem Ext.max_pinf_right (m : Ext) (hm : m ≠ Ext.nan) : Ext.max m Ext.pinf = Ext.pinf := by
  cases m <;> simp [Ext.max, Ext.lt] at hm ⊢

theorem Ext.min_ninf_left (m : Ext) : Ext.min Ext.ninf m = Ext.ninf := by
  cases m <;> simp [Ext.min, Ext.lt]

theorem Ext.min_ninf_right (m : Ext) (hm : m ≠ Ext.nan) : Ext.min m Ext.ninf = Ext.ninf := by
  cases m <;> simp [Ext.min, Ext.lt] at hm ⊢

theorem Ext.lt_pinf_left (m : Ext) : Ext.lt Ext.pinf m = false := by
  cases m <;> simp [Ext.lt]

theorem Ext.lt_ninf_right (m : Ext) : Ext.lt m Ext.ninf = false := by
  cases m <;> simp [Ext.lt]

theorem Ext.max_ne_nan (a b : Ext) (ha : a ≠ Ext.nan) (hb : b ≠ Ext.nan) :
    Ext.max a b ≠ Ext.nan := by
  unfold Ext.max
  split_ifs <;> assumption

theorem Ext.min_ne_nan (a b : Ext) (ha : a ≠ Ext.nan) (hb : b ≠ Ext.nan) :
    Ext.min a b ≠ Ext.nan := by
  unfold Ext.min
  split_ifs <;> assumption

/-- With a finite reciprocal no entry or exit parameter is NaN. -/
theorem slabInf_fin_ne_nan (b : Bounds3) (ray : Ray) (invDir : Ext × Ext × Ext)
    (dirIsNeg : ℤ × ℤ × ℤ) (k : ℕ) (q : ℚ) (hq : tripleAt k invDir = Ext.fin q) :
    (b.slabInf ray invDir dirIsNeg k).1 ≠ Ext.nan ∧
    (b.slabInf ray invDir dirIsNeg k).2 ≠ Ext.nan := by
  simp only [Bounds3.slabInf, hq, Ext.scale]
  constructor <;> split_ifs <;> simp

/-- `IntersectPInf` compares the largest entry with the smallest exit
parameter of the three axes. -/
theorem IntersectPInf_eq_slabs (b : Bounds3) (ray : Ray) (invDir : Ext × Ext × Ext)
    (dirIsNeg : ℤ × ℤ × ℤ) :
    b.IntersectPInf ray invDir dirIsNeg
      = Ext.lt
          (Ext.max (b.slabInf ray invDir dirIsNeg 0).1
            (Ext.max (b.slabInf ray invDir dirIsNeg 1).1 (b.slabInf ray invDir dirIsNeg 2).1))
          (Ext.min (b.slabInf ray invDir dirIsNeg 0).2
            (Ext.min (b.slabInf ray invDir dirIsNeg 1).2
              (b.slabInf ray invDir dirIsNeg 2).2)) := by
  simp [Bounds3.IntersectPInf, Bounds3.slabInf, tripleAt, Vector3f.coord]

/-- On finite reciprocals `IntersectPInf` is `IntersectP`. -/
theorem IntersectPInf_fin (b : Bounds3) (ray : Ray) (invDir : Vector3f)
    (dirIsNeg : ℤ × ℤ × ℤ) :
    b.IntersectPInf ray (Ext.fin invDir.x, Ext.fin invDir.y, Ext.fin invDir.z) dirIsNeg
      = b.IntersectP ray invDir dirIsNeg := by
  have hmax : ∀ p q : ℚ, Ext.max (Ext.fin p) (Ext.fin q) = Ext.fin (max p q) := by
    intro p q
    by_cases h : p < q
    · simp [Ext.max, Ext.lt, h, max_eq_right h.le]
    · simp [Ext.max, Ext.lt, h, max_eq_left (not_lt.mp h)]
  have hmin : ∀ p q : ℚ, Ext.min (Ext.fin p) (Ext.fin q) = Ext.fin (min p q) := by
    intro p q
    by_cases h : q < p
    · simp [Ext.min, Ext.lt, h, min_eq_right h.le]
    · simp [Ext.min, Ext.lt, h, min_eq_left (not_lt.mp h)]
  have hite : ∀ (c : Prop) [Decidable c] (p q : ℚ),
      (if c then Ext.fin p else Ext.fin q) = Ext.fin (if c then p else q) := by
    intro c _ p q
    split_ifs <;> rfl
  have hlt : ∀ p q : ℚ, Ext.lt (Ext.fin p) (Ext.fin q) = decide (p < q) := fun _ _ => rfl
  simp only [Bounds3.IntersectPInf, Bounds3.IntersectP, Ext.scale, hite, hmax, hmin, hlt,
    decide_eq_true_eq]

/-- The entry and exit parameter of an axis with reciprocal `+∞` and flag 0
whose slabs lie on both sides of the origin: `-∞` and `+∞`. -/
theorem slabInf_pinf_between (b : Bounds3) (ray : Ray) (invDir : Ext × Ext × Ext)
    (dirIsNeg : ℤ × ℤ × ℤ) (k : ℕ) (hinv : tripleAt k invDir = Ext.pinf)
    (hflag : ¬ tripleAt k dirIsNeg > 0)
    (hlo : Vector3f.coord k b.pMin < Vector3f.coord k ray.origin)
    (hhi : Vector3f.coord k ray.origin < Vector3f.coord k b.pMax) :
    b.slabInf ray invDir dirIsNeg k = (Ext.ninf, Ext.pinf) := by
  have h1 : ¬ (0 < Vector3f.coord k b.pMin - Vector3f.coord k ray.origin) := by linarith
  have h2 : Vector3f.coord k b.pMin - Vector3f.coord k ray.origin < 0 := by linarith
  have h3 : 0 < Vector3f.coord k b.pMax - Vector3f.coord k ray.origin := by linarith
  simp only [Bounds3.slabInf, hinv, Ext.scale, if_neg hflag, if_neg h1, if_pos h2, if_pos h3]

/-- The entry and exit parameter of an axis with reciprocal `-∞` and flag 0
whose slabs lie on both sides of the origin: `+∞` and `-∞`. -/
theorem slabInf_ninf_between (b : Bounds3) (ray : Ray) (invDir : Ext × Ext × Ext)
    (dirIsNeg : ℤ × ℤ × ℤ) (k : ℕ) (hinv : tripleAt k invDir = Ext.ninf)
    (hflag : ¬ tripleAt k dirIsNeg > 0)
    (hlo : Vector3f.coord k b.pMin < Vector3f.coord k ray.origin)
    (hhi : Vector3f.coord k ray.origin < Vector3f.coord k b.pMax) :
    b.slabInf ray invDir dirIsNeg k = (Ext.pinf, Ext.ninf) := by
  have h1 : ¬ (0 < Vector3f.coord k b.pMin - Vector3f.coord k ray.origin) := by linarith
  have h2 : Vector3f.coord k b.pMin - Vector3f.coord k ray.origin < 0 := by linarith
  have h3 : 0 < Vector3f.coord k b.pMax - Vector3f.coord k ray.origin := by linarith
  simp only [Bounds3.slabInf, hinv, Ext.scale, if_neg hflag, if_neg h1, if_pos h2, if_pos h3]

/-- The entry and exit parameter of an axis with an infinite reciprocal whose
slabs lie both on one side of the origin: twice the same infinity. -/
theorem slabInf_inf_outside (b : Bounds3) (ray : Ray) (invDir : Ext × Ext × Ext)
    (dirIsNeg : ℤ × ℤ × ℤ) (k : ℕ)
    (hinv : tripleAt k invDir = Ext.pinf ∨ tripleAt k invDir = Ext.ninf)
    (hout : (Vector3f.coord k ray.origin < Vector3f.coord k b.pMin ∧
             Vector3f.coord k ray.origin < Vector3f.coord k b.pMax) ∨
            (Vector3f.coord k b.pMin < Vector3f.coord k ray.origin ∧
             Vector3f.coord k b.pMax < Vector3f.coord k ray.origin)) :
    b.slabInf ray invDir dirIsNeg k = (Ext.pinf, Ext.pinf) ∨
    b.slabInf ray invDir dirIsNeg k = (Ext.ninf, Ext.ninf) := by
  rcases hout with ⟨h1, h2⟩ | ⟨h1, h2⟩
  · have a1 : 0 < Vector3f.coord k b.pMin - Vector3f.coord k ray.origin := by linarith
    have a2 : 0 < Vector3f.coord k b.pMax - Vector3f.coord k ray.origin := by linarith
    rcases hinv with hinv | hinv
    · left
      simp only [Bounds3.slabInf, hinv, Ext.scale, if_pos a1, if_pos a2, ite_self]
    · right
      simp only [Bounds3.slabInf, hinv, Ext.scale, if_pos a1, if_pos a2, ite_self]
  · have a1 : Vector3f.coord k b.pMin - Vector3f.coord k ray.origin < 0 := by linarith
    have a2 : Vector3f.coord k b.pMax - Vector3f.coord k ray.origin < 0 := by linarith
    have b1 : ¬ (0 < Vector3f.coord k b.pMin - Vector3f.coord k ray.origin) := by linarith
    have b2 : ¬ (0 < Vector3f.coord k b.pMax - Vector3f.coord k ray.origin) := by linarith
    rcases hinv with hinv | hinv
    · right
      simp only [Bounds3.slabInf, hinv, Ext.scale, if_pos a1, if_pos a2, if_neg b1, if_neg b2,
        ite_self]
    · left
      simp only [Bounds3.slabInf, hinv, Ext.scale, if_pos a1, if_pos a2, if_neg b1, if_neg b2,
        ite_self]

/-- An axis whose entry parameter is `+∞`, or whose exit parameter is `-∞`,
makes the comparison of `IntersectPInf` false when the other axes carry no
NaN. -/
theorem IntersectPInf_false_of_slab (b : Bounds3) (ray : Ray) (invDir : Ext × Ext × Ext)
    (dirIsNeg : ℤ × ℤ × ℤ) (k : ℕ) (hk : k < 3)
    (hnan : ∀ i, i < 3 → i ≠ k → (b.slabInf ray invDir dirIsNeg i).1 ≠ Ext.nan ∧
      (b.slabInf ray invDir dirIsNeg i).2 ≠ Ext.nan)
    (hslab : (b.slabInf ray invDir dirIsNeg k).1 = Ext.pinf ∨
      (b.slabInf ray invDir dirIsNeg k).2 = Ext.ninf) :
    b.IntersectPInf ray invDir dirIsNeg = false := by
  rw [IntersectPInf_eq_slabs]
  have n0 := hnan 0 (by norm_num)
  have n1 := hnan 1 (by norm_num)
  have n2 := hnan 2 (by norm_num)
  interval_cases k
  · rcases hslab with h | h
    · rw [h, Ext.max_pinf_left, Ext.lt_pinf_left]
    · rw [h, Ext.min_ninf_left, Ext.lt_ninf_right]
  · rcases hslab with h | h
    · rw [h, Ext.max_pinf_left, Ext.max_pinf_right _ (n0 (by norm_num)).1, Ext.lt_pinf_left]
    · rw [h, Ext.min_ninf_left, Ext.min_ninf_right _ (n0 (by norm_num)).2, Ext.lt_ninf_right]
  · rcases hslab with h | h
    · rw [h, Ext.max_pinf_right _ (n1 (by norm_num)).1,
        Ext.max_pinf_right _ (n0 (by norm_num)).1, Ext.lt_pinf_left]
    · rw [h, Ext.min_ninf_right _ (n1 (by norm_num)).2,
        Ext.min_ninf_right _ (n0 (by norm_num)).2, Ext.lt_ninf_right]

/-- C31 (amended): let the reciprocal on axis `k` be infinite (the direction
component is zero), the flag of that axis 0, and let no entry or exit
parameter of the two remaining axes be NaN.  When the reciprocal is `+∞` (the
component is `+0.0`) and the origin lies strictly between the two slabs of
axis `k`, `IntersectP` returns the same answer as the slab test restricted to
the remaining axes.  When the origin lies strictly outside the slabs of axis
`k` it returns false, for either infinity.  When the reciprocal is `-∞` (the
component is `-0.0`) and the origin lies strictly between the slabs, it
returns false. -/
theorem IntersectPInf_zero_component (b : Bounds3) (ray : Ray) (invDir : Ext × Ext × Ext)
    (dirIsNeg : ℤ × ℤ × ℤ) (k : ℕ) (hk : k < 3)
    (hflag : ¬ tripleAt k dirIsNeg > 0)
    (hnan : ∀ i, i < 3 → i ≠ k → (b.slabInf ray invDir dirIsNeg i).1 ≠ Ext.nan ∧
      (b.slabInf ray invDir dirIsNeg i).2 ≠ Ext.nan) :
    (tripleAt k invDir = Ext.pinf →
      Vector3f.coord k b.pMin < Vector3f.coord k ray.origin →
      Vector3f.coord k ray.origin < Vector3f.coord k b.pMax →
      b.IntersectPInf ray invDir dirIsNeg
        = slabTest2 (b.slabInf ray invDir dirIsNeg (remainingAxes k).1)
            (b.slabInf ray invDir dirIsNeg (remainingAxes k).2)) ∧
    ((tripleAt k invDir = Ext.pinf ∨ tripleAt k invDir = Ext.ninf) →
      ((Vector3f.coord k ray.origin < Vector3f.coord k b.pMin ∧
        Vector3f.coord k ray.origin < Vector3f.coord k b.pMax) ∨
       (Vector3f.coord k b.pMin < Vector3f.coord k ray.origin ∧
        Vector3f.coord k b.pMax < Vector3f.coord k ray.origin)) →
      b.IntersectPInf ray invDir dirIsNeg = false) ∧
    (tripleAt k invDir = Ext.ninf →
      Vector3f.coord k b.pMin < Vector3f.coord k ray.origin →
      Vector3f.coord k ray.origin < Vector3f.coord k b.pMax →
      b.IntersectPInf ray invDir dirIsNeg = false) := by
  refine ⟨?_, ?_, ?_⟩
  · intro hinv hlo hhi
    have hs := slabInf_pinf_between b ray invDir dirIsNeg k hinv hflag hlo hhi
    have n0 := hnan 0 (by norm_num)
    have n1 := hnan 1 (by norm_num)
    have n2 := hnan 2 (by norm_num)
    rw [IntersectPInf_eq_slabs]
    interval_cases k
    · rw [hs, Ext.max_ninf_left _ (Ext.max_ne_nan _ _ (n1 (by norm_num)).1 (n2 (by norm_num)).1),
        Ext.min_pinf_left _ (Ext.min_ne_nan _ _ (n1 (by norm_num)).2 (n2 (by norm_num)).2)]
      rfl
    · rw [hs, Ext.max_ninf_left _ (n2 (by norm_num)).1,
        Ext.min_pinf_left _ (n2 (by norm_num)).2]
      rfl
    · rw [hs, Ext.max_ninf_right, Ext.min_pinf_right]
      rfl
  · intro hinv hout
    apply IntersectPInf_false_of_slab b ray invDir dirIsNeg k hk hnan
    rcases slabInf_inf_outside b ray invDir dirIsNeg k hinv hout with h | h
    · exact Or.inl (by rw [h])
    · exact Or.inr (by rw [h])
  · intro hinv hlo hhi
    apply IntersectPInf_false_of_slab b ray invDir dirIsNeg k hk hnan
    exact Or.inl (by rw [slabInf_ninf_between b ray invDir dirIsNeg k hinv hflag hlo hhi])

/-- The reciprocals of the direction of `planeRay` when its zero component is
`+0.0`, and when it is `-0.0`. -/
theorem planeRay_recipInf :
    (recipInf planeRay.direction.x false, recipInf planeRay.direction.y false,
      recipInf planeRay.direction.z false) = (Ext.pinf, Ext.fin (5 / 3), Ext.fin (5 / 4)) ∧
    (recipInf planeRay.direction.x true, recipInf planeRay.direction.y false,
      recipInf planeRay.direction.z false) = (Ext.ninf, Ext.fin (5 / 3), Ext.fin (5 / 4)) ∧
    negFlags planeRay.direction = (0, 0, 0) := by
  refine ⟨?_, ?_, ?_⟩ <;> norm_num [recipInf, planeRay, negFlags, boolToInt]

/-- C31 (as stated): `planeRay` has the direction component 0 on the x axis and
its origin lies strictly between the x slabs of `unitBox`; the slab test
restricted to the y and z axes succeeds (the ray enters at `t = 15/4` and
leaves at `t = 25/4`).  When that zero is `-0.0`, the reciprocal is `-∞` and
`IntersectP`, called with the reciprocals and the flags of the negative
components, returns false. -/
theorem IntersectPInf_negZero_ne_restricted :
    planeRay.direction.x = 0 ∧
    unitBox.pMin.x < planeRay.origin.x ∧ planeRay.origin.x < unitBox.pMax.x ∧
    recipInf planeRay.direction.x true = Ext.ninf ∧
    slabTest2
      (unitBox.slabInf planeRay
        (recipInf planeRay.direction.x true, recipInf planeRay.direction.y false,
          recipInf planeRay.direction.z false) (negFlags planeRay.direction) 1)
      (unitBox.slabInf planeRay
        (recipInf planeRay.direction.x true, recipInf planeRay.direction.y false,
          recipInf planeRay.direction.z false) (negFlags planeRay.direction) 2)
      = true ∧
    unitBox.IntersectPInf planeRay
      (recipInf planeRay.direction.x true, recipInf planeRay.direction.y false,
        recipInf planeRay.direction.z false) (negFlags planeRay.direction) = false := by
  rw [planeRay_recipInf.2.1, planeRay_recipInf.2.2]
  refine ⟨rfl, by norm_num [unitBox, planeRay], by norm_num [unitBox, planeRay],
    by norm_num [recipInf, planeRay], ?_, ?_⟩
  · norm_num [slabTest2, Bounds3.slabInf, tripleAt, Vector3f.coord, Ext.scale, Ext.max,
      Ext.min, Ext.lt, unitBox, planeRay]
  · norm_num [Bounds3.IntersectPInf, Ext.scale, Ext.max, Ext.min, Ext.lt, unitBox, planeRay]

/-- C31 (amended) for `unitBox`, `planeRay` with the zero component `+0.0`
and the axis x: `IntersectP` agrees with the slab test on the y and z axes,
which succeeds. -/
theorem IntersectPInf_zero_component_witness :
    unitBox.IntersectPInf planeRay (Ext.pinf, Ext.fin (5 / 3), Ext.fin (5 / 4)) (0, 0, 0)
      = slabTest2
          (unitBox.slabInf planeRay (Ext.pinf, Ext.fin (5 / 3), Ext.fin (5 / 4)) (0, 0, 0) 1)
          (unitBox.slabInf planeRay (Ext.pinf, Ext.fin (5 / 3), Ext.fin (5 / 4)) (0, 0, 0) 2) :=
  (IntersectPInf_zero_component unitBox planeRay (Ext.pinf, Ext.fin (5 / 3), Ext.fin (5 / 4))
    (0, 0, 0) 0 (by norm_num) (by norm_num [tripleAt])
    (fun i hi hne => by
      interval_cases i
      · exact absurd rfl hne
      · exact slabInf_fin_ne_nan _ _ _ _ 1 (5 / 3) rfl
      · exact slabInf_fin_ne_nan _ _ _ _ 2 (5 / 4) rfl)).1 rfl
    (by norm_num [Vector3f.coord, unitBox, planeRay])
    (by norm_num [Vector3f.coord, unitBox, planeRay])

/-- With `+0.0` the test on `unitBox` and `planeRay` succeeds. -/
theorem IntersectPInf_posZero_sample :
    unitBox.IntersectPInf planeRay
      (recipInf planeRay.direction.x false, recipInf planeRay.direction.y false,
        recipInf planeRay.direction.z false) (negFlags planeRay.direction) = true := by
  rw [planeRay_recipInf.1, planeRay_recipInf.2.2]
  norm_num [Bounds3.IntersectPInf, Ext.scale, Ext.max, Ext.min, Ext.lt, unitBox, planeRay]

/-! ## C27: `std::sort` and primitives with equal keys -/

/-- The centroid box of the seventeen column primitives is widest on the x
axis. -/
theorem columnBox_maxExtent : (centroidBoundsOf columnBox columnObjects).maxExtent = 0 := by
  have hcb : centroidBoundsOf columnBox columnObjects
      = ⟨⟨1 / 2, 1 / 2, 1 / 2⟩, ⟨201 / 2, 33 / 2, 1 / 2⟩⟩ := by
    norm_num [centroidBoundsOf, UnionPoint, Vector3f.Min, Vector3f.Max, Bounds3.empty,
      maxNum, minNum, columnBox, columnObjects, Bounds3.Centroid, Vector3f.add, Vector3f.smul]
  rw [hcb]
  norm_num [Bounds3.maxExtent, Bounds3.Diagonal, Vector3f.sub]

/-- The comparison of the x centroids of two column primitives is the
comparison of their columns. -/
theorem columnBox_comp :
    (fun f1 f2 : ℕ => decide ((columnBox f1).Centroid.x < (columnBox f2).Centroid.x))
      = fun a b => decide (a % 2 < b % 2) := by
  funext a b
  have h : (columnBox a).Centroid.x < (columnBox b).Centroid.x ↔ a % 2 < b % 2 := by
    simp only [columnBox, Bounds3.Centroid, Vector3f.add, Vector3f.smul]
    constructor
    · intro h
      have h2 : ((a % 2 : ℕ) : ℚ) < ((b % 2 : ℕ) : ℚ) := by linarith
      exact_mod_cast h2
    · intro h
      have h2 : ((a % 2 : ℕ) : ℚ) < ((b % 2 : ℕ) : ℚ) := by exact_mod_cast h
      linarith
  simp only [h]

set_option maxRecDepth 100000 in
/-- The result of the library sort on the seventeen primitives, compared by
column. -/
theorem libstdcxx_sort_columns :
    libstdcxx.sort (fun a b : ℕ => decide (a % 2 < b % 2)) columnObjects
      = [8, 16, 14, 12, 10, 0, 6, 4, 2, 7, 5, 9, 11, 3, 13, 15, 1] := by
  decide

/-- The result of a stable sort on the seventeen primitives, compared by
column. -/
theorem insertionSort_columns :
    insertionSort (fun a b : ℕ => decide (a % 2 < b % 2)) columnObjects
      = [0, 2, 4, 6, 8, 10, 12, 14, 16, 1, 3, 5, 7, 9, 11, 13, 15] := by
  decide

/-- C27 (as stated): the seventeen primitives `0, ..., 16` stand in two columns,
the even ones at `x = 0` and the odd ones at `x = 100`, so `recursiveBuild`
splits on the x axis and the primitives of one column have equal keys.  The
`std::sort` of the GNU C++ library does not keep them in input order: the
sorted list starts `8, 16, 14, 12, 10, 0, ...` (primitive 8 before primitive
0), and the two halves handed to the recursive calls are not the halves that
a stable sort gives (primitive 16 is in the left half instead of primitive
2). -/
theorem recursiveBuild_libstdcxx_sort_unstable :
    (centroidBoundsOf columnBox columnObjects).maxExtent = 0 ∧
    (columnBox 0).Centroid.x = (columnBox 8).Centroid.x ∧
    sortByDim columnBox libstdcxx.sort 0 columnObjects
      = [8, 16, 14, 12, 10, 0, 6, 4, 2, 7, 5, 9, 11, 3, 13, 15, 1] ∧
    recursiveCallArgs columnBox libstdcxx.sort columnObjects
      = [[8, 16, 14, 12, 10, 0, 6, 4], [2, 7, 5, 9, 11, 3, 13, 15, 1]] ∧
    recursiveCallArgs columnBox insertionSort columnObjects
      = [[0, 2, 4, 6, 8, 10, 12, 14], [16, 1, 3, 5, 7, 9, 11, 13, 15]] ∧
    ¬ SortStable (libstdcxx.sort : (ℕ → ℕ → Bool) → List ℕ → List ℕ) := by
  have hs : sortByDim columnBox libstdcxx.sort 0 columnObjects
      = [8, 16, 14, 12, 10, 0, 6, 4, 2, 7, 5, 9, 11, 3, 13, 15, 1] := by
    show libstdcxx.sort _ columnObjects = _
    rw [columnBox_comp, libstdcxx_sort_columns]
  have hi : sortByDim columnBox insertionSort 0 columnObjects
      = [0, 2, 4, 6, 8, 10, 12, 14, 16, 1, 3, 5, 7, 9, 11, 13, 15] := by
    show insertionSort _ columnObjects = _
    rw [columnBox_comp, insertionSort_columns]
  have hargs : ∀ sort : (ℕ → ℕ → Bool) → List ℕ → List ℕ,
      recursiveCallArgs columnBox sort columnObjects
        = [(sortByDim columnBox sort 0 columnObjects).take
            ((sortByDim columnBox sort 0 columnObjects).length / 2),
           (sortByDim columnBox sort 0 columnObjects).drop
            ((sortByDim columnBox sort 0 columnObjects).length / 2)] := by
    intro sort
    rw [← columnBox_maxExtent]
    rfl
  refine ⟨columnBox_maxExtent, ?_, hs, ?_, ?_, ?_⟩
  · norm_num [columnBox, Bounds3.Centroid, Vector3f.add, Vector3f.smul]
  · rw [hargs, hs]
    rfl
  · rw [hargs, hi]
    rfl
  · intro hstable
    have h := hstable (fun a => ((a % 2 : ℕ) : ℚ)) columnObjects 0
    have hc : (fun a b : ℕ => decide (((a % 2 : ℕ) : ℚ) < ((b % 2 : ℕ) : ℚ)))
        = fun a b => decide (a % 2 < b % 2) := by
      funext a b
      simp only [Nat.cast_lt]
    rw [hc, libstdcxx_sort_columns] at h
    have h2 := congrArg List.head? h
    norm_num [columnObjects, List.filter] at h2

/-- A list of one primitive is never sorted. -/
theorem SplitKeysDistinct_singleton {Obj : Type} (getBounds : Obj → Bounds3) (fuel : ℕ)
    (o : Obj) : SplitKeysDistinct getBounds fuel [o] := by
  cases fuel with
  | zero => trivial
  | succ fuel => simp [SplitKeysDistinct]

/-- Two sorts that both permute and order their input give the same list in
the `switch` of `recursiveBuild` when the keys on the split axis are pairwise
distinct. -/
theorem sortByDim_eq_of_nodup {Obj : Type} (getBounds : Obj → Bounds3)
    (s1 s2 : (Obj → Obj → Bool) → List Obj → List Obj)
    (h1p : SortPermutes s1) (h1o : SortOrders s1) (h2p : SortPermutes s2)
    (h2o : SortOrders s2) (dim : ℕ) (objs : List Obj)
    (hd : (objs.map fun o => Vector3f.coord dim (getBounds o).Centroid).Nodup) :
    sortByDim getBounds s1 dim objs = sortByDim getBounds s2 dim objs := by
  match dim with
  | 0 =>
    exact sort_eq_of_nodup s1 s2 h1p h1o h2p h2o (fun o => (getBounds o).Centroid.x) objs hd
  | 1 =>
    exact sort_eq_of_nodup s1 s2 h1p h1o h2p h2o (fun o => (getBounds o).Centroid.y) objs hd
  | 2 =>
    exact sort_eq_of_nodup s1 s2 h1p h1o h2p h2o (fun o => (getBounds o).Centroid.z) objs hd
  | _ + 3 => rfl

/-- With pairwise distinct keys wherever the construction sorts, a sort that
permutes and orders its input builds the tree that the insertion sort
builds. -/
theorem recursiveBuild_eq_insertionSort {Obj : Type} (getBounds : Obj → Bounds3)
    (s : (Obj → Obj → Bool) → List Obj → List Obj)
    (hp : SortPermutes s) (ho : SortOrders s) (fuel : ℕ) (objs : List Obj)
    (hd : SplitKeysDistinct getBounds fuel objs) :
    recursiveBuild getBounds s fuel objs = recursiveBuild getBounds insertionSort fuel objs := by
  induction fuel generalizing objs with
  | zero => rfl
  | succ fuel ih =>
    by_cases h1 : objs.length = 1
    · obtain ⟨o, rfl⟩ := List.length_eq_one.mp h1
      rfl
    · by_cases h2 : objs.length = 2
      · obtain ⟨o0, o1, rfl⟩ := List.length_eq_two.mp h2
        rw [recursiveBuild_pair, recursiveBuild_pair,
          ih [o0] (SplitKeysDistinct_singleton getBounds fuel o0),
          ih [o1] (SplitKeysDistinct_singleton getBounds fuel o1)]
      · simp only [SplitKeysDistinct, h1, h2, or_self, if_false] at hd
        obtain ⟨hnd, hl, hr⟩ := hd
        rw [recursiveBuild_many getBounds s fuel objs h1 h2,
          recursiveBuild_many getBounds insertionSort fuel objs h1 h2,
          sortByDim_eq_of_nodup getBounds s insertionSort hp ho insertionSort_permutes
            insertionSort_orders _ objs hnd,
          ih _ hl, ih _ hr]

/-- C27 (amended): `std::sort` need not keep primitives with equal keys in
their input order.  When no two primitives have the same centroid coordinate
on the split axis wherever `recursiveBuild` sorts, the built tree is uniquely
determined by the input list: any two sorts that give a permutation ordered by
the comparison, stable or not, build the same tree. -/
theorem recursiveBuild_unique_of_distinct_keys {Obj : Type} (getBounds : Obj → Bounds3)
    (s1 s2 : (Obj → Obj → Bool) → List Obj → List Obj)
    (h1p : SortPermutes s1) (h1o : SortOrders s1) (h2p : SortPermutes s2)
    (h2o : SortOrders s2) (fuel : ℕ) (objs : List Obj)
    (hd : SplitKeysDistinct getBounds fuel objs) :
    recursiveBuild getBounds s1 fuel objs = recursiveBuild getBounds s2 fuel objs :=
  (recursiveBuild_eq_insertionSort getBounds s1 h1p h1o fuel objs hd).trans
    (recursiveBuild_eq_insertionSort getBounds s2 h2p h2o fuel objs hd).symm

/-- The primitives `2, 0, 1` with the bounds `boxAt` have distinct keys on the
split axis x (and equal centroid coordinates on the other two axes). -/
theorem boxAt_split_keys_distinct : SplitKeysDistinct boxAt 3 [2, 0, 1] := by
  have hcb : centroidBoundsOf boxAt [2, 0, 1] = ⟨⟨1 / 2, 1 / 2, 1 / 2⟩, ⟨5 / 2, 1 / 2, 1 / 2⟩⟩ := by
    norm_num [centroidBoundsOf, UnionPoint, Vector3f.Min, Vector3f.Max, Bounds3.empty,
      maxNum, minNum, boxAt, Bounds3.Centroid, Vector3f.add, Vector3f.smul]
  have hdim : (centroidBoundsOf boxAt [2, 0, 1]).maxExtent = 0 := by
    rw [hcb]
    norm_num [Bounds3.maxExtent, Bounds3.Diagonal, Vector3f.sub]
  have hsort : sortByDim boxAt insertionSort 0 [2, 0, 1] = [0, 1, 2] := by
    norm_num [sortByDim, insertionSort, List.insertionSort, List.orderedInsert, boxAt,
      Bounds3.Centroid, Vector3f.add, Vector3f.smul]
  have hstep : SplitKeysDistinct boxAt 3 [2, 0, 1]
      ↔ (([2, 0, 1] : List ℕ).map fun o =>
          Vector3f.coord (centroidBoundsOf boxAt [2, 0, 1]).maxExtent
            (boxAt o).Centroid).Nodup ∧
        SplitKeysDistinct boxAt 2
          ((sortByDim boxAt insertionSort (centroidBoundsOf boxAt [2, 0, 1]).maxExtent
              [2, 0, 1]).take
            ((sortByDim boxAt insertionSort (centroidBoundsOf boxAt [2, 0, 1]).maxExtent
              [2, 0, 1]).length / 2)) ∧
        SplitKeysDistinct boxAt 2
          ((sortByDim boxAt insertionSort (centroidBoundsOf boxAt [2, 0, 1]).maxExtent
              [2, 0, 1]).drop
            ((sortByDim boxAt insertionSort (centroidBoundsOf boxAt [2, 0, 1]).maxExtent
              [2, 0, 1]).length / 2)) := by
    simp [SplitKeysDistinct]
  rw [hstep, hdim, hsort]
  refine ⟨?_, ?_, ?_⟩
  · norm_num [Vector3f.coord, boxAt, Bounds3.Centroid, Vector3f.add, Vector3f.smul]
  · exact SplitKeysDistinct_singleton boxAt 2 0
  · show SplitKeysDistinct boxAt 2 [1, 2]
    simp [SplitKeysDistinct]

/-- C27 (amended) for the primitives `2, 0, 1` with the bounds `boxAt`: the
insertion sort and `reverseSort` build the same tree. -/
theorem recursiveBuild_unique_of_distinct_keys_witness :
    SplitKeysDistinct boxAt 3 [2, 0, 1] ∧
    recursiveBuild boxAt insertionSort 3 [2, 0, 1]
      = recursiveBuild boxAt reverseSort 3 [2, 0, 1] :=
  ⟨boxAt_split_keys_distinct,
   recursiveBuild_unique_of_distinct_keys boxAt insertionSort reverseSort
     insertionSort_permutes insertionSort_orders reverseSort_permutes reverseSort_orders
     3 [2, 0, 1] boxAt_split_keys_distinct⟩

end GAMES101
